import Mathlib

/-!
# OcSmbiosLib: SMBIOS table builder and walker (`SmbiosInternal.c`)

A shallow embedding of `Library/OcSmbiosLib/SmbiosInternal.c`.

* Pointers are natural-number addresses, `0` being `NULL`.  The pool block
  that `Table->Table` points to is carried as the byte list `Pool`; the byte at
  address `a` is `Pool[a - Table]`.  A pointer difference is a difference of
  natural numbers, which is the C value whenever the cursor is at or above the
  buffer start (`ValidTable`).
* Machine integers are natural numbers reduced modulo `2 ^ w` where the C code
  computes in a `w`-bit type.
* The constants of `SmbiosInternal.h` and of the SMBIOS headers (record types,
  reserved handles, size limits) are not part of the translated file; they
  are the fields of `Constants`, and every theorem holds for all their values
  that satisfy its stated side conditions.
* `ASSERT` and `DEBUG` are no-ops (release build).
* A store outside the block is dropped; a walker read outside the block makes
  the walker return `none`.  The theorems on buffer contents carry the
  hypotheses that place every access inside the block.
-/

namespace OcSmbios

/-- The three `EFI_STATUS` values the file returns. -/
inductive EFI_STATUS where
  | EFI_SUCCESS
  | EFI_OUT_OF_RESOURCES
  | EFI_INVALID_PARAMETER
  deriving DecidableEq, Repr

/-- Named constants used by `SmbiosInternal.c` whose values are declared in
headers outside the translated file. -/
structure Constants where
  EFI_PAGE_SIZE : Nat
  SMBIOS_TABLE_MAX_LENGTH : Nat
  SMBIOS_STRING_MAX_LENGTH : Nat
  SMBIOS_TYPE_CACHE_INFORMATION : Nat
  SMBIOS_TYPE_PORT_CONNECTOR_INFORMATION : Nat
  SMBIOS_TYPE_SYSTEM_SLOTS : Nat
  SMBIOS_TYPE_MEMORY_ARRAY_MAPPED_ADDRESS : Nat
  SMBIOS_TYPE_MEMORY_DEVICE : Nat
  SMBIOS_TYPE_MEMORY_DEVICE_MAPPED_ADDRESS : Nat
  SMBIOS_TYPE_BIOS_INFORMATION : Nat
  SMBIOS_TYPE_SYSTEM_INFORMATION : Nat
  SMBIOS_TYPE_BASEBOARD_INFORMATION : Nat
  SMBIOS_TYPE_SYSTEM_ENCLOSURE : Nat
  SMBIOS_TYPE_PROCESSOR_INFORMATION : Nat
  SMBIOS_TYPE_MEMORY_CONTROLLER_INFORMATION : Nat
  SMBIOS_TYPE_MEMORY_MODULE_INFORMATON : Nat
  SMBIOS_TYPE_ONBOARD_DEVICE_INFORMATION : Nat
  SMBIOS_TYPE_OEM_STRINGS : Nat
  SMBIOS_TYPE_SYSTEM_CONFIGURATION_OPTIONS : Nat
  SMBIOS_TYPE_BIOS_LANGUAGE_INFORMATION : Nat
  SMBIOS_TYPE_GROUP_ASSOCIATIONS : Nat
  SMBIOS_TYPE_SYSTEM_EVENT_LOG : Nat
  SMBIOS_TYPE_PHYSICAL_MEMORY_ARRAY : Nat
  SMBIOS_TYPE_32BIT_MEMORY_ERROR_INFORMATION : Nat
  SMBIOS_TYPE_BUILT_IN_POINTING_DEVICE : Nat
  SMBIOS_TYPE_PORTABLE_BATTERY : Nat
  SMBIOS_TYPE_SYSTEM_RESET : Nat
  SMBIOS_TYPE_HARDWARE_SECURITY : Nat
  SMBIOS_TYPE_SYSTEM_POWER_CONTROLS : Nat
  SMBIOS_TYPE_VOLTAGE_PROBE : Nat
  SMBIOS_TYPE_COOLING_DEVICE : Nat
  SMBIOS_TYPE_TEMPERATURE_PROBE : Nat
  SMBIOS_TYPE_ELECTRICAL_CURRENT_PROBE : Nat
  SMBIOS_TYPE_OUT_OF_BAND_REMOTE_ACCESS : Nat
  SMBIOS_TYPE_BOOT_INTEGRITY_SERVICE : Nat
  SMBIOS_TYPE_SYSTEM_BOOT_INFORMATION : Nat
  SMBIOS_TYPE_64BIT_MEMORY_ERROR_INFORMATION : Nat
  SMBIOS_TYPE_MANAGEMENT_DEVICE : Nat
  SMBIOS_TYPE_MANAGEMENT_DEVICE_COMPONENT : Nat
  SMBIOS_TYPE_MANAGEMENT_DEVICE_THRESHOLD_DATA : Nat
  SMBIOS_TYPE_MEMORY_CHANNEL : Nat
  SMBIOS_TYPE_IPMI_DEVICE_INFORMATION : Nat
  SMBIOS_TYPE_SYSTEM_POWER_SUPPLY : Nat
  SMBIOS_TYPE_ADDITIONAL_INFORMATION : Nat
  SMBIOS_TYPE_ONBOARD_DEVICES_EXTENDED_INFORMATION : Nat
  SMBIOS_TYPE_MANAGEMENT_CONTROLLER_HOST_INTERFACE : Nat
  SMBIOS_TYPE_TPM_DEVICE : Nat
  SMBIOS_TYPE_INACTIVE : Nat
  SMBIOS_TYPE_END_OF_TABLE : Nat
  APPLE_SMBIOS_TYPE_FIRMWARE_INFORMATION : Nat
  APPLE_SMBIOS_TYPE_MEMORY_SPD_DATA : Nat
  APPLE_SMBIOS_TYPE_PROCESSOR_TYPE : Nat
  APPLE_SMBIOS_TYPE_PROCESSOR_BUS_SPEED : Nat
  APPLE_SMBIOS_TYPE_PLATFORM_FEATURE : Nat
  APPLE_SMBIOS_TYPE_SMC_INFORMATION : Nat
  OcSmbiosL1CacheHandle : Nat
  OcSmbiosL2CacheHandle : Nat
  OcSmbiosL3CacheHandle : Nat
  OcSmbiosBiosInformationHandle : Nat
  OcSmbiosSystemInformationHandle : Nat
  OcSmbiosBaseboardInformationHandle : Nat
  OcSmbiosSystemEnclosureHandle : Nat
  OcSmbiosProcessorInformationHandle : Nat
  OcSmbiosMemoryControllerInformationHandle : Nat
  OcSmbiosMemoryModuleInformatonHandle : Nat
  OcSmbiosOnboardDeviceInformationHandle : Nat
  OcSmbiosOemStringsHandle : Nat
  OcSmbiosSystemConfigurationOptionsHandle : Nat
  OcSmbiosBiosLanguageInformationHandle : Nat
  OcSmbiosGroupAssociationsHandle : Nat
  OcSmbiosSystemEventLogHandle : Nat
  OcSmbiosPhysicalMemoryArrayHandle : Nat
  OcSmbios32BitMemoryErrorInformationHandle : Nat
  OcSmbiosBuiltInPointingDeviceHandle : Nat
  OcSmbiosPortableBatteryHandle : Nat
  OcSmbiosSystemResetHandle : Nat
  OcSmbiosHardwareSecurityHandle : Nat
  OcSmbiosSystemPowerControlsHandle : Nat
  OcSmbiosVoltageProbeHandle : Nat
  OcSmbiosCoolingDeviceHandle : Nat
  OcSmbiosTemperatureProbeHandle : Nat
  OcSmbiosElectricalCurrentProbeHandle : Nat
  OcSmbiosOutOfBandRemoteAccessHandle : Nat
  OcSmbiosBootIntegrityServiceHandle : Nat
  OcSmbiosSystemBootInformationHandle : Nat
  OcSmbios64BitMemoryErrorInformationHandle : Nat
  OcSmbiosManagementDeviceHandle : Nat
  OcSmbiosManagementDeviceComponentHandle : Nat
  OcSmbiosManagementDeviceThresholdDataHandle : Nat
  OcSmbiosMemoryChannelHandle : Nat
  OcSmbiosIpmiDeviceInformationHandle : Nat
  OcSmbiosSystemPowerSupplyHandle : Nat
  OcSmbiosAdditionalInformationHandle : Nat
  OcSmbiosOnboardDevicesExtendedInformationHandle : Nat
  OcSmbiosManagementControllerHostInterfaceHandle : Nat
  OcSmbiosTpmDeviceHandle : Nat
  OcSmbiosInactiveHandle : Nat
  OcSmbiosEndOfTableHandle : Nat
  OcAppleSmbiosFirmwareInformationHandle : Nat
  OcAppleSmbiosMemorySpdDataHandle : Nat
  OcAppleSmbiosProcessorTypeHandle : Nat
  OcAppleSmbiosProcessorBusSpeedHandle : Nat
  OcAppleSmbiosPlatformFeatureHandle : Nat
  OcAppleSmbiosSmcInformationHandle : Nat
  OcSmbiosAutomaticHandle : Nat

/-- Terminator bytes requested with every extension.  The source states the
value where it uses it: "We allocate 2 extra bytes
(SMBIOS_STRUCTURE_TERMINATOR_SIZE)". -/
def SMBIOS_STRUCTURE_TERMINATOR_SIZE : Nat := 2

/-- Modelled from the spec: the hex form starts with a "fixed two-character
prefix" (the source writes `'0'`, `'x'`), so the prefix width is 2. -/
def SMBIOS_STRING_HEX_PREFIX_SIZE : Nat := 2

/-- Modelled from the spec: "rounds the request up to an allocation
granularity" (the `ALIGN_VALUE` of the platform headers). -/
def ALIGN_VALUE (Value Alignment : Nat) : Nat :=
  (Value + Alignment - 1) / Alignment * Alignment

/-- The builder state `OC_SMBIOS_TABLE`.  `Table`, `CurrentPtr` (the `Raw`
view of the union) and `CurrentStrPtr` are addresses; `Pool` is the content of
the pool block at `Table`. -/
structure OC_SMBIOS_TABLE where
  Table : Nat
  Pool : List Nat
  CurrentPtr : Nat
  CurrentStrPtr : Nat
  AllocatedTableSize : Nat
  Handle : Nat
  MaxStructureSize : Nat
  NumberOfStructures : Nat
  deriving DecidableEq, Repr

/-- Byte at address `Ptr` of the block `Pool` based at `Base`; `none` when the
address lies outside the block. -/
def readByte (Base : Nat) (Pool : List Nat) (Ptr : Nat) : Option Nat :=
  if Base ≤ Ptr then Pool.get? (Ptr - Base) else none

/-- Store of one byte at address `Ptr`; a store outside the block is dropped. -/
def writeByte (Base : Nat) (Pool : List Nat) (Ptr Value : Nat) : List Nat :=
  if Base ≤ Ptr then Pool.set (Ptr - Base) (Value % 256) else Pool

/-- Store of consecutive bytes starting at `Ptr` (`CopyMem`). -/
def writeBytes (Base : Nat) (Pool : List Nat) (Ptr : Nat) : List Nat → List Nat
  | [] => Pool
  | b :: bs => writeBytes Base (writeByte Base Pool Ptr b) (Ptr + 1) bs

/-- Modelled from the spec: `reallocate(oldSize, newSize, oldRegion) ->
newRegion | failure`, zero-extending.  `NewBuffer` is the address the
allocator returns, `0` when it has no memory. -/
def ReallocatePool (NewBuffer OldSize NewSize : Nat) (OldPool : List Nat) :
    Option (Nat × List Nat) :=
  if NewBuffer = 0 then none
  else
    let Copied := OldPool.take (min OldSize NewSize)
    some (NewBuffer, Copied ++ List.replicate (NewSize - Copied.length) 0)

/-- `SmbiosExtendTable` (source lines 36-87). -/
def SmbiosExtendTable (c : Constants) (NewBuffer : Nat) (Table : OC_SMBIOS_TABLE)
    (Size : Nat) : EFI_STATUS × OC_SMBIOS_TABLE :=
  let Size := (Size + SMBIOS_STRUCTURE_TERMINATOR_SIZE) % 2 ^ 32
  let TableSize :=
    if Table.Table = 0 then 0 else (Table.CurrentStrPtr - Table.Table) % 2 ^ 32
  let RequestedSize := (TableSize + Size) % 2 ^ 32
  if RequestedSize > c.SMBIOS_TABLE_MAX_LENGTH then
    (.EFI_OUT_OF_RESOURCES, Table)
  else if RequestedSize ≤ Table.AllocatedTableSize then
    (.EFI_SUCCESS, Table)
  else
    let Aligned := ALIGN_VALUE RequestedSize c.EFI_PAGE_SIZE % 2 ^ 32
    let Capped :=
      if Aligned > ALIGN_VALUE c.SMBIOS_TABLE_MAX_LENGTH c.EFI_PAGE_SIZE then
        ALIGN_VALUE c.SMBIOS_TABLE_MAX_LENGTH c.EFI_PAGE_SIZE
      else Aligned
    match ReallocatePool NewBuffer TableSize Capped Table.Pool with
    | none => (.EFI_OUT_OF_RESOURCES, Table)
    | some (NewTable, NewPool) =>
      (.EFI_SUCCESS,
        { Table with
          CurrentPtr := NewTable + (Table.CurrentPtr - Table.Table)
          CurrentStrPtr := NewTable + TableSize
          Table := NewTable
          Pool := NewPool
          AllocatedTableSize := Capped })

/-- The space-stripping loop of `SmbiosOverrideString` (source lines 126-128):
`while (Length > 0 && Override[Length - 1] == ' ') Length--`. -/
def stripTrailingSpaces (Override : List Nat) : Nat → Nat
  | 0 => 0
  | Length + 1 =>
    if Override.getD Length 0 = 32 then stripTrailingSpaces Override Length
    else Length + 1

/-- The effective source length `SmbiosOverrideString` computes for a text
(source lines 111-128): `AsciiStrLen` narrowed to 32 bits, truncation to
`MaxLength` (a 32-bit value as well), then the space-stripping loop. -/
def overrideLength (c : Constants) (Override : List Nat) (Hex : Bool) : Nat :=
  let MaxLength :=
    (if Hex then c.SMBIOS_STRING_MAX_LENGTH / 2 + 2 ^ 32 - SMBIOS_STRING_HEX_PREFIX_SIZE
      else c.SMBIOS_STRING_MAX_LENGTH) % 2 ^ 32
  let Length := Override.length % 2 ^ 32
  let Length := if Length > MaxLength then MaxLength else Length
  stripTrailingSpaces Override Length

/-- Result of one string store: the block, the advanced `*Buffer`, the
incremented `*Index`, and the returned index. -/
structure StringStore where
  Pool : List Nat
  Buffer : Nat
  Index : Nat
  Result : Nat
  deriving DecidableEq, Repr

/-- `SmbiosSetString` (source lines 420-441). -/
def SmbiosSetString (Base : Nat) (Pool : List Nat) (Buffer : Nat) (String : List Nat)
    (Length : Nat) (Index : Nat) : StringStore :=
  let Pool := if Length > 0 then writeBytes Base Pool Buffer (String.take Length) else Pool
  let Buffer := Buffer + (Length + 1)
  let Index := (Index + 1) % 256
  { Pool := Pool, Buffer := Buffer, Index := Index, Result := Index }

/-- The digit table `"0123456789ABCDEF"` as character codes. -/
def hexDigits : List Nat :=
  [48, 49, 50, 51, 52, 53, 54, 55, 56, 57, 65, 66, 67, 68, 69, 70]

/-- The digit-writing loop of `SmbiosSetStringHex` (source lines 460-465);
returns the block and the advanced `Target`. -/
def hexLoop (Base : Nat) (Pool : List Nat) (Target : Nat) (String : List Nat) :
    Nat → List Nat × Nat
  | 0 => (Pool, Target)
  | Length + 1 =>
    let Byte := String.headD 0 % 256
    let Pool := writeByte Base Pool Target (hexDigits.getD ((Byte >>> 4) &&& 15) 0)
    let Pool := writeByte Base Pool (Target + 1) (hexDigits.getD (Byte &&& 15) 0)
    hexLoop Base Pool (Target + 2) String.tail Length

/-- `SmbiosSetStringHex` (source lines 443-472). -/
def SmbiosSetStringHex (Base : Nat) (Pool : List Nat) (Buffer : Nat) (String : List Nat)
    (Length : Nat) (Index : Nat) : StringStore :=
  let Target := Buffer
  let r :=
    if Length > 0 then
      let Pool := writeByte Base Pool Target 48
      let Pool := writeByte Base Pool (Target + 1) 120
      hexLoop Base Pool (Target + 2) String Length
    else (Pool, Target)
  let Index := (Index + 1) % 256
  { Pool := r.1, Buffer := r.2 + 1, Index := Index, Result := Index }

/-- Result of `SmbiosOverrideString`: the returned string index, the table and
the caller's `*Index` counter. -/
structure OverrideResult where
  Result : Nat
  Table : OC_SMBIOS_TABLE
  Index : Nat
  deriving DecidableEq, Repr

/-- `SmbiosOverrideString` (source lines 89-141).  `Override = none` is the
`NULL` text; a present text is the list of its bytes before the terminating
zero. -/
def SmbiosOverrideString (c : Constants) (NewBuffer : Nat) (Table : OC_SMBIOS_TABLE)
    (Override : Option (List Nat)) (Index : Nat) (Hex : Bool) : OverrideResult :=
  match Override with
  | none => { Result := 0, Table := Table, Index := Index }
  | some Override =>
    let Length := overrideLength c Override Hex
    let ByteLength :=
      if Hex then (Length * 2 + SMBIOS_STRING_HEX_PREFIX_SIZE + 1) % 2 ^ 32
      else (Length + 1) % 2 ^ 32
    match SmbiosExtendTable c NewBuffer Table ByteLength with
    | (.EFI_SUCCESS, Table) =>
      let s :=
        if Hex then
          SmbiosSetStringHex Table.Table Table.Pool Table.CurrentStrPtr Override Length Index
        else
          SmbiosSetString Table.Table Table.Pool Table.CurrentStrPtr Override Length Index
      { Result := s.Result
        Table := { Table with Pool := s.Pool, CurrentStrPtr := s.Buffer }
        Index := s.Index }
    | (_, Table) => { Result := 0, Table := Table, Index := Index }

/-- Store of `Hdr->Handle`: the 16-bit field at offset 2 of the header at
`CurrentPtr`, least significant byte first. -/
def setHdrHandle (Table : OC_SMBIOS_TABLE) (Handle : Nat) : OC_SMBIOS_TABLE :=
  { Table with
    Pool :=
      writeByte Table.Table
        (writeByte Table.Table Table.Pool (Table.CurrentPtr + 2) (Handle % 2 ^ 16 % 256))
        (Table.CurrentPtr + 3) (Handle % 2 ^ 16 / 256) }

/-- The `Table->Handle++` store: the header receives the counter, the counter
advances in 16 bits. -/
def assignAutomaticHandle (Table : OC_SMBIOS_TABLE) : OC_SMBIOS_TABLE :=
  { setHdrHandle Table Table.Handle with Handle := (Table.Handle + 1) % 2 ^ 16 }

/-- The `case` labels of the switch in `SmbiosAssignStructHandle` (source
lines 181-319), in source order, each with the handle it stores. -/
def singletonCases (c : Constants) : List (Nat × Nat) :=
  [ (c.SMBIOS_TYPE_BIOS_INFORMATION, c.OcSmbiosBiosInformationHandle),
    (c.SMBIOS_TYPE_SYSTEM_INFORMATION, c.OcSmbiosSystemInformationHandle),
    (c.SMBIOS_TYPE_BASEBOARD_INFORMATION, c.OcSmbiosBaseboardInformationHandle),
    (c.SMBIOS_TYPE_SYSTEM_ENCLOSURE, c.OcSmbiosSystemEnclosureHandle),
    (c.SMBIOS_TYPE_PROCESSOR_INFORMATION, c.OcSmbiosProcessorInformationHandle),
    (c.SMBIOS_TYPE_MEMORY_CONTROLLER_INFORMATION, c.OcSmbiosMemoryControllerInformationHandle),
    (c.SMBIOS_TYPE_MEMORY_MODULE_INFORMATON, c.OcSmbiosMemoryModuleInformatonHandle),
    (c.SMBIOS_TYPE_ONBOARD_DEVICE_INFORMATION, c.OcSmbiosOnboardDeviceInformationHandle),
    (c.SMBIOS_TYPE_OEM_STRINGS, c.OcSmbiosOemStringsHandle),
    (c.SMBIOS_TYPE_SYSTEM_CONFIGURATION_OPTIONS, c.OcSmbiosSystemConfigurationOptionsHandle),
    (c.SMBIOS_TYPE_BIOS_LANGUAGE_INFORMATION, c.OcSmbiosBiosLanguageInformationHandle),
    (c.SMBIOS_TYPE_GROUP_ASSOCIATIONS, c.OcSmbiosGroupAssociationsHandle),
    (c.SMBIOS_TYPE_SYSTEM_EVENT_LOG, c.OcSmbiosSystemEventLogHandle),
    (c.SMBIOS_TYPE_PHYSICAL_MEMORY_ARRAY, c.OcSmbiosPhysicalMemoryArrayHandle),
    (c.SMBIOS_TYPE_32BIT_MEMORY_ERROR_INFORMATION, c.OcSmbios32BitMemoryErrorInformationHandle),
    (c.SMBIOS_TYPE_BUILT_IN_POINTING_DEVICE, c.OcSmbiosBuiltInPointingDeviceHandle),
    (c.SMBIOS_TYPE_PORTABLE_BATTERY, c.OcSmbiosPortableBatteryHandle),
    (c.SMBIOS_TYPE_SYSTEM_RESET, c.OcSmbiosSystemResetHandle),
    (c.SMBIOS_TYPE_HARDWARE_SECURITY, c.OcSmbiosHardwareSecurityHandle),
    (c.SMBIOS_TYPE_SYSTEM_POWER_CONTROLS, c.OcSmbiosSystemPowerControlsHandle),
    (c.SMBIOS_TYPE_VOLTAGE_PROBE, c.OcSmbiosVoltageProbeHandle),
    (c.SMBIOS_TYPE_COOLING_DEVICE, c.OcSmbiosCoolingDeviceHandle),
    (c.SMBIOS_TYPE_TEMPERATURE_PROBE, c.OcSmbiosTemperatureProbeHandle),
    (c.SMBIOS_TYPE_ELECTRICAL_CURRENT_PROBE, c.OcSmbiosElectricalCurrentProbeHandle),
    (c.SMBIOS_TYPE_OUT_OF_BAND_REMOTE_ACCESS, c.OcSmbiosOutOfBandRemoteAccessHandle),
    (c.SMBIOS_TYPE_BOOT_INTEGRITY_SERVICE, c.OcSmbiosBootIntegrityServiceHandle),
    (c.SMBIOS_TYPE_SYSTEM_BOOT_INFORMATION, c.OcSmbiosSystemBootInformationHandle),
    (c.SMBIOS_TYPE_64BIT_MEMORY_ERROR_INFORMATION, c.OcSmbios64BitMemoryErrorInformationHandle),
    (c.SMBIOS_TYPE_MANAGEMENT_DEVICE, c.OcSmbiosManagementDeviceHandle),
    (c.SMBIOS_TYPE_MANAGEMENT_DEVICE_COMPONENT, c.OcSmbiosManagementDeviceComponentHandle),
    (c.SMBIOS_TYPE_MANAGEMENT_DEVICE_THRESHOLD_DATA,
      c.OcSmbiosManagementDeviceThresholdDataHandle),
    (c.SMBIOS_TYPE_MEMORY_CHANNEL, c.OcSmbiosMemoryChannelHandle),
    (c.SMBIOS_TYPE_IPMI_DEVICE_INFORMATION, c.OcSmbiosIpmiDeviceInformationHandle),
    (c.SMBIOS_TYPE_SYSTEM_POWER_SUPPLY, c.OcSmbiosSystemPowerSupplyHandle),
    (c.SMBIOS_TYPE_ADDITIONAL_INFORMATION, c.OcSmbiosAdditionalInformationHandle),
    (c.SMBIOS_TYPE_ONBOARD_DEVICES_EXTENDED_INFORMATION,
      c.OcSmbiosOnboardDevicesExtendedInformationHandle),
    (c.SMBIOS_TYPE_MANAGEMENT_CONTROLLER_HOST_INTERFACE,
      c.OcSmbiosManagementControllerHostInterfaceHandle),
    (c.SMBIOS_TYPE_TPM_DEVICE, c.OcSmbiosTpmDeviceHandle),
    (c.SMBIOS_TYPE_INACTIVE, c.OcSmbiosInactiveHandle),
    (c.SMBIOS_TYPE_END_OF_TABLE, c.OcSmbiosEndOfTableHandle),
    (c.APPLE_SMBIOS_TYPE_FIRMWARE_INFORMATION, c.OcAppleSmbiosFirmwareInformationHandle),
    (c.APPLE_SMBIOS_TYPE_MEMORY_SPD_DATA, c.OcAppleSmbiosMemorySpdDataHandle),
    (c.APPLE_SMBIOS_TYPE_PROCESSOR_TYPE, c.OcAppleSmbiosProcessorTypeHandle),
    (c.APPLE_SMBIOS_TYPE_PROCESSOR_BUS_SPEED, c.OcAppleSmbiosProcessorBusSpeedHandle),
    (c.APPLE_SMBIOS_TYPE_PLATFORM_FEATURE, c.OcAppleSmbiosPlatformFeatureHandle),
    (c.APPLE_SMBIOS_TYPE_SMC_INFORMATION, c.OcAppleSmbiosSmcInformationHandle) ]

/-- The five record types of the auto-increment branch (source lines 169-173). -/
def autoIncrementTypes (c : Constants) : List Nat :=
  [ c.SMBIOS_TYPE_PORT_CONNECTOR_INFORMATION,
    c.SMBIOS_TYPE_SYSTEM_SLOTS,
    c.SMBIOS_TYPE_MEMORY_ARRAY_MAPPED_ADDRESS,
    c.SMBIOS_TYPE_MEMORY_DEVICE,
    c.SMBIOS_TYPE_MEMORY_DEVICE_MAPPED_ADDRESS ]

/-- `SmbiosAssignStructHandle` (source lines 143-327).  The switch over the
singleton types is the lookup of `SmbiosType` among `singletonCases`; its `default`
label is the lookup failing. -/
def SmbiosAssignStructHandle (c : Constants) (Table : OC_SMBIOS_TABLE) (SmbiosType Index : Nat) :
    EFI_STATUS × OC_SMBIOS_TABLE :=
  if SmbiosType = c.SMBIOS_TYPE_CACHE_INFORMATION then
    if Index = 1 then (.EFI_SUCCESS, setHdrHandle Table c.OcSmbiosL1CacheHandle)
    else if Index = 2 then (.EFI_SUCCESS, setHdrHandle Table c.OcSmbiosL2CacheHandle)
    else if Index = 3 then (.EFI_SUCCESS, setHdrHandle Table c.OcSmbiosL3CacheHandle)
    else (.EFI_INVALID_PARAMETER, Table)
  else if SmbiosType = c.SMBIOS_TYPE_PORT_CONNECTOR_INFORMATION
      ∨ SmbiosType = c.SMBIOS_TYPE_SYSTEM_SLOTS
      ∨ SmbiosType = c.SMBIOS_TYPE_MEMORY_ARRAY_MAPPED_ADDRESS
      ∨ SmbiosType = c.SMBIOS_TYPE_MEMORY_DEVICE
      ∨ SmbiosType = c.SMBIOS_TYPE_MEMORY_DEVICE_MAPPED_ADDRESS then
    (.EFI_SUCCESS, assignAutomaticHandle Table)
  else if Index ≠ 1 then (.EFI_INVALID_PARAMETER, Table)
  else
    match (singletonCases c).lookup SmbiosType with
    | some Handle => (.EFI_SUCCESS, setHdrHandle Table Handle)
    | none => (.EFI_SUCCESS, assignAutomaticHandle Table)

/-- The stores `Hdr->Type = Type` and `Hdr->Length = MinLength` (source lines
345-346): the bytes at offsets 0 and 1 of the header at `CurrentPtr`. -/
def setHdrTypeLength (Table : OC_SMBIOS_TABLE) (SmbiosType MinLength : Nat) :
    OC_SMBIOS_TABLE :=
  { Table with
    Pool :=
      writeByte Table.Table (writeByte Table.Table Table.Pool Table.CurrentPtr SmbiosType)
        (Table.CurrentPtr + 1) MinLength }

/-- `SmbiosInitialiseStruct` (source lines 329-355). -/
def SmbiosInitialiseStruct (c : Constants) (NewBuffer : Nat) (Table : OC_SMBIOS_TABLE)
    (SmbiosType MinLength Index : Nat) : EFI_STATUS × OC_SMBIOS_TABLE :=
  match SmbiosExtendTable c NewBuffer Table MinLength with
  | (.EFI_SUCCESS, Table) =>
    let Table := setHdrTypeLength Table SmbiosType MinLength
    match SmbiosAssignStructHandle c Table SmbiosType Index with
    | (.EFI_SUCCESS, Table) =>
      (.EFI_SUCCESS, { Table with CurrentStrPtr := Table.CurrentPtr + MinLength })
    | (Status, Table) => (Status, Table)
  | (Status, Table) => (Status, Table)

/-- `SmbiosFinaliseStruct` (source lines 357-385).  `Hdr->Length` is the byte
at `CurrentPtr + 1`, read as 0 outside the block. -/
def SmbiosFinaliseStruct (Table : OC_SMBIOS_TABLE) : OC_SMBIOS_TABLE :=
  let Length := (readByte Table.Table Table.Pool (Table.CurrentPtr + 1)).getD 0
  let Table :=
    if Length > Table.MaxStructureSize then { Table with MaxStructureSize := Length }
    else Table
  let Table := { Table with CurrentPtr := Table.CurrentPtr + Length }
  let Table := { Table with NumberOfStructures := (Table.NumberOfStructures + 1) % 2 ^ 16 }
  if Table.CurrentStrPtr ≠ Table.CurrentPtr then
    { Table with
      CurrentStrPtr := Table.CurrentStrPtr + 1
      CurrentPtr := Table.CurrentStrPtr + 1 }
  else
    { Table with
      CurrentStrPtr := Table.CurrentStrPtr + 2
      CurrentPtr := Table.CurrentPtr + 2 }

/-- The inner loop of `SmbiosGetString` (source lines 407-409): advance to the
next zero byte.  `none` is a read outside the block; `Fuel` bounds the number
of bytes visited. -/
def skipToZero (Base : Nat) (Pool : List Nat) : Nat → Nat → Option Nat
  | 0, _ => none
  | Fuel + 1, AString =>
    match readByte Base Pool AString with
    | none => none
    | some b => if b ≠ 0 then skipToZero Base Pool Fuel (AString + 1) else some AString

/-- The outer loop of `SmbiosGetString` (source lines 406-415); `Remaining` is
`String - Index`. -/
def getStringLoop (Base : Nat) (Pool : List Nat) : Nat → Nat → Option Nat
  | 0, AString => some AString
  | Remaining + 1, AString =>
    match skipToZero Base Pool (Pool.length + 1) AString with
    | none => none
    | some Zero =>
      let AString := Zero + 1
      match readByte Base Pool AString with
      | none => none
      | some b => if b = 0 then some AString else getStringLoop Base Pool Remaining AString

/-- `SmbiosGetString` (source lines 394-418) on the record at `SmbiosTable`.
`none` is a read outside the block, `some 0` the `NULL` result. -/
def SmbiosGetString (Base : Nat) (Pool : List Nat) (SmbiosTable String : Nat) : Option Nat :=
  match readByte Base Pool (SmbiosTable + 1) with
  | none => none
  | some Length =>
    let AString := SmbiosTable + Length
    if String = 0 then some 0
    else getStringLoop Base Pool (String - 1) AString

/-- The scan of `SmbiosGetTableLength` (source lines 488-490): stop at the
first address holding two consecutive zero bytes.  The second byte is read
only when the first is zero. -/
def scanDoubleZero (Base : Nat) (Pool : List Nat) : Nat → Nat → Option Nat
  | 0, _ => none
  | Fuel + 1, AChar =>
    match readByte Base Pool AChar with
    | none => none
    | some b0 =>
      if b0 ≠ 0 then scanDoubleZero Base Pool Fuel (AChar + 1)
      else
        match readByte Base Pool (AChar + 1) with
        | none => none
        | some b1 =>
          if b1 ≠ 0 then scanDoubleZero Base Pool Fuel (AChar + 1) else some AChar

/-- `SmbiosGetTableLength` (source lines 479-494). -/
def SmbiosGetTableLength (Base : Nat) (Pool : List Nat) (SmbiosTable : Nat) : Option Nat :=
  match readByte Base Pool (SmbiosTable + 1) with
  | none => none
  | some Length =>
    match scanDoubleZero Base Pool (Pool.length + 1) (SmbiosTable + Length) with
    | none => none
    | some AChar => some (AChar - SmbiosTable + 2)

/-- The table at the start of a construction session: no buffer, both cursors
null, the automatic-handle counter at `OcSmbiosAutomaticHandle`. -/
def emptyTable (c : Constants) : OC_SMBIOS_TABLE :=
  { Table := 0, Pool := [], CurrentPtr := 0, CurrentStrPtr := 0, AllocatedTableSize := 0,
    Handle := c.OcSmbiosAutomaticHandle, MaxStructureSize := 0, NumberOfStructures := 0 }

/-- A concrete assignment of the constants, used to evaluate the model: the
record type numbers of the SMBIOS standard and of the Apple extensions, 4 KiB
pages, 64-byte strings, a table of at most 0xFFFF bytes, the reserved handles
numbered from 1 and the automatic handles starting at 128. -/
def referenceConstants : Constants :=
  { EFI_PAGE_SIZE := 4096
    SMBIOS_TABLE_MAX_LENGTH := 65535
    SMBIOS_STRING_MAX_LENGTH := 64
    SMBIOS_TYPE_CACHE_INFORMATION := 7
    SMBIOS_TYPE_PORT_CONNECTOR_INFORMATION := 8
    SMBIOS_TYPE_SYSTEM_SLOTS := 9
    SMBIOS_TYPE_MEMORY_ARRAY_MAPPED_ADDRESS := 19
    SMBIOS_TYPE_MEMORY_DEVICE := 17
    SMBIOS_TYPE_MEMORY_DEVICE_MAPPED_ADDRESS := 20
    SMBIOS_TYPE_BIOS_INFORMATION := 0
    SMBIOS_TYPE_SYSTEM_INFORMATION := 1
    SMBIOS_TYPE_BASEBOARD_INFORMATION := 2
    SMBIOS_TYPE_SYSTEM_ENCLOSURE := 3
    SMBIOS_TYPE_PROCESSOR_INFORMATION := 4
    SMBIOS_TYPE_MEMORY_CONTROLLER_INFORMATION := 5
    SMBIOS_TYPE_MEMORY_MODULE_INFORMATON := 6
    SMBIOS_TYPE_ONBOARD_DEVICE_INFORMATION := 10
    SMBIOS_TYPE_OEM_STRINGS := 11
    SMBIOS_TYPE_SYSTEM_CONFIGURATION_OPTIONS := 12
    SMBIOS_TYPE_BIOS_LANGUAGE_INFORMATION := 13
    SMBIOS_TYPE_GROUP_ASSOCIATIONS := 14
    SMBIOS_TYPE_SYSTEM_EVENT_LOG := 15
    SMBIOS_TYPE_PHYSICAL_MEMORY_ARRAY := 16
    SMBIOS_TYPE_32BIT_MEMORY_ERROR_INFORMATION := 18
    SMBIOS_TYPE_BUILT_IN_POINTING_DEVICE := 21
    SMBIOS_TYPE_PORTABLE_BATTERY := 22
    SMBIOS_TYPE_SYSTEM_RESET := 23
    SMBIOS_TYPE_HARDWARE_SECURITY := 24
    SMBIOS_TYPE_SYSTEM_POWER_CONTROLS := 25
    SMBIOS_TYPE_VOLTAGE_PROBE := 26
    SMBIOS_TYPE_COOLING_DEVICE := 27
    SMBIOS_TYPE_TEMPERATURE_PROBE := 28
    SMBIOS_TYPE_ELECTRICAL_CURRENT_PROBE := 29
    SMBIOS_TYPE_OUT_OF_BAND_REMOTE_ACCESS := 30
    SMBIOS_TYPE_BOOT_INTEGRITY_SERVICE := 31
    SMBIOS_TYPE_SYSTEM_BOOT_INFORMATION := 32
    SMBIOS_TYPE_64BIT_MEMORY_ERROR_INFORMATION := 33
    SMBIOS_TYPE_MANAGEMENT_DEVICE := 34
    SMBIOS_TYPE_MANAGEMENT_DEVICE_COMPONENT := 35
    SMBIOS_TYPE_MANAGEMENT_DEVICE_THRESHOLD_DATA := 36
    SMBIOS_TYPE_MEMORY_CHANNEL := 37
    SMBIOS_TYPE_IPMI_DEVICE_INFORMATION := 38
    SMBIOS_TYPE_SYSTEM_POWER_SUPPLY := 39
    SMBIOS_TYPE_ADDITIONAL_INFORMATION := 40
    SMBIOS_TYPE_ONBOARD_DEVICES_EXTENDED_INFORMATION := 41
    SMBIOS_TYPE_MANAGEMENT_CONTROLLER_HOST_INTERFACE := 42
    SMBIOS_TYPE_TPM_DEVICE := 43
    SMBIOS_TYPE_INACTIVE := 126
    SMBIOS_TYPE_END_OF_TABLE := 127
    APPLE_SMBIOS_TYPE_FIRMWARE_INFORMATION := 128
    APPLE_SMBIOS_TYPE_MEMORY_SPD_DATA := 130
    APPLE_SMBIOS_TYPE_PROCESSOR_TYPE := 131
    APPLE_SMBIOS_TYPE_PROCESSOR_BUS_SPEED := 132
    APPLE_SMBIOS_TYPE_PLATFORM_FEATURE := 133
    APPLE_SMBIOS_TYPE_SMC_INFORMATION := 134
    OcSmbiosBiosInformationHandle := 1
    OcSmbiosSystemInformationHandle := 2
    OcSmbiosBaseboardInformationHandle := 3
    OcSmbiosSystemEnclosureHandle := 4
    OcSmbiosProcessorInformationHandle := 5
    OcSmbiosMemoryControllerInformationHandle := 6
    OcSmbiosMemoryModuleInformatonHandle := 7
    OcSmbiosL1CacheHandle := 8
    OcSmbiosL2CacheHandle := 9
    OcSmbiosL3CacheHandle := 10
    OcSmbiosOnboardDeviceInformationHandle := 11
    OcSmbiosOemStringsHandle := 12
    OcSmbiosSystemConfigurationOptionsHandle := 13
    OcSmbiosBiosLanguageInformationHandle := 14
    OcSmbiosGroupAssociationsHandle := 15
    OcSmbiosSystemEventLogHandle := 16
    OcSmbiosPhysicalMemoryArrayHandle := 17
    OcSmbios32BitMemoryErrorInformationHandle := 18
    OcSmbiosBuiltInPointingDeviceHandle := 19
    OcSmbiosPortableBatteryHandle := 20
    OcSmbiosSystemResetHandle := 21
    OcSmbiosHardwareSecurityHandle := 22
    OcSmbiosSystemPowerControlsHandle := 23
    OcSmbiosVoltageProbeHandle := 24
    OcSmbiosCoolingDeviceHandle := 25
    OcSmbiosTemperatureProbeHandle := 26
    OcSmbiosElectricalCurrentProbeHandle := 27
    OcSmbiosOutOfBandRemoteAccessHandle := 28
    OcSmbiosBootIntegrityServiceHandle := 29
    OcSmbiosSystemBootInformationHandle := 30
    OcSmbios64BitMemoryErrorInformationHandle := 31
    OcSmbiosManagementDeviceHandle := 32
    OcSmbiosManagementDeviceComponentHandle := 33
    OcSmbiosManagementDeviceThresholdDataHandle := 34
    OcSmbiosMemoryChannelHandle := 35
    OcSmbiosIpmiDeviceInformationHandle := 36
    OcSmbiosSystemPowerSupplyHandle := 37
    OcSmbiosAdditionalInformationHandle := 38
    OcSmbiosOnboardDevicesExtendedInformationHandle := 39
    OcSmbiosManagementControllerHostInterfaceHandle := 40
    OcSmbiosTpmDeviceHandle := 41
    OcSmbiosInactiveHandle := 42
    OcSmbiosEndOfTableHandle := 43
    OcAppleSmbiosFirmwareInformationHandle := 44
    OcAppleSmbiosMemorySpdDataHandle := 45
    OcAppleSmbiosProcessorTypeHandle := 46
    OcAppleSmbiosProcessorBusSpeedHandle := 47
    OcAppleSmbiosPlatformFeatureHandle := 48
    OcAppleSmbiosSmcInformationHandle := 49
    OcSmbiosAutomaticHandle := 128 }

/-- The 16-bit `Hdr->Handle` of the record at address `Record`, least
significant byte first; `none` when the field lies outside the block. -/
def readHandle (Base : Nat) (Pool : List Nat) (Record : Nat) : Option Nat :=
  match readByte Base Pool (Record + 2), readByte Base Pool (Record + 3) with
  | some lo, some hi => some (lo + 256 * hi)
  | _, _ => none

/-- Side conditions on the size constants: a positive page size below
`2 ^ 31`, a maximum table length below `2 ^ 31` and a maximum string length
between 4 and `2 ^ 30`, so that no 32-bit computation of the builder on these
constants wraps. -/
def Constants.Sane (c : Constants) : Prop :=
  (0 < c.EFI_PAGE_SIZE ∧ c.EFI_PAGE_SIZE < 2 ^ 31) ∧ c.SMBIOS_TABLE_MAX_LENGTH < 2 ^ 31 ∧
    4 ≤ c.SMBIOS_STRING_MAX_LENGTH ∧ c.SMBIOS_STRING_MAX_LENGTH < 2 ^ 30

instance (c : Constants) : Decidable c.Sane := by
  unfold Constants.Sane; infer_instance

/-- A builder state whose used bytes are exactly `used` and whose remaining
`n` allocated bytes are zero. -/
structure Layout (c : Constants) (t : OC_SMBIOS_TABLE) (used : List Nat) (n : Nat) : Prop where
  pool : t.Pool = used ++ List.replicate n 0
  alloc : t.AllocatedTableSize = used.length + n
  str : t.CurrentStrPtr = t.Table + used.length
  base : t.Table ≤ t.CurrentPtr
  null : t.Table = 0 → used = [] ∧ n = 0
  max : used.length ≤ c.SMBIOS_TABLE_MAX_LENGTH

/-- A well-formed builder state: the cursors are ordered inside the block, the
block has `AllocatedTableSize` bytes, a null table has null cursors and no
block, and at most `SMBIOS_TABLE_MAX_LENGTH` bytes are used. -/
def ValidTable (c : Constants) (t : OC_SMBIOS_TABLE) : Prop :=
  t.Table ≤ t.CurrentPtr ∧ t.CurrentPtr ≤ t.CurrentStrPtr ∧
    t.CurrentStrPtr - t.Table ≤ t.Pool.length ∧
    t.Pool.length = t.AllocatedTableSize ∧
    (t.Table = 0 → t.CurrentStrPtr = 0 ∧ t.Pool = []) ∧
    t.CurrentStrPtr - t.Table ≤ c.SMBIOS_TABLE_MAX_LENGTH

instance (c : Constants) (t : OC_SMBIOS_TABLE) : Decidable (ValidTable c t) := by
  unfold ValidTable; infer_instance

/-- Every byte of the block at and beyond the string cursor is zero. -/
def ZeroBeyondCursor (t : OC_SMBIOS_TABLE) : Prop :=
  (t.Pool.drop (t.CurrentStrPtr - t.Table)).all (fun b => b == 0) = true

instance (t : OC_SMBIOS_TABLE) : Decidable (ZeroBeyondCursor t) := by
  unfold ZeroBeyondCursor; infer_instance

/-- A table between two records, as `SmbiosFinaliseStruct` and the empty table
leave it: a well-formed state whose cursors coincide and whose bytes at and
beyond the string cursor are zero. -/
def BetweenRecords (c : Constants) (t : OC_SMBIOS_TABLE) : Prop :=
  ValidTable c t ∧ t.CurrentPtr = t.CurrentStrPtr ∧ ZeroBeyondCursor t

instance (c : Constants) (t : OC_SMBIOS_TABLE) : Decidable (BetweenRecords c t) := by
  unfold BetweenRecords; infer_instance

/-- Bytes `[From, To)` of a block, by offset. -/
def slice (Pool : List Nat) (From To : Nat) : List Nat :=
  (Pool.drop From).take (To - From)

/-- The two digits the hex form stores for one source byte (source lines
461-463). -/
def hexPair (b : Nat) : List Nat :=
  [hexDigits.getD (((b % 256) >>> 4) &&& 15) 0, hexDigits.getD ((b % 256) &&& 15) 0]

/-- The digits of a whole text, high nibble first. -/
def hexEncode : List Nat → List Nat
  | [] => []
  | b :: bs => hexPair b ++ hexEncode bs

/-- One `SmbiosOverrideString` call of a record build: the allocator's answer
should the call reallocate, the (present) text and the style. -/
structure StringCall where
  NewBuffer : Nat
  Override : List Nat
  Hex : Bool
  deriving DecidableEq, Repr

/-- One record build: `SmbiosInitialiseStruct`, the string calls in order,
`SmbiosFinaliseStruct`. -/
structure RecordBuild where
  NewBuffer : Nat
  SmbiosType : Nat
  MinLength : Nat
  Index : Nat
  Strings : List StringCall
  deriving DecidableEq, Repr

/-- The string calls of a record, each with the caller's index counter; the
returned list holds the index every call returned.  `none` as soon as a call
returns 0 (no string stored). -/
def buildStrings (c : Constants) :
    OC_SMBIOS_TABLE → Nat → List StringCall → Option (OC_SMBIOS_TABLE × List Nat)
  | t, _, [] => some (t, [])
  | t, Index, s :: rest =>
    let r := SmbiosOverrideString c s.NewBuffer t (some s.Override) Index s.Hex
    if r.Result = 0 then none
    else
      match buildStrings c r.Table r.Index rest with
      | none => none
      | some (t, rs) => some (t, r.Result :: rs)

/-- A successful record build from `t`: the finalised table and the string
indices returned, the per-record index counter starting at 0. -/
def buildRecord (c : Constants) (t : OC_SMBIOS_TABLE) (r : RecordBuild) :
    Option (OC_SMBIOS_TABLE × List Nat) :=
  match SmbiosInitialiseStruct c r.NewBuffer t r.SmbiosType r.MinLength r.Index with
  | (.EFI_SUCCESS, t) =>
    match buildStrings c t 0 r.Strings with
    | none => none
    | some (t, rs) => some (SmbiosFinaliseStruct t, rs)
  | _ => none

/-- A construction session of successful record builds: the final table and
the offset from the buffer start at which each record begins. -/
def buildSession (c : Constants) :
    OC_SMBIOS_TABLE → List RecordBuild → Option (OC_SMBIOS_TABLE × List Nat)
  | t, [] => some (t, [])
  | t, r :: rest =>
    match buildRecord c t r with
    | none => none
    | some (t1, _) =>
      match buildSession c t1 rest with
      | none => none
      | some (t2, starts) => some (t2, (t.CurrentPtr - t.Table) :: starts)

/-- The reserved handle constant that `SmbiosAssignStructHandle` stores for a
type and slot index when it succeeds without drawing from the automatic
counter; `none` when it draws from the counter. -/
def reservedHandle (c : Constants) (SmbiosType Index : Nat) : Option Nat :=
  if SmbiosType = c.SMBIOS_TYPE_CACHE_INFORMATION then
    if Index = 1 then some c.OcSmbiosL1CacheHandle
    else if Index = 2 then some c.OcSmbiosL2CacheHandle
    else if Index = 3 then some c.OcSmbiosL3CacheHandle
    else none
  else if SmbiosType ∈ autoIncrementTypes c then none
  else if Index ≠ 1 then none
  else (singletonCases c).lookup SmbiosType

/-- The bytes one string call appends before its terminating zero: the first
`overrideLength` bytes for the plain style; for the hex style `0x` and the
digits, or nothing when the effective length is 0. -/
def encodedString (c : Constants) (s : StringCall) : List Nat :=
  let Length := overrideLength c s.Override s.Hex
  if s.Hex then
    if Length > 0 then [48, 120] ++ hexEncode (s.Override.take Length) else []
  else (s.Override.take Length).map (fun b => b % 256)

/-- The string pool of a record: every encoded string followed by one zero. -/
def stringPool (c : Constants) : List StringCall → List Nat
  | [] => []
  | s :: rest => encodedString c s ++ [0] ++ stringPool c rest

/-- The fixed body `SmbiosInitialiseStruct` leaves in a zeroed region: type,
length, the two handle bytes, zeros up to `MinLength`. -/
def fixedBody (SmbiosType MinLength Handle : Nat) : List Nat :=
  [SmbiosType % 256, MinLength % 256, Handle % 2 ^ 16 % 256, Handle % 2 ^ 16 / 256]
    ++ List.replicate (MinLength - 4) 0

/-- The record terminator: one further zero after a string, two zeros
otherwise. -/
def terminator (Strings : List StringCall) : List Nat :=
  if Strings = [] then [0, 0] else [0]

/-- All bytes of a finalised record whose header holds `Handle`. -/
def recordBytes (c : Constants) (r : RecordBuild) (Handle : Nat) : List Nat :=
  fixedBody r.SmbiosType r.MinLength Handle ++ stringPool c r.Strings ++ terminator r.Strings

/-- The handle a successful `SmbiosAssignStructHandle` stores: the reserved
constant, or the automatic counter. -/
def drawnHandle (c : Constants) (SmbiosType Index Counter : Nat) : Nat :=
  (reservedHandle c SmbiosType Index).getD Counter

/-- The automatic counter after a successful `SmbiosAssignStructHandle`. -/
def nextHandle (c : Constants) (SmbiosType Index Counter : Nat) : Nat :=
  if (reservedHandle c SmbiosType Index).isSome then Counter else (Counter + 1) % 2 ^ 16

/-- A sample record build: a system-information record of 8 fixed bytes with
the plain strings "Apple " and "M". -/
def sampleRecord : RecordBuild :=
  { NewBuffer := 4096, SmbiosType := 1, MinLength := 8, Index := 1
    Strings := [⟨0, [65, 112, 112, 108, 101, 32], false⟩, ⟨0, [77], false⟩] }

/-- The table and string indices after building `sampleRecord` from the empty
table. -/
def sampleBuilt : OC_SMBIOS_TABLE × List Nat :=
  (buildRecord referenceConstants (emptyTable referenceConstants) sampleRecord).getD
    (emptyTable referenceConstants, [])

/-- A record build whose second string is empty: a system-information record
of 4 fixed bytes with the plain texts "A", "" and "B". -/
def emptyStringRecord : RecordBuild :=
  { NewBuffer := 4096, SmbiosType := 1, MinLength := 4, Index := 1
    Strings := [⟨0, [65], false⟩, ⟨0, [], false⟩, ⟨0, [66], false⟩] }

/-- The table and string indices after building `emptyStringRecord` from the
empty table. -/
def emptyStringBuilt : OC_SMBIOS_TABLE × List Nat :=
  (buildRecord referenceConstants (emptyTable referenceConstants) emptyStringRecord).getD
    (emptyTable referenceConstants, [])

/-- The table after `SmbiosInitialiseStruct` started a system-information
record of 4 fixed bytes on the empty table. -/
def startedTable : OC_SMBIOS_TABLE :=
  (SmbiosInitialiseStruct referenceConstants 4096 (emptyTable referenceConstants) 1 4 1).2

/-- The reserved handle constants: the three cache slots and the constants of
the `case` labels. -/
def reservedConstants (c : Constants) : List Nat :=
  [c.OcSmbiosL1CacheHandle, c.OcSmbiosL2CacheHandle, c.OcSmbiosL3CacheHandle]
    ++ (singletonCases c).map Prod.snd

/-- Type and slot index of the builds of a session that draw a reserved
handle. -/
def reservedKeys (c : Constants) (builds : List RecordBuild) : List (Nat × Nat) :=
  (builds.filter (fun r => (reservedHandle c r.SmbiosType r.Index).isSome)).map
    (fun r => (r.SmbiosType, r.Index))

/-- The handles the builds of a session draw, the counter starting at
`Counter`. -/
def sessionHandles (c : Constants) : Nat → List RecordBuild → List Nat
  | _, [] => []
  | Counter, r :: rest =>
    drawnHandle c r.SmbiosType r.Index Counter
      :: sessionHandles c (nextHandle c r.SmbiosType r.Index Counter) rest

/-- The bytes of the records of a session, in order. -/
def sessionBytes (c : Constants) : Nat → List RecordBuild → List Nat
  | _, [] => []
  | Counter, r :: rest =>
    recordBytes c r (drawnHandle c r.SmbiosType r.Index Counter)
      ++ sessionBytes c (nextHandle c r.SmbiosType r.Index Counter) rest

/-- The offsets at which the records of a session start, the first one at
`Start`. -/
def sessionStarts (c : Constants) : Nat → Nat → List RecordBuild → List Nat
  | _, _, [] => []
  | Start, Counter, r :: rest =>
    Start :: sessionStarts c
      (Start + (recordBytes c r (drawnHandle c r.SmbiosType r.Index Counter)).length)
      (nextHandle c r.SmbiosType r.Index Counter) rest

/-- A session that builds two BIOS-information records. -/
def duplicateSession : List RecordBuild :=
  [ { NewBuffer := 4096, SmbiosType := 0, MinLength := 4, Index := 1, Strings := [] },
    { NewBuffer := 0, SmbiosType := 0, MinLength := 4, Index := 1, Strings := [] } ]

/-- The table and record offsets after `duplicateSession`. -/
def duplicateBuilt : OC_SMBIOS_TABLE × List Nat :=
  (buildSession referenceConstants (emptyTable referenceConstants) duplicateSession).getD
    (emptyTable referenceConstants, [])

/-- A session of four records: BIOS information, two memory devices and the
second-level cache. -/
def sampleSession : List RecordBuild :=
  [ { NewBuffer := 4096, SmbiosType := 0, MinLength := 4, Index := 1
      Strings := [⟨0, [65], false⟩] },
    { NewBuffer := 0, SmbiosType := 17, MinLength := 6, Index := 1, Strings := [] },
    { NewBuffer := 0, SmbiosType := 17, MinLength := 6, Index := 2
      Strings := [⟨0, [66, 67], true⟩] },
    { NewBuffer := 0, SmbiosType := 7, MinLength := 5, Index := 2, Strings := [] } ]

/-- The table and record offsets after `sampleSession`. -/
def sampleSessionBuilt : OC_SMBIOS_TABLE × List Nat :=
  (buildSession referenceConstants (emptyTable referenceConstants) sampleSession).getD
    (emptyTable referenceConstants, [])

/-- The largest fixed length (`MinLength`, the header's `Length` byte) among
the builds of a session; 0 for the empty session. -/
def sessionMaxLength (builds : List RecordBuild) : Nat :=
  (builds.map (fun r => r.MinLength)).foldr max 0

/-- The table after `sampleRecord` was built and `SmbiosExtendTable` was then
asked for 5000 more bytes, the allocator answering with a block at 8192. -/
def grownTable : EFI_STATUS × OC_SMBIOS_TABLE :=
  SmbiosExtendTable referenceConstants 8192 sampleBuilt.1 5000

/-- A small byte buffer holding one record of 4 fixed bytes with the string
"A": the terminator of the string and the closing zero are followed by two
more zero bytes. -/
def lengthSample : List Nat := [1, 4, 0, 0, 65, 0, 0, 0, 0]

/-- The loop of `SmbiosGetTableFromType`, the record pointer `Raw` and the
counter `SmbiosTypeIndex` (a `UINT16`) as arguments; `some 0` is NULL, `none` a
read outside the block.  The header type is read first: the condition reads it
unless the counter differs from `Index`, and the loop body then reads it at
once.  Addresses are natural numbers, as everywhere in this model, so the sum
`Raw + SmbiosTableSize` of the bound check does not wrap. -/
def getTableFromTypeLoop (c : Constants) (Base : Nat) (Pool : List Nat)
    (SmbiosTableSize SmbiosType Index : Nat) : Nat → Nat → Nat → Option Nat
  | 0, _, _ => none
  | Fuel + 1, Raw, SmbiosTypeIndex =>
    match readByte Base Pool Raw with
    | none => none
    | some HdrType =>
      if SmbiosTypeIndex ≠ Index ∨ HdrType ≠ SmbiosType then
        if HdrType = c.SMBIOS_TYPE_END_OF_TABLE then some 0
        else
          let SmbiosTypeIndex :=
            if HdrType = SmbiosType then (SmbiosTypeIndex + 1) % 2 ^ 16 else SmbiosTypeIndex
          match SmbiosGetTableLength Base Pool Raw with
          | none => none
          | some Length =>
            let Raw := Raw + Length
            if Raw > Raw + SmbiosTableSize then some 0
            else getTableFromTypeLoop c Base Pool SmbiosTableSize SmbiosType Index Fuel Raw
              SmbiosTypeIndex
      else some Raw

/-- `SmbiosGetTableFromType`: the `Index`-th record of type `SmbiosType` from
`SmbiosTable` on, or NULL (`some 0`).  Every turn of the loop moves the pointer
forward by at least two bytes and reads the header it points to, so a fuel of
the block length plus one is not used up inside the block. -/
def SmbiosGetTableFromType (c : Constants) (Base : Nat) (Pool : List Nat)
    (SmbiosTable SmbiosTableSize SmbiosType Index : Nat) : Option Nat :=
  if SmbiosTable = 0 then some SmbiosTable
  else getTableFromTypeLoop c Base Pool SmbiosTableSize SmbiosType Index (Pool.length + 1)
    SmbiosTable 1

/-- The two fields of `SMBIOS_TABLE_ENTRY_POINT` that this file reads: the
32-bit address of the table and its 16-bit length. -/
structure SMBIOS_TABLE_ENTRY_POINT where
  TableLength : Nat
  TableAddress : Nat
  deriving DecidableEq, Repr

/-- The loop of `SmbiosGetTableFromHandle`.  The bound
`Smbios->TableAddress + Smbios->TableLength` is a sum of a `UINT32` and a
`UINT16`, taken in 32 bits. -/
def getTableFromHandleLoop (c : Constants) (Base : Nat) (Pool : List Nat)
    (Smbios : SMBIOS_TABLE_ENTRY_POINT) (Handle : Nat) : Nat → Nat → Option Nat
  | 0, _ => none
  | Fuel + 1, Raw =>
    match readHandle Base Pool Raw with
    | none => none
    | some HdrHandle =>
      if HdrHandle ≠ Handle then
        match readByte Base Pool Raw with
        | none => none
        | some HdrType =>
          if HdrType = c.SMBIOS_TYPE_END_OF_TABLE then some 0
          else
            match SmbiosGetTableLength Base Pool Raw with
            | none => none
            | some Length =>
              let Raw := Raw + Length
              if Raw > (Smbios.TableAddress + Smbios.TableLength) % 2 ^ 32 then some 0
              else getTableFromHandleLoop c Base Pool Smbios Handle Fuel Raw
      else some Raw

/-- `SmbiosGetTableFromHandle`: the first record from `Smbios->TableAddress` on
whose header handle is `Handle`, or NULL (`some 0`). -/
def SmbiosGetTableFromHandle (c : Constants) (Base : Nat) (Pool : List Nat)
    (Smbios : SMBIOS_TABLE_ENTRY_POINT) (Handle : Nat) : Option Nat :=
  if Smbios.TableAddress = 0 then some 0
  else getTableFromHandleLoop c Base Pool Smbios Handle (Pool.length + 1) Smbios.TableAddress

/-- The loop of `SmbiosGetTableCount`, the record pointer and the counter
`SmbiosTypeIndex` (a `UINT16`) as arguments. -/
def getTableCountLoop (c : Constants) (Base : Nat) (Pool : List Nat)
    (SmbiosTableSize SmbiosType : Nat) : Nat → Nat → Nat → Option Nat
  | 0, _, _ => none
  | Fuel + 1, Raw, SmbiosTypeIndex =>
    match readByte Base Pool Raw with
    | none => none
    | some HdrType =>
      if HdrType ≠ c.SMBIOS_TYPE_END_OF_TABLE then
        let SmbiosTypeIndex :=
          if HdrType = SmbiosType then (SmbiosTypeIndex + 1) % 2 ^ 16 else SmbiosTypeIndex
        match SmbiosGetTableLength Base Pool Raw with
        | none => none
        | some Length =>
          let Raw := Raw + Length
          if Raw > Raw + SmbiosTableSize then some SmbiosTypeIndex
          else getTableCountLoop c Base Pool SmbiosTableSize SmbiosType Fuel Raw SmbiosTypeIndex
      else some SmbiosTypeIndex

/-- `SmbiosGetTableCount`: the number of records of type `SmbiosType` from
`SmbiosTable` up to the end-of-table record, counted in 16 bits. -/
def SmbiosGetTableCount (c : Constants) (Base : Nat) (Pool : List Nat)
    (SmbiosTable SmbiosTableSize SmbiosType : Nat) : Option Nat :=
  if SmbiosTable = 0 then some 0
  else getTableCountLoop c Base Pool SmbiosTableSize SmbiosType (Pool.length + 1) SmbiosTable 0

/-- A record of a serialized table: type, handle, the formatted bytes that
follow the 4-byte header, and the strings of its pool. -/
structure SmbiosRecord where
  SmbiosType : Nat
  Handle : Nat
  Body : List Nat
  Strings : List (List Nat)
  deriving DecidableEq, Repr

/-- The bytes of a string pool: every string followed by a zero byte. -/
def poolBytes (Strings : List (List Nat)) : List Nat :=
  (Strings.map (fun s => s ++ [0])).flatten

/-- The bytes of a serialized record: header (type, length of the formatted
area, handle in little-endian order), formatted bytes, string pool, and the
terminator: one more zero byte after a pool, two zero bytes without one. -/
def SmbiosRecord.bytes (r : SmbiosRecord) : List Nat :=
  [r.SmbiosType, 4 + r.Body.length, r.Handle % 256, r.Handle / 256] ++ r.Body
    ++ poolBytes r.Strings ++ (if r.Strings = [] then [0, 0] else [0])

/-- A well-formed record: type, length and formatted bytes fit a byte, the
handle fits 16 bits, and every string is non-empty and made of non-zero
bytes. -/
def SmbiosRecord.WellFormed (r : SmbiosRecord) : Prop :=
  r.SmbiosType < 256 ∧ r.Handle < 2 ^ 16 ∧ 4 + r.Body.length < 256 ∧
    (∀ b ∈ r.Body, b < 256) ∧ ∀ s ∈ r.Strings, s ≠ [] ∧ ∀ b ∈ s, 0 < b ∧ b < 256

instance (r : SmbiosRecord) : Decidable r.WellFormed := by
  unfold SmbiosRecord.WellFormed
  infer_instance

/-- The bytes of a serialized table: the records one after the other. -/
def tableBytes (Records : List SmbiosRecord) : List Nat :=
  (Records.map SmbiosRecord.bytes).flatten

/-- The addresses at which the records of a serialized table start, the first
one at `Start`. -/
def recordStarts : Nat → List SmbiosRecord → List Nat
  | _, [] => []
  | Start, r :: rest => Start :: recordStarts (Start + r.bytes.length) rest

/-- A well-formed serialized table: well-formed records, none of them of the
end-of-table type, followed by a well-formed end-of-table record. -/
def WellFormedTable (c : Constants) (Records : List SmbiosRecord) (End : SmbiosRecord) : Prop :=
  (∀ r ∈ Records, r.WellFormed ∧ r.SmbiosType ≠ c.SMBIOS_TYPE_END_OF_TABLE) ∧
    End.WellFormed ∧ End.SmbiosType = c.SMBIOS_TYPE_END_OF_TABLE

instance (c : Constants) (Records : List SmbiosRecord) (End : SmbiosRecord) :
    Decidable (WellFormedTable c Records End) := by
  unfold WellFormedTable
  infer_instance

/-- The start addresses of the records of type `SmbiosType`, in table order. -/
def typedStarts (SmbiosType : Nat) : Nat → List SmbiosRecord → List Nat
  | _, [] => []
  | Start, r :: rest =>
    if r.SmbiosType = SmbiosType then
      Start :: typedStarts SmbiosType (Start + r.bytes.length) rest
    else typedStarts SmbiosType (Start + r.bytes.length) rest

/-- The start address of the first record with handle `Handle`, in table
order; 0 when there is none. -/
def handleStart (Handle : Nat) : Nat → List SmbiosRecord → Nat
  | _, [] => 0
  | Start, r :: rest =>
    if r.Handle = Handle then Start else handleStart Handle (Start + r.bytes.length) rest

/-- A sample table of types memory device, cache, memory device, end of table:
the first record has the string "DIMM", the second one formatted byte after
its header. -/
def walkRecords : List SmbiosRecord :=
  [⟨17, 40, [], [[68, 73, 77, 77]]⟩, ⟨7, 41, [1], []⟩, ⟨17, 42, [], []⟩]

/-- The end-of-table record of the sample table. -/
def walkEnd : SmbiosRecord := ⟨127, 43, [], []⟩

/-- The bytes of the sample table. -/
def walkSample : List Nat := tableBytes (walkRecords ++ [walkEnd])

/-- The number of records of type `SmbiosType` in a list of records. -/
def countOfType (SmbiosType : Nat) (Records : List SmbiosRecord) : Nat :=
  (Records.filter (fun r => r.SmbiosType = SmbiosType)).length

/-- The start address of the first record with handle `Handle` that a scan
reaches which gives up once a record ends above `Bound`; 0 when it reaches
none. -/
def handleStartWithin (Handle Bound : Nat) : Nat → List SmbiosRecord → Nat
  | _, [] => 0
  | Start, r :: rest =>
    if r.Handle = Handle then Start
    else if Start + r.bytes.length > Bound then 0
    else handleStartWithin Handle Bound (Start + r.bytes.length) rest

/-- Where a record build stands after a call: between records, inside a
record of fixed length `L` opened by a successful `SmbiosInitialiseStruct`, or
after a `SmbiosInitialiseStruct` for fixed length `L` that returned
`EFI_INVALID_PARAMETER`. -/
inductive BuildPhase where
  | idle
  | opened (L : Nat)
  | rejected (L : Nat)
  deriving DecidableEq, Repr

/-- The tables after each string call of a record, calls that store nothing
included; the caller's index counter is what each call leaves. -/
def stringTrace (c : Constants) : OC_SMBIOS_TABLE → Nat → List StringCall → List OC_SMBIOS_TABLE
  | _, _, [] => []
  | t, Index, s :: rest =>
    (SmbiosOverrideString c s.NewBuffer t (some s.Override) Index s.Hex).Table
      :: stringTrace c (SmbiosOverrideString c s.NewBuffer t (some s.Override) Index s.Hex).Table
        (SmbiosOverrideString c s.NewBuffer t (some s.Override) Index s.Hex).Index rest

/-- The tables of one record build, call by call.  A failed
`SmbiosInitialiseStruct` ends the build; after a successful one come the string
calls, failed ones included, and `SmbiosFinaliseStruct`. -/
def attemptTrace (c : Constants) (t : OC_SMBIOS_TABLE) (r : RecordBuild) :
    List (OC_SMBIOS_TABLE × BuildPhase) :=
  match SmbiosInitialiseStruct c r.NewBuffer t r.SmbiosType r.MinLength r.Index with
  | (.EFI_SUCCESS, t1) =>
    (t1, .opened r.MinLength)
      :: (stringTrace c t1 0 r.Strings).map (fun x => (x, BuildPhase.opened r.MinLength))
      ++ [(SmbiosFinaliseStruct ((stringTrace c t1 0 r.Strings).getLastD t1), .idle)]
  | (.EFI_INVALID_PARAMETER, t1) => [(t1, .rejected r.MinLength)]
  | (.EFI_OUT_OF_RESOURCES, t1) => [(t1, .idle)]

/-- The tables of a construction session, call by call: the record builds one
after the other, each from the table the previous one left. -/
def sessionTrace (c : Constants) :
    OC_SMBIOS_TABLE → List RecordBuild → List (OC_SMBIOS_TABLE × BuildPhase)
  | _, [] => []
  | t, r :: rest =>
    attemptTrace c t r
      ++ sessionTrace c ((attemptTrace c t r).getLastD (t, BuildPhase.idle)).1 rest

/-- The capacity invariant: the record cursor is not above the string cursor,
the string cursor lies inside the allocated size, which is the size of the
block and at most the page-rounded maximal table length. -/
def CapacityInvariant (c : Constants) (t : OC_SMBIOS_TABLE) : Prop :=
  t.Table ≤ t.CurrentPtr ∧ t.CurrentPtr ≤ t.CurrentStrPtr ∧
    t.CurrentStrPtr - t.Table ≤ t.AllocatedTableSize ∧
    t.AllocatedTableSize ≤ ALIGN_VALUE c.SMBIOS_TABLE_MAX_LENGTH c.EFI_PAGE_SIZE ∧
    t.Pool.length = t.AllocatedTableSize

instance (c : Constants) (t : OC_SMBIOS_TABLE) : Decidable (CapacityInvariant c t) := by
  unfold CapacityInvariant
  infer_instance

/-- The invariant of an open record of fixed length `L`: the string cursor is
at or past the end of the fixed body, and two more bytes are allocated past
it. -/
def OpenRecordInvariant (t : OC_SMBIOS_TABLE) (L : Nat) : Prop :=
  t.CurrentPtr + L ≤ t.CurrentStrPtr ∧ t.CurrentStrPtr - t.Table + 2 ≤ t.AllocatedTableSize

instance (t : OC_SMBIOS_TABLE) (L : Nat) : Decidable (OpenRecordInvariant t L) := by
  unfold OpenRecordInvariant
  infer_instance

/-- A table between two record builds: well-formed, the cursors coincide, and
the allocated size is at most the page-rounded maximal table length. -/
def IdleState (c : Constants) (t : OC_SMBIOS_TABLE) : Prop :=
  ValidTable c t ∧ t.CurrentPtr = t.CurrentStrPtr ∧
    t.AllocatedTableSize ≤ ALIGN_VALUE c.SMBIOS_TABLE_MAX_LENGTH c.EFI_PAGE_SIZE

/-- A table inside a record of fixed length `L`: well-formed, with the string
cursor past the fixed body and room for two more bytes below both the
allocated size and the maximal table length. -/
def OpenState (c : Constants) (t : OC_SMBIOS_TABLE) (L : Nat) : Prop :=
  ValidTable c t ∧ t.CurrentPtr + L ≤ t.CurrentStrPtr ∧
    t.CurrentStrPtr - t.Table + 2 ≤ t.AllocatedTableSize ∧
    t.CurrentStrPtr - t.Table + 2 ≤ c.SMBIOS_TABLE_MAX_LENGTH ∧
    t.AllocatedTableSize ≤ ALIGN_VALUE c.SMBIOS_TABLE_MAX_LENGTH c.EFI_PAGE_SIZE

/-- What holds of a table of a session trace in its phase. -/
def TraceState (c : Constants) (p : OC_SMBIOS_TABLE × BuildPhase) : Prop :=
  match p.2 with
  | .idle => IdleState c p.1
  | .opened L => OpenState c p.1 L
  | .rejected L =>
    IdleState c p.1 ∧ p.1.CurrentPtr - p.1.Table + L + 2 ≤ p.1.AllocatedTableSize

/-- A session with failed calls: a record the allocator refuses, a cache
record with the bad slot 4, and a record with two strings that succeeds. -/
def failingSession : List RecordBuild :=
  [ { NewBuffer := 0, SmbiosType := 1, MinLength := 8, Index := 1, Strings := [] },
    { NewBuffer := 4096, SmbiosType := 7, MinLength := 4, Index := 4
      Strings := [⟨0, [67], false⟩] },
    { NewBuffer := 0, SmbiosType := 1, MinLength := 8, Index := 1
      Strings := [⟨0, [65], false⟩, ⟨0, List.replicate 64 66, true⟩] } ]
/-- A session of sixteen memory-device records without strings that fills
the first page exactly: fifteen of 255 fixed bytes and one of 239. -/
def fullPageSession : List RecordBuild :=
  List.replicate 15 { NewBuffer := 4096, SmbiosType := 17, MinLength := 255, Index := 1,
                      Strings := [] }
    ++ [{ NewBuffer := 4096, SmbiosType := 17, MinLength := 239, Index := 1, Strings := [] }]

/-- The table and record offsets after `fullPageSession`. -/
def fullPageBuilt : OC_SMBIOS_TABLE × List Nat :=
  (buildSession referenceConstants (emptyTable referenceConstants) fullPageSession).getD
    (emptyTable referenceConstants, [])

/-- The records of a table that fills one page: fifteen memory-device records
with handles 50 to 64 and one cache record with handle 41, without strings. -/
def topRecords : List SmbiosRecord :=
  (List.range 15).map (fun i => ⟨17, 50 + i, List.replicate 251 0, []⟩)
    ++ [⟨7, 41, List.replicate 229 0, []⟩]

/-- The end-of-table record of the page-sized table. -/
def topEnd : SmbiosRecord := ⟨127, 43, [], []⟩

/-- The 4096 bytes of the page-sized table. -/
def topSample : List Nat := tableBytes (topRecords ++ [topEnd])

/-- An entry point for the page-sized table in the last page below 4 GiB:
address `0xFFFFF000`, length 4096. -/
def topEntryPoint : SMBIOS_TABLE_ENTRY_POINT :=
  { TableLength := 4096, TableAddress := 4294963200 }

/-! ## Memory lemmas -/

theorem writeByte_at (Base : Nat) (pre post : List Nat) (x v : Nat) :
    writeByte Base (pre ++ x :: post) (Base + pre.length) v = pre ++ (v % 256) :: post := by
  unfold writeByte
  simp

theorem writeBytes_at (Base : Nat) (bytes : List Nat) :
    ∀ (pre old post : List Nat), old.length = bytes.length →
      writeBytes Base (pre ++ old ++ post) (Base + pre.length) bytes
        = pre ++ bytes.map (fun b => b % 256) ++ post := by
  induction bytes with
  | nil =>
    intro pre old post h
    have : old = [] := List.length_eq_zero.mp h
    simp [writeBytes, this]
  | cons b bs ih =>
    intro pre old post h
    cases old with
    | nil => simp at h
    | cons x xs =>
      have hx : xs.length = bs.length := by simpa using h
      have h1 : pre ++ x :: xs ++ post = pre ++ x :: (xs ++ post) := by simp
      have h2 : pre ++ (b % 256) :: (xs ++ post) = (pre ++ [b % 256]) ++ xs ++ post := by simp
      have h3 : Base + pre.length + 1 = Base + (pre ++ [b % 256]).length := by simp; omega
      rw [writeBytes, h1, writeByte_at, h2, h3, ih _ _ _ hx]
      simp

theorem readByte_at (Base : Nat) (pre post : List Nat) (x : Nat) :
    readByte Base (pre ++ x :: post) (Base + pre.length) = some x := by
  unfold readByte
  rw [if_pos (Nat.le_add_right _ _), List.get?_eq_getElem?,
    List.getElem?_append_right (by omega)]
  simp

theorem ALIGN_VALUE_ge (v a : Nat) (ha : 0 < a) : v ≤ ALIGN_VALUE v a := by
  unfold ALIGN_VALUE
  have h1 := Nat.div_add_mod (v + a - 1) a
  have h2 := Nat.mod_lt (v + a - 1) ha
  have h3 : (v + a - 1) / a * a = a * ((v + a - 1) / a) := Nat.mul_comm _ _
  rw [h3]
  omega

theorem ALIGN_VALUE_lt (v a : Nat) (ha : 0 < a) : ALIGN_VALUE v a < v + a := by
  unfold ALIGN_VALUE
  have h1 := Nat.div_add_mod (v + a - 1) a
  have h3 : (v + a - 1) / a * a = a * ((v + a - 1) / a) := Nat.mul_comm _ _
  rw [h3]
  omega

/-! ## `SmbiosExtendTable` -/

theorem SmbiosExtendTable_layout {c : Constants} {nb : Nat} {t t' : OC_SMBIOS_TABLE}
    {used : List Nat} {n Size : Nat} (hc : c.Sane) (h : Layout c t used n)
    (hS : Size ≤ 2 ^ 30)
    (hr : SmbiosExtendTable c nb t Size = (.EFI_SUCCESS, t')) :
    ∃ n', Layout c t' used n' ∧ Size + 2 ≤ n' ∧
      used.length + Size + 2 ≤ c.SMBIOS_TABLE_MAX_LENGTH ∧
      t'.CurrentPtr = t'.Table + (t.CurrentPtr - t.Table) ∧
      t'.Handle = t.Handle ∧ t'.MaxStructureSize = t.MaxStructureSize ∧
      t'.NumberOfStructures = t.NumberOfStructures ∧ t'.Table ≠ 0 := by
  obtain ⟨⟨hpage, hpage2⟩, hmax, -, -⟩ := hc
  obtain ⟨hpool, halloc, hstr, hbase, hnull, hlen⟩ := h
  have hTS : (if t.Table = 0 then 0 else (t.CurrentStrPtr - t.Table) % 2 ^ 32) = used.length := by
    split_ifs with h0
    · simp [(hnull h0).1]
    · rw [hstr]
      have : t.Table + used.length - t.Table = used.length := by omega
      rw [this]
      exact Nat.mod_eq_of_lt (by omega)
  have hSz : (Size + SMBIOS_STRUCTURE_TERMINATOR_SIZE) % 2 ^ 32 = Size + 2 := by
    unfold SMBIOS_STRUCTURE_TERMINATOR_SIZE
    exact Nat.mod_eq_of_lt (by omega)
  have hRq : (used.length + (Size + 2)) % 2 ^ 32 = used.length + Size + 2 := by
    rw [Nat.mod_eq_of_lt (by omega)]; omega
  have hA1 := ALIGN_VALUE_ge (used.length + Size + 2) c.EFI_PAGE_SIZE hpage
  have hA2 := ALIGN_VALUE_ge c.SMBIOS_TABLE_MAX_LENGTH c.EFI_PAGE_SIZE hpage
  have hA3 := ALIGN_VALUE_lt (used.length + Size + 2) c.EFI_PAGE_SIZE hpage
  unfold SmbiosExtendTable at hr
  simp only [hTS, hSz, hRq] at hr
  by_cases hover : used.length + Size + 2 > c.SMBIOS_TABLE_MAX_LENGTH
  · rw [if_pos hover] at hr; simp at hr
  rw [Nat.mod_eq_of_lt (a := ALIGN_VALUE (used.length + Size + 2) c.EFI_PAGE_SIZE)
    (by omega)] at hr
  split_ifs at hr with h2 h3
  · simp only [Prod.mk.injEq, true_and] at hr
    subst hr
    refine ⟨n, ⟨hpool, halloc, hstr, hbase, hnull, hlen⟩, by omega, by omega, by omega,
      rfl, rfl, rfl, ?_⟩
    intro h0
    have := (hnull h0).2
    omega
  · unfold ReallocatePool at hr
    split_ifs at hr with h4
    · simp at hr
    · simp only [Prod.mk.injEq, true_and] at hr
      subst hr
      have hmin : min used.length (ALIGN_VALUE c.SMBIOS_TABLE_MAX_LENGTH c.EFI_PAGE_SIZE)
          = used.length := by omega
      refine ⟨ALIGN_VALUE c.SMBIOS_TABLE_MAX_LENGTH c.EFI_PAGE_SIZE - used.length,
        ⟨?_, ?_, rfl, ?_, ?_, hlen⟩, ?_, by omega, ?_, rfl, rfl, rfl, h4⟩
      · simp [hpool, hmin]
      · simp; omega
      · simp
      · intro h0; exact absurd h0 h4
      · omega
      · simp
  · unfold ReallocatePool at hr
    split_ifs at hr with h4
    · simp at hr
    · simp only [Prod.mk.injEq, true_and] at hr
      subst hr
      have hmin : min used.length (ALIGN_VALUE (used.length + Size + 2) c.EFI_PAGE_SIZE)
          = used.length := by omega
      refine ⟨ALIGN_VALUE (used.length + Size + 2) c.EFI_PAGE_SIZE - used.length,
        ⟨?_, ?_, rfl, ?_, ?_, hlen⟩, ?_, by omega, ?_, rfl, rfl, rfl, h4⟩
      · simp [hpool, hmin]
      · simp; omega
      · simp
      · intro h0; exact absurd h0 h4
      · omega
      · simp

/-! ## String encoder -/

theorem stripTrailingSpaces_le (s : List Nat) : ∀ n, stripTrailingSpaces s n ≤ n := by
  intro n
  induction n with
  | zero => simp [stripTrailingSpaces]
  | succ k ih =>
    unfold stripTrailingSpaces
    split_ifs <;> omega

theorem overrideLength_le_length (c : Constants) (s : List Nat) (hex : Bool) :
    overrideLength c s hex ≤ s.length := by
  unfold overrideLength
  have h1 := Nat.mod_le s.length (2 ^ 32)
  refine le_trans (stripTrailingSpaces_le _ _) ?_
  split_ifs <;> omega

theorem overrideLength_bound {c : Constants} (hc : c.Sane) (s : List Nat) (hex : Bool) :
    (if hex then overrideLength c s hex * 2 + SMBIOS_STRING_HEX_PREFIX_SIZE + 1
      else overrideLength c s hex + 1) ≤ 2 ^ 30 := by
  obtain ⟨-, -, h4, hlt⟩ := hc
  have hs := stripTrailingSpaces_le s
  unfold overrideLength SMBIOS_STRING_HEX_PREFIX_SIZE
  cases hex with
  | false =>
    simp only [Bool.false_eq_true, if_false]
    have hm : c.SMBIOS_STRING_MAX_LENGTH % 2 ^ 32 = c.SMBIOS_STRING_MAX_LENGTH :=
      Nat.mod_eq_of_lt (by omega)
    rw [hm]
    split_ifs with h1
    · have := hs c.SMBIOS_STRING_MAX_LENGTH; omega
    · have := hs (s.length % 2 ^ 32); omega
  | true =>
    simp only [if_true]
    have hm : (c.SMBIOS_STRING_MAX_LENGTH / 2 + 2 ^ 32 - 2) % 2 ^ 32
        = c.SMBIOS_STRING_MAX_LENGTH / 2 - 2 := by
      have : c.SMBIOS_STRING_MAX_LENGTH / 2 + 2 ^ 32 - 2
          = (c.SMBIOS_STRING_MAX_LENGTH / 2 - 2) + 2 ^ 32 := by omega
      rw [this, Nat.add_mod_right]
      exact Nat.mod_eq_of_lt (by omega)
    rw [hm]
    split_ifs with h1
    · have := hs (c.SMBIOS_STRING_MAX_LENGTH / 2 - 2); omega
    · have := hs (s.length % 2 ^ 32); omega

theorem hexDigits_lt (i : Nat) : hexDigits.getD i 0 < 256 := by
  by_cases h : i < 16
  · interval_cases i <;> simp [hexDigits]
  · have : hexDigits.length ≤ i := by simp [hexDigits]; omega
    rw [List.getD_eq_default _ _ this]
    omega

theorem hexLoop_at (Base : Nat) (post : List Nat) :
    ∀ (n : Nat) (s pre old : List Nat), old.length = 2 * n → n ≤ s.length →
      hexLoop Base (pre ++ old ++ post) (Base + pre.length) s n
        = (pre ++ hexEncode (s.take n) ++ post, Base + pre.length + 2 * n) := by
  intro n
  induction n with
  | zero =>
    intro s pre old ho _
    have : old = [] := List.length_eq_zero.mp (by simpa using ho)
    simp [hexLoop, hexEncode, this]
  | succ k ih =>
    intro s pre old ho hs
    match s, old, ho, hs with
    | [], _, _, hs => simp at hs
    | _ :: _, [], ho, _ => simp at ho
    | _ :: _, [_], ho, _ => simp at ho; omega
    | b :: bs, x :: y :: old', ho, hs =>
      have ho' : old'.length = 2 * k := by simp at ho; omega
      have hs' : k ≤ bs.length := by simpa using hs
      have e1 : pre ++ x :: y :: old' ++ post = pre ++ x :: (y :: (old' ++ post)) := by simp
      have e2 : ∀ d1 : Nat, pre ++ d1 :: (y :: (old' ++ post))
          = (pre ++ [d1]) ++ y :: (old' ++ post) := by intro d1; simp
      have e3 : Base + pre.length + 1 = Base + (pre ++ [hexDigits.getD
          (((b % 256) >>> 4) &&& 15) 0]).length := by simp; omega
      have e4 : ∀ d1 d2 : Nat, (pre ++ [d1]) ++ d2 :: (old' ++ post)
          = (pre ++ [d1, d2]) ++ old' ++ post := by intro d1 d2; simp
      have e5 : ∀ d1 d2 : Nat, Base + pre.length + 2 = Base + (pre ++ [d1, d2]).length := by
        intro d1 d2; simp; omega
      simp only [hexLoop, List.headD_cons, List.tail_cons]
      rw [e1, writeByte_at, Nat.mod_eq_of_lt (hexDigits_lt _), e2, e3, writeByte_at,
        Nat.mod_eq_of_lt (hexDigits_lt _), e4,
        e5 (hexDigits.getD (((b % 256) >>> 4) &&& 15) 0) (hexDigits.getD ((b % 256) &&& 15) 0),
        ih bs _ old' ho' hs']
      simp [hexEncode, hexPair]
      omega

theorem hexEncode_length (s : List Nat) : (hexEncode s).length = 2 * s.length := by
  induction s with
  | nil => simp [hexEncode]
  | cons b bs ih => simp [hexEncode, hexPair, ih]; omega

theorem replicate_split (n k : Nat) (h : k ≤ n) :
    List.replicate n (0 : Nat) = List.replicate k 0 ++ List.replicate (n - k) 0 := by
  rw [← List.replicate_add]
  congr 1
  omega

theorem SmbiosSetString_at (Base : Nat) (used text : List Nat) (Len n idx : Nat)
    (hLen : Len ≤ text.length) (hn : Len + 1 ≤ n) :
    SmbiosSetString Base (used ++ List.replicate n 0) (Base + used.length) text Len idx
      = { Pool := (used ++ (text.take Len).map (fun b => b % 256) ++ [0])
            ++ List.replicate (n - Len - 1) 0
          Buffer := Base + used.length + (Len + 1)
          Index := (idx + 1) % 256
          Result := (idx + 1) % 256 } := by
  unfold SmbiosSetString
  have hpool : (if Len > 0 then
        writeBytes Base (used ++ List.replicate n 0) (Base + used.length) (text.take Len)
      else used ++ List.replicate n 0)
      = (used ++ (text.take Len).map (fun b => b % 256) ++ [0])
          ++ List.replicate (n - Len - 1) 0 := by
    have hsplit : used ++ List.replicate n 0
        = used ++ List.replicate Len 0 ++ List.replicate (n - Len) 0 := by
      rw [replicate_split n Len (by omega)]; simp
    have htail : List.replicate (n - Len) (0 : Nat) = [0] ++ List.replicate (n - Len - 1) 0 := by
      rw [replicate_split (n - Len) 1 (by omega)]; rfl
    split_ifs with h0
    · rw [hsplit, writeBytes_at Base (text.take Len) used (List.replicate Len 0) _
        (by simp; omega), htail]
      simp
    · have : Len = 0 := by omega
      subst this
      rw [replicate_split n 1 (by omega)]
      simp
  simp only [hpool]

theorem SmbiosSetStringHex_at (Base : Nat) (used text : List Nat) (Len n idx : Nat)
    (hLen : Len ≤ text.length) (hn : 2 * Len + 3 ≤ n) :
    SmbiosSetStringHex Base (used ++ List.replicate n 0) (Base + used.length) text Len idx
      = { Pool := (used ++ (if Len > 0 then [48, 120] ++ hexEncode (text.take Len) else [])
            ++ [0]) ++ List.replicate
              (n - (if Len > 0 then [48, 120] ++ hexEncode (text.take Len) else []).length - 1) 0
          Buffer := Base + used.length
            + ((if Len > 0 then [48, 120] ++ hexEncode (text.take Len) else []).length + 1)
          Index := (idx + 1) % 256
          Result := (idx + 1) % 256 } := by
  unfold SmbiosSetStringHex
  by_cases h0 : Len > 0
  · simp only [h0, if_true]
    have hsplit : used ++ List.replicate n 0
        = used ++ 0 :: (0 :: (List.replicate (2 * Len) 0 ++ List.replicate (n - 2 - 2 * Len) 0)) := by
      rw [replicate_split n 2 (by omega), replicate_split (n - 2) (2 * Len) (by omega)]
      rfl
    have e2 : used ++ (48 % 256) :: (0 :: (List.replicate (2 * Len) 0
          ++ List.replicate (n - 2 - 2 * Len) 0))
        = (used ++ [48]) ++ 0 :: (List.replicate (2 * Len) 0
          ++ List.replicate (n - 2 - 2 * Len) 0) := by simp
    have e3 : Base + used.length + 1 = Base + (used ++ [48]).length := by simp; omega
    have e4 : (used ++ [48]) ++ (120 % 256) :: (List.replicate (2 * Len) 0
          ++ List.replicate (n - 2 - 2 * Len) 0)
        = (used ++ [48, 120]) ++ List.replicate (2 * Len) 0
          ++ List.replicate (n - 2 - 2 * Len) 0 := by simp
    have e5 : Base + used.length + 2 = Base + (used ++ [48, 120]).length := by simp; omega
    have hl : (hexEncode (text.take Len)).length = 2 * Len := by
      rw [hexEncode_length, List.length_take]; omega
    have htail : List.replicate (n - 2 - 2 * Len) (0 : Nat)
        = [0] ++ List.replicate (n - 2 - 2 * Len - 1) 0 := by
      rw [replicate_split (n - 2 - 2 * Len) 1 (by omega)]; rfl
    rw [hsplit, writeByte_at, e2, e3, writeByte_at, e4, e5,
      hexLoop_at Base _ Len text _ _ (by simp) hLen, htail]
    simp only [List.length_append, List.length_cons, List.length_nil, hl]
    have e6 : n - (0 + 1 + 1 + 2 * Len) - 1 = n - 2 - 2 * Len - 1 := by omega
    rw [e6]
    simp
    omega
  · have : Len = 0 := by omega
    subst this
    simp only [gt_iff_lt, lt_self_iff_false, if_false]
    rw [replicate_split n 1 (by omega)]
    simp

theorem encodedString_length (c : Constants) (s : StringCall) :
    (encodedString c s).length
      = if s.Hex then
          (if overrideLength c s.Override s.Hex > 0
            then 2 + 2 * overrideLength c s.Override s.Hex else 0)
        else overrideLength c s.Override s.Hex := by
  have hle := overrideLength_le_length c s.Override s.Hex
  unfold encodedString
  simp only
  split_ifs <;> simp [hexEncode_length, List.length_take] <;> omega

/-- Effect of a string call that stores a string, on a laid-out table. -/
theorem SmbiosOverrideString_layout {c : Constants} {t : OC_SMBIOS_TABLE}
    {used : List Nat} {n : Nat} (hc : c.Sane) (h : Layout c t used n) (s : StringCall)
    (idx : Nat)
    (hres : (SmbiosOverrideString c s.NewBuffer t (some s.Override) idx s.Hex).Result ≠ 0) :
    ∃ n', Layout c (SmbiosOverrideString c s.NewBuffer t (some s.Override) idx s.Hex).Table
        (used ++ encodedString c s ++ [0]) n' ∧ 2 ≤ n' ∧
      (used ++ encodedString c s ++ [0]).length + 2 ≤ c.SMBIOS_TABLE_MAX_LENGTH ∧
      (SmbiosOverrideString c s.NewBuffer t (some s.Override) idx s.Hex).Table.CurrentPtr
        = (SmbiosOverrideString c s.NewBuffer t (some s.Override) idx s.Hex).Table.Table
          + (t.CurrentPtr - t.Table) ∧
      (SmbiosOverrideString c s.NewBuffer t (some s.Override) idx s.Hex).Table.Handle
        = t.Handle ∧
      (SmbiosOverrideString c s.NewBuffer t (some s.Override) idx s.Hex).Table.MaxStructureSize
        = t.MaxStructureSize ∧
      (SmbiosOverrideString c s.NewBuffer t (some s.Override) idx s.Hex).Table.NumberOfStructures
        = t.NumberOfStructures ∧
      (SmbiosOverrideString c s.NewBuffer t (some s.Override) idx s.Hex).Index
        = (idx + 1) % 256 ∧
      (SmbiosOverrideString c s.NewBuffer t (some s.Override) idx s.Hex).Result
        = (idx + 1) % 256 := by
  obtain ⟨nb, text, hex⟩ := s
  have hb := overrideLength_bound hc text hex
  have hle := overrideLength_le_length c text hex
  have hel := encodedString_length c ⟨nb, text, hex⟩
  revert hres
  unfold SmbiosOverrideString
  unfold SMBIOS_STRING_HEX_PREFIX_SIZE at hb ⊢
  cases hex with
  | true =>
    simp only [if_true] at hb hel ⊢
    rw [Nat.mod_eq_of_lt (by omega)]
    rcases hext : SmbiosExtendTable c nb t (overrideLength c text true * 2 + 2 + 1) with ⟨st, T⟩
    cases st with
    | EFI_OUT_OF_RESOURCES => simp
    | EFI_INVALID_PARAMETER => simp
    | EFI_SUCCESS =>
      intro _
      obtain ⟨n1, ⟨hpool, halloc, hstr, hbase, hnull, hlen⟩, hn1, hmax, hcur, hH, hM, hN, hT0⟩ :=
        SmbiosExtendTable_layout hc h hb hext
      simp only
      rw [hpool, hstr, SmbiosSetStringHex_at _ _ _ _ _ _ hle (by omega)]
      have henc : encodedString c ⟨nb, text, true⟩
          = (if overrideLength c text true > 0
              then [48, 120] ++ hexEncode (text.take (overrideLength c text true))
              else []) := by
        unfold encodedString
        simp only [if_true]
      rw [← henc]
      refine ⟨n1 - (encodedString c ⟨nb, text, true⟩).length - 1, ⟨rfl, ?_, ?_, ?_, ?_, ?_⟩,
        ?_, ?_, ?_, hH, hM, hN, rfl, rfl⟩
      · simp only [halloc, List.length_append, List.length_cons, List.length_nil]
        split_ifs at hel <;> omega
      · simp only [List.length_append, List.length_cons, List.length_nil]; omega
      · exact hbase
      · intro h0; exact absurd h0 hT0
      · simp only [List.length_append, List.length_cons, List.length_nil]
        split_ifs at hel <;> omega
      · split_ifs at hel <;> omega
      · simp only [List.length_append, List.length_cons, List.length_nil]
        split_ifs at hel <;> omega
      · exact hcur
  | false =>
    simp only [Bool.false_eq_true, if_false] at hb hel ⊢
    rw [Nat.mod_eq_of_lt (by omega)]
    rcases hext : SmbiosExtendTable c nb t (overrideLength c text false + 1) with ⟨st, T⟩
    cases st with
    | EFI_OUT_OF_RESOURCES => simp
    | EFI_INVALID_PARAMETER => simp
    | EFI_SUCCESS =>
      intro _
      obtain ⟨n1, ⟨hpool, halloc, hstr, hbase, hnull, hlen⟩, hn1, hmax, hcur, hH, hM, hN, hT0⟩ :=
        SmbiosExtendTable_layout hc h hb hext
      simp only
      rw [hpool, hstr, SmbiosSetString_at _ _ _ _ _ _ hle (by omega)]
      have henc : encodedString c ⟨nb, text, false⟩
          = (text.take (overrideLength c text false)).map (fun b => b % 256) := by
        unfold encodedString
        simp only [Bool.false_eq_true, if_false]
      rw [← henc]
      refine ⟨n1 - overrideLength c text false - 1, ⟨rfl, ?_, ?_, ?_, ?_, ?_⟩, ?_, ?_, ?_,
        hH, hM, hN, rfl, rfl⟩
      · simp only [halloc, List.length_append, List.length_cons, List.length_nil]; omega
      · simp only [List.length_append, List.length_cons, List.length_nil]; omega
      · exact hbase
      · intro h0; exact absurd h0 hT0
      · simp only [List.length_append, List.length_cons, List.length_nil]; omega
      · omega
      · simp only [List.length_append, List.length_cons, List.length_nil]; omega
      · exact hcur

/-! ## Handle assigner and record lifecycle -/

theorem header_at (B : Nat) (used : List Nat) (n a b lo hi : Nat) (hn : 4 ≤ n) :
    writeByte B (writeByte B (writeByte B (writeByte B (used ++ List.replicate n 0)
      (B + used.length) a) (B + used.length + 1) b) (B + used.length + 2) lo)
      (B + used.length + 3) hi
      = used ++ [a % 256, b % 256, lo % 256, hi % 256] ++ List.replicate (n - 4) 0 := by
  have h := writeBytes_at B [a, b, lo, hi] used (List.replicate 4 0) (List.replicate (n - 4) 0)
    (by simp)
  have hsplit : used ++ List.replicate n 0
      = used ++ List.replicate 4 0 ++ List.replicate (n - 4) 0 := by
    rw [replicate_split n 4 hn]; simp
  have h' : used ++ [a % 256, b % 256, lo % 256, hi % 256] ++ List.replicate (n - 4) 0
      = used ++ List.map (fun b => b % 256) [a, b, lo, hi] ++ List.replicate (n - 4) 0 := by
    simp
  rw [hsplit, h', ← h]
  simp [writeBytes, Nat.add_assoc]

theorem SmbiosAssignStructHandle_success {c : Constants} {t t' : OC_SMBIOS_TABLE}
    {ty idx : Nat} (h : SmbiosAssignStructHandle c t ty idx = (.EFI_SUCCESS, t')) :
    t' = match reservedHandle c ty idx with
      | some hd => setHdrHandle t hd
      | none => assignAutomaticHandle t := by
  unfold SmbiosAssignStructHandle at h
  unfold reservedHandle
  split_ifs at h with h1 h2 h3 h4 h5 h6
  · simp [h1, h2] at h ⊢; exact h.symm
  · simp [h1, h2, h3] at h ⊢; exact h.symm
  · simp [h1, h2, h3, h4] at h ⊢; exact h.symm
  · simp at h
  · have hin : ty ∈ autoIncrementTypes c := by
      simp only [autoIncrementTypes, List.mem_cons, List.mem_singleton, List.not_mem_nil,
        or_false]
      exact h5
    simp [h1, hin] at h ⊢; exact h.symm
  · simp at h
  · have hin : ty ∉ autoIncrementTypes c := by
      simp only [autoIncrementTypes, List.mem_cons, List.mem_singleton, List.not_mem_nil,
        or_false]
      exact h5
    simp only [h1, if_false, hin, h6]
    cases hl : (singletonCases c).lookup ty with
    | none => simp [hl] at h ⊢; exact h.symm
    | some hd => simp [hl] at h ⊢; exact h.symm

theorem setHdrHandle_pool (T : OC_SMBIOS_TABLE) (used : List Nat) (n a b hd : Nat)
    (hn : 4 ≤ n) (hcur : T.CurrentPtr = T.Table + used.length) :
    writeByte T.Table (writeByte T.Table (writeByte T.Table (writeByte T.Table
      (used ++ List.replicate n 0) T.CurrentPtr a) (T.CurrentPtr + 1) b)
      (T.CurrentPtr + 2) (hd % 2 ^ 16 % 256)) (T.CurrentPtr + 3) (hd % 2 ^ 16 / 256)
      = used ++ [a % 256, b % 256, hd % 2 ^ 16 % 256, hd % 2 ^ 16 / 256]
          ++ List.replicate (n - 4) 0 := by
  rw [hcur, header_at _ _ _ _ _ _ _ hn, Nat.mod_mod,
    Nat.mod_eq_of_lt (a := hd % 2 ^ 16 / 256) (by omega)]

theorem fixedBody_length (ty L hd : Nat) (hL : 4 ≤ L) : (fixedBody ty L hd).length = L := by
  simp [fixedBody]; omega

/-- Effect of a successful `SmbiosInitialiseStruct` on a laid-out table that is
between two records. -/
theorem SmbiosInitialiseStruct_layout {c : Constants} {nb : Nat} {t t1 : OC_SMBIOS_TABLE}
    {used : List Nat} {n ty L idx : Nat} (hc : c.Sane) (h : Layout c t used n)
    (hcur : t.CurrentPtr = t.CurrentStrPtr) (hL4 : 4 ≤ L) (hL : L < 256)
    (hr : SmbiosInitialiseStruct c nb t ty L idx = (.EFI_SUCCESS, t1)) :
    ∃ n1, Layout c t1 (used ++ fixedBody ty L (drawnHandle c ty idx t.Handle)) n1 ∧ 2 ≤ n1 ∧
      used.length + L + 2 ≤ c.SMBIOS_TABLE_MAX_LENGTH ∧
      t1.CurrentPtr = t1.Table + used.length ∧
      t1.Handle = nextHandle c ty idx t.Handle ∧
      t1.MaxStructureSize = t.MaxStructureSize ∧
      t1.NumberOfStructures = t.NumberOfStructures := by
  unfold SmbiosInitialiseStruct at hr
  rcases hext : SmbiosExtendTable c nb t L with ⟨st, T⟩
  rw [hext] at hr
  cases st with
  | EFI_OUT_OF_RESOURCES => simp at hr
  | EFI_INVALID_PARAMETER => simp at hr
  | EFI_SUCCESS =>
    obtain ⟨n1, ⟨hpool, halloc, hstr, hbase, hnull, hlen⟩, hn1, hmax, hcp, hH, hM, hN, hT0⟩ :=
      SmbiosExtendTable_layout hc h (by omega) hext
    have hcp' : T.CurrentPtr = T.Table + used.length := by
      rw [hcp, hcur, h.str]; omega
    simp only at hr
    rcases hass : SmbiosAssignStructHandle c (setHdrTypeLength T ty L) ty idx with ⟨st2, T3⟩
    rw [hass] at hr
    cases st2 with
    | EFI_OUT_OF_RESOURCES => simp at hr
    | EFI_INVALID_PARAMETER => simp at hr
    | EFI_SUCCESS =>
      simp only [Prod.mk.injEq, true_and] at hr
      have hT3 := SmbiosAssignStructHandle_success hass
      have hrep : List.replicate (n1 - 4) (0 : Nat)
          = List.replicate (L - 4) 0 ++ List.replicate (n1 - L) 0 := by
        rw [replicate_split (n1 - 4) (L - 4) (by omega)]
        congr 2
        omega
      have hLm : L % 256 = L := Nat.mod_eq_of_lt hL
      unfold drawnHandle nextHandle
      cases hres : reservedHandle c ty idx with
      | some hd =>
        rw [hres] at hT3
        simp only at hT3
        subst hT3
        subst hr
        refine ⟨n1 - L, ⟨?_, ?_, ?_, ?_, ?_, ?_⟩, by omega, by omega, ?_, ?_, hM, hN⟩
        · simp only [setHdrHandle, setHdrTypeLength, hpool, Option.getD_some]
          rw [setHdrHandle_pool T used n1 ty L hd (by omega) hcp', hrep]
          simp [fixedBody]
        · simp only [setHdrHandle, setHdrTypeLength, halloc, List.length_append, fixedBody_length _ _ _ hL4]
          omega
        · simp only [setHdrHandle, setHdrTypeLength, List.length_append, fixedBody_length _ _ _ hL4, hcp']
          omega
        · simpa [setHdrHandle, setHdrTypeLength] using hbase
        · intro h0; exact absurd h0 hT0
        · simp only [List.length_append, fixedBody_length _ _ _ hL4]; omega
        · simpa [setHdrHandle, setHdrTypeLength] using hcp'
        · simpa [setHdrHandle, setHdrTypeLength] using hH
      | none =>
        rw [hres] at hT3
        simp only at hT3
        subst hT3
        subst hr
        refine ⟨n1 - L, ⟨?_, ?_, ?_, ?_, ?_, ?_⟩, by omega, by omega, ?_, ?_, hM, hN⟩
        · simp only [assignAutomaticHandle, setHdrHandle, setHdrTypeLength, hpool,
            Option.getD_none]
          rw [setHdrHandle_pool T used n1 ty L T.Handle (by omega) hcp', hrep, hH]
          simp [fixedBody]
        · simp only [assignAutomaticHandle, setHdrHandle, setHdrTypeLength, halloc, List.length_append,
            fixedBody_length _ _ _ hL4]
          omega
        · simp only [assignAutomaticHandle, setHdrHandle, setHdrTypeLength,
            List.length_append,
            fixedBody_length _ _ _ hL4, hcp']
          omega
        · simpa [assignAutomaticHandle, setHdrHandle, setHdrTypeLength] using hbase
        · intro h0; exact absurd h0 hT0
        · simp only [List.length_append, fixedBody_length _ _ _ hL4]; omega
        · simpa [assignAutomaticHandle, setHdrHandle, setHdrTypeLength] using hcp'
        · simp [assignAutomaticHandle, setHdrHandle, setHdrTypeLength, hH]

theorem stringPool_eq_nil (c : Constants) (ss : List StringCall) :
    stringPool c ss = [] ↔ ss = [] := by
  cases ss with
  | nil => simp [stringPool]
  | cons s rest => simp [stringPool]

theorem SmbiosFinaliseStruct_eq (t : OC_SMBIOS_TABLE) (L : Nat)
    (hread : readByte t.Table t.Pool (t.CurrentPtr + 1) = some L) :
    SmbiosFinaliseStruct t =
      if t.CurrentStrPtr ≠ t.CurrentPtr + L then
        { t with
          MaxStructureSize := max t.MaxStructureSize L
          NumberOfStructures := (t.NumberOfStructures + 1) % 2 ^ 16
          CurrentStrPtr := t.CurrentStrPtr + 1
          CurrentPtr := t.CurrentStrPtr + 1 }
      else
        { t with
          MaxStructureSize := max t.MaxStructureSize L
          NumberOfStructures := (t.NumberOfStructures + 1) % 2 ^ 16
          CurrentStrPtr := t.CurrentStrPtr + 2
          CurrentPtr := t.CurrentPtr + L + 2 } := by
  unfold SmbiosFinaliseStruct
  simp only [hread, Option.getD_some]
  by_cases h1 : L > t.MaxStructureSize
  · have hm : max t.MaxStructureSize L = L := by omega
    simp only [h1, if_true, hm]
  · have hm : max t.MaxStructureSize L = t.MaxStructureSize := by omega
    simp only [h1, if_false, hm]

/-- Effect of `SmbiosFinaliseStruct` on a laid-out record in progress. -/
theorem SmbiosFinaliseStruct_layout {c : Constants} {t : OC_SMBIOS_TABLE}
    {used pool : List Nat} {n ty L hd : Nat}
    (h : Layout c t (used ++ fixedBody ty L hd ++ pool) n) (hn : 2 ≤ n)
    (hmax : (used ++ fixedBody ty L hd ++ pool).length + 2 ≤ c.SMBIOS_TABLE_MAX_LENGTH)
    (hcp : t.CurrentPtr = t.Table + used.length) (hL4 : 4 ≤ L) (hL : L < 256) :
    Layout c (SmbiosFinaliseStruct t)
        (used ++ fixedBody ty L hd ++ pool ++ (if pool = [] then [0, 0] else [0]))
        (n - (if pool = [] then 2 else 1)) ∧
      (SmbiosFinaliseStruct t).CurrentPtr = (SmbiosFinaliseStruct t).CurrentStrPtr ∧
      (SmbiosFinaliseStruct t).Table = t.Table ∧
      (SmbiosFinaliseStruct t).Handle = t.Handle ∧
      (SmbiosFinaliseStruct t).MaxStructureSize = max t.MaxStructureSize L ∧
      (SmbiosFinaliseStruct t).NumberOfStructures = (t.NumberOfStructures + 1) % 2 ^ 16 := by
  obtain ⟨hpool, halloc, hstr, hbase, hnull, hlen⟩ := h
  have hbl := fixedBody_length ty L hd hL4
  have hread : readByte t.Table t.Pool (t.CurrentPtr + 1) = some L := by
    have e : used ++ fixedBody ty L hd ++ pool ++ List.replicate n 0
        = (used ++ [ty % 256]) ++ (L % 256) :: ([hd % 2 ^ 16 % 256, hd % 2 ^ 16 / 256]
            ++ List.replicate (L - 4) 0 ++ pool ++ List.replicate n 0) := by
      simp [fixedBody]
    have e2 : t.CurrentPtr + 1 = t.Table + (used ++ [ty % 256]).length := by
      simp; omega
    rw [hpool, e, e2, readByte_at, Nat.mod_eq_of_lt hL]
  have hT0 : t.Table ≠ 0 := by
    intro h0
    have := (hnull h0).2
    omega
  simp only [List.length_append, hbl] at hstr hmax hlen halloc
  rw [SmbiosFinaliseStruct_eq t L hread]
  by_cases hp : pool = []
  · subst hp
    simp only [List.length_nil, Nat.add_zero] at hstr hmax hlen halloc
    have hne : ¬ (t.CurrentStrPtr ≠ t.CurrentPtr + L) := by
      simp only [ne_eq, not_not]; omega
    simp only [hne, if_false, if_true]
    refine ⟨⟨?_, ?_, ?_, ?_, ?_, ?_⟩, ?_, ?_, ?_, ?_, ?_⟩
    · simp only [hpool, List.append_nil]
      rw [replicate_split n 2 hn]
      simp [List.replicate]
    · simp [halloc, hbl]; omega
    · simp [hbl]; omega
    · simp; omega
    · intro h0; exact absurd h0 hT0
    · simp [hbl]; omega
    · simp; omega
    all_goals trivial
  · have hpl : 0 < pool.length := List.length_pos.mpr hp
    have hne : t.CurrentStrPtr ≠ t.CurrentPtr + L := by omega
    simp only [hp, hne, if_false, if_true, ne_eq, not_false_eq_true]
    refine ⟨⟨?_, ?_, ?_, ?_, ?_, ?_⟩, ?_, ?_, ?_, ?_, ?_⟩
    · simp only [hpool]
      rw [replicate_split n 1 (by omega)]
      simp [List.replicate]
    · simp [halloc, hbl]; omega
    · simp [hbl]; omega
    · simp; omega
    · intro h0; exact absurd h0 hT0
    · simp [hbl]; omega
    all_goals trivial

/-- Effect of the string calls of a record, all of which store a string. -/
theorem buildStrings_layout {c : Constants} (hc : c.Sane) :
    ∀ (ss : List StringCall) (t : OC_SMBIOS_TABLE) (used : List Nat) (n idx : Nat)
      (t' : OC_SMBIOS_TABLE) (rs : List Nat),
      Layout c t used n → 2 ≤ n → used.length + 2 ≤ c.SMBIOS_TABLE_MAX_LENGTH →
      buildStrings c t idx ss = some (t', rs) →
      ∃ n', Layout c t' (used ++ stringPool c ss) n' ∧ 2 ≤ n' ∧
        (used ++ stringPool c ss).length + 2 ≤ c.SMBIOS_TABLE_MAX_LENGTH ∧
        t'.CurrentPtr = t'.Table + (t.CurrentPtr - t.Table) ∧
        t'.Handle = t.Handle ∧ t'.MaxStructureSize = t.MaxStructureSize ∧
        t'.NumberOfStructures = t.NumberOfStructures := by
  intro ss
  induction ss with
  | nil =>
    intro t used n idx t' rs h hn hmax hb
    simp only [buildStrings, Option.some.injEq, Prod.mk.injEq] at hb
    obtain ⟨rfl, -⟩ := hb
    have hbase := h.base
    exact ⟨n, by simpa [stringPool] using h, hn, by simpa [stringPool] using hmax,
      by omega, rfl, rfl, rfl⟩
  | cons s rest ih =>
    intro t used n idx t' rs h hn hmax hb
    simp only [buildStrings] at hb
    split_ifs at hb with h0
    rcases hrest : buildStrings c
        (SmbiosOverrideString c s.NewBuffer t (some s.Override) idx s.Hex).Table
        (SmbiosOverrideString c s.NewBuffer t (some s.Override) idx s.Hex).Index rest
      with _ | ⟨t2, rs2⟩
    · rw [hrest] at hb; simp at hb
    · rw [hrest] at hb
      simp only [Option.some.injEq, Prod.mk.injEq] at hb
      obtain ⟨rfl, -⟩ := hb
      obtain ⟨n1, hlay, hn1, hmax1, hcp1, hH1, hM1, hN1, -, -⟩ :=
        SmbiosOverrideString_layout hc h s idx h0
      obtain ⟨n2, hlay2, hn2, hmax2, hcp2, hH2, hM2, hN2⟩ :=
        ih _ _ _ _ _ _ hlay hn1 hmax1 hrest
      have e : used ++ encodedString c s ++ [0] ++ stringPool c rest
          = used ++ stringPool c (s :: rest) := by
        simp [stringPool]
      rw [e] at hlay2 hmax2
      exact ⟨n2, hlay2, hn2, hmax2, by omega, by omega, by omega, by omega⟩

/-- The layout of the table after a successful record build: the bytes used
before, then `recordBytes`, then zeros. -/
theorem buildRecord_layout {c : Constants} (hc : c.Sane) {t t' : OC_SMBIOS_TABLE}
    {used : List Nat} {n : Nat} {r : RecordBuild} {rs : List Nat}
    (h : Layout c t used n) (hcur : t.CurrentPtr = t.CurrentStrPtr)
    (hL4 : 4 ≤ r.MinLength) (hL : r.MinLength < 256)
    (hb : buildRecord c t r = some (t', rs)) :
    ∃ n', Layout c t'
        (used ++ recordBytes c r (drawnHandle c r.SmbiosType r.Index t.Handle)) n' ∧
      t'.CurrentPtr = t'.CurrentStrPtr ∧
      t'.Handle = nextHandle c r.SmbiosType r.Index t.Handle ∧
      t'.MaxStructureSize = max t.MaxStructureSize r.MinLength ∧
      t'.NumberOfStructures = (t.NumberOfStructures + 1) % 2 ^ 16 := by
  unfold buildRecord at hb
  rcases hinit : SmbiosInitialiseStruct c r.NewBuffer t r.SmbiosType r.MinLength r.Index
    with ⟨st, t1⟩
  rw [hinit] at hb
  cases st with
  | EFI_OUT_OF_RESOURCES => simp at hb
  | EFI_INVALID_PARAMETER => simp at hb
  | EFI_SUCCESS =>
    simp only at hb
    rcases hstr : buildStrings c t1 0 r.Strings with _ | ⟨t2, rs2⟩
    · rw [hstr] at hb; simp at hb
    · rw [hstr] at hb
      simp only [Option.some.injEq, Prod.mk.injEq] at hb
      obtain ⟨rfl, -⟩ := hb
      obtain ⟨n1, hlay1, hn1, hmax1, hcp1, hH1, hM1, hN1⟩ :=
        SmbiosInitialiseStruct_layout hc h hcur hL4 hL hinit
      have hbl := fixedBody_length r.SmbiosType r.MinLength
        (drawnHandle c r.SmbiosType r.Index t.Handle) hL4
      obtain ⟨n2, hlay2, hn2, hmax2, hcp2, hH2, hM2, hN2⟩ :=
        buildStrings_layout hc r.Strings t1 _ n1 0 t2 rs2 hlay1 hn1
          (by simp only [List.length_append, hbl]; omega) hstr
      have hcp2' : t2.CurrentPtr = t2.Table + used.length := by
        rw [hcp2, hcp1]; omega
      obtain ⟨hlay3, hc3, hT3, hH3, hM3, hN3⟩ :=
        SmbiosFinaliseStruct_layout hlay2 hn2 hmax2 hcp2' hL4 hL
      refine ⟨n2 - (if stringPool c r.Strings = [] then 2 else 1), ?_, hc3,
        by rw [hH3, hH2, hH1], by rw [hM3, hM2, hM1], by rw [hN3, hN2, hN1]⟩
      have e : used ++ fixedBody r.SmbiosType r.MinLength
            (drawnHandle c r.SmbiosType r.Index t.Handle) ++ stringPool c r.Strings
            ++ (if stringPool c r.Strings = [] then [0, 0] else [0])
          = used ++ recordBytes c r (drawnHandle c r.SmbiosType r.Index t.Handle) := by
        unfold recordBytes terminator
        simp only [stringPool_eq_nil, List.append_assoc]
      rw [← e]
      exact hlay3

/-! ## Record layout (C2) -/

theorem all_zero_eq_replicate (l : List Nat) (h : l.all (fun b => b == 0) = true) :
    l = List.replicate l.length 0 := by
  induction l with
  | nil => rfl
  | cons x xs ih =>
    simp only [List.all_cons, Bool.and_eq_true, beq_iff_eq] at h
    rw [List.length_cons, List.replicate_succ, ← ih h.2, h.1]

theorem layout_of_valid {c : Constants} {t : OC_SMBIOS_TABLE} (hv : ValidTable c t)
    (hz : ZeroBeyondCursor t) :
    Layout c t (t.Pool.take (t.CurrentStrPtr - t.Table))
        (t.Pool.length - (t.CurrentStrPtr - t.Table)) ∧
      (t.Pool.take (t.CurrentStrPtr - t.Table)).length = t.CurrentStrPtr - t.Table := by
  obtain ⟨hbase, hcur, hin, halloc, hnull, hmax⟩ := hv
  have hz' := all_zero_eq_replicate _ hz
  rw [List.length_drop] at hz'
  have hlen : (t.Pool.take (t.CurrentStrPtr - t.Table)).length = t.CurrentStrPtr - t.Table := by
    rw [List.length_take]; omega
  refine ⟨⟨?_, ?_, ?_, hbase, ?_, ?_⟩, hlen⟩
  · rw [← hz', List.take_append_drop]
  · rw [hlen, ← halloc]; omega
  · rw [hlen]; omega
  · intro h0
    obtain ⟨h1, h2⟩ := hnull h0
    simp [h2]
  · rw [hlen]; exact hmax

theorem BetweenRecords_layout {c : Constants} {t : OC_SMBIOS_TABLE} (h : BetweenRecords c t) :
    Layout c t (t.Pool.take (t.CurrentStrPtr - t.Table))
        (t.Pool.length - (t.CurrentStrPtr - t.Table)) ∧
      t.CurrentPtr = t.CurrentStrPtr ∧
      (t.Pool.take (t.CurrentStrPtr - t.Table)).length = t.CurrentPtr - t.Table := by
  obtain ⟨hv, hcur, hz⟩ := h
  obtain ⟨hl, hlen⟩ := layout_of_valid hv hz
  exact ⟨hl, hcur, by rw [hlen, hcur]⟩

theorem stringPool_plain (c : Constants) (ss : List StringCall)
    (hplain : ∀ s ∈ ss, s.Hex = false) :
    stringPool c ss = (ss.map (fun s =>
      (s.Override.take (overrideLength c s.Override false)).map (fun b => b % 256)
        ++ [0])).flatten := by
  induction ss with
  | nil => simp [stringPool]
  | cons s rest ih =>
    have hs : s.Hex = false := hplain s (List.mem_cons_self _ _)
    have hr : ∀ s ∈ rest, s.Hex = false := fun x hx => hplain x (List.mem_cons_of_mem _ hx)
    simp [stringPool, ih hr, encodedString, hs]

theorem slice_mid (pre mid post : List Nat) :
    slice (pre ++ mid ++ post) pre.length (pre ++ mid).length = mid := by
  unfold slice
  simp

/-- C2. Binary layout of a finalised record.  From a table between two records
whose bytes at and beyond the string cursor are zero (the empty table is one),
after `SmbiosInitialiseStruct (type, L, index)` succeeds with `4 ≤ L`, the plain
`SmbiosOverrideString` calls all store their string and `SmbiosFinaliseStruct`
runs, the bytes from the record start up to the new record cursor are: the
`L`-byte fixed body (type, length, handle, zeros), then for each text in append
order its encoded bytes followed by one zero, then one further zero if a
string was appended and two zeros otherwise; and both cursors coincide. -/
theorem C2_record_layout (c : Constants) (hc : c.Sane) (t t' : OC_SMBIOS_TABLE)
    (r : RecordBuild) (rs : List Nat) (ht : BetweenRecords c t)
    (hL4 : 4 ≤ r.MinLength) (hL : r.MinLength < 256)
    (hplain : ∀ s ∈ r.Strings, s.Hex = false)
    (hb : buildRecord c t r = some (t', rs)) :
    slice t'.Pool (t.CurrentPtr - t.Table) (t'.CurrentPtr - t'.Table)
        = fixedBody r.SmbiosType r.MinLength (drawnHandle c r.SmbiosType r.Index t.Handle)
          ++ (r.Strings.map (fun s =>
              (s.Override.take (overrideLength c s.Override false)).map (fun b => b % 256)
                ++ [0])).flatten
          ++ (if r.Strings = [] then [0, 0] else [0]) ∧
      (fixedBody r.SmbiosType r.MinLength
        (drawnHandle c r.SmbiosType r.Index t.Handle)).length = r.MinLength ∧
      t'.CurrentPtr = t'.CurrentStrPtr := by
  obtain ⟨hlay, hcur, hlen⟩ := BetweenRecords_layout ht
  obtain ⟨n', hlay', hcur', -, -, -⟩ := buildRecord_layout hc hlay hcur hL4 hL hb
  refine ⟨?_, fixedBody_length _ _ _ hL4, hcur'⟩
  have hp := hlay'.pool
  have hs := hlay'.str
  have e1 : t'.CurrentPtr - t'.Table
      = (t.Pool.take (t.CurrentStrPtr - t.Table)
          ++ recordBytes c r (drawnHandle c r.SmbiosType r.Index t.Handle)).length := by
    rw [hcur', hs]; omega
  rw [hp, e1, ← hlen, slice_mid]
  unfold recordBytes terminator
  rw [stringPool_plain c r.Strings hplain]

/-- C2 on the empty table and `sampleRecord` (8 fixed bytes, the plain texts
"Apple " and "M"). -/
theorem C2_record_layout_witness :
    (referenceConstants.Sane ∧ BetweenRecords referenceConstants (emptyTable referenceConstants)
      ∧ buildRecord referenceConstants (emptyTable referenceConstants) sampleRecord
          = some (sampleBuilt.1, sampleBuilt.2)) ∧
    (slice sampleBuilt.1.Pool
          ((emptyTable referenceConstants).CurrentPtr - (emptyTable referenceConstants).Table)
          (sampleBuilt.1.CurrentPtr - sampleBuilt.1.Table)
        = fixedBody sampleRecord.SmbiosType sampleRecord.MinLength
            (drawnHandle referenceConstants sampleRecord.SmbiosType sampleRecord.Index
              (emptyTable referenceConstants).Handle)
          ++ (sampleRecord.Strings.map (fun s =>
              (s.Override.take (overrideLength referenceConstants s.Override false)).map
                (fun b => b % 256) ++ [0])).flatten
          ++ (if sampleRecord.Strings = [] then [0, 0] else [0]) ∧
      (fixedBody sampleRecord.SmbiosType sampleRecord.MinLength
        (drawnHandle referenceConstants sampleRecord.SmbiosType sampleRecord.Index
          (emptyTable referenceConstants).Handle)).length = sampleRecord.MinLength ∧
      sampleBuilt.1.CurrentPtr = sampleBuilt.1.CurrentStrPtr) :=
  ⟨⟨by decide, by decide, by decide!⟩,
    C2_record_layout referenceConstants (by decide) (emptyTable referenceConstants)
      sampleBuilt.1 sampleRecord sampleBuilt.2 (by decide) (by decide) (by decide)
      (by decide) (by decide!)⟩

/-! ## Hard cap of `SmbiosExtendTable` (C4) -/

/-- Where the 32-bit sums do not wrap, a request past the maximum table length
fails and leaves the table untouched. -/
theorem SmbiosExtendTable_hard_cap (c : Constants) (nb : Nat) (t : OC_SMBIOS_TABLE)
    (Size : Nat) (_hbase : t.Table ≤ t.CurrentStrPtr)
    (hnw : (if t.Table = 0 then 0 else t.CurrentStrPtr - t.Table) + Size + 2 < 2 ^ 32)
    (hcap : (if t.Table = 0 then 0 else t.CurrentStrPtr - t.Table) + Size + 2
      > c.SMBIOS_TABLE_MAX_LENGTH) :
    SmbiosExtendTable c nb t Size = (.EFI_OUT_OF_RESOURCES, t) := by
  unfold SmbiosExtendTable SMBIOS_STRUCTURE_TERMINATOR_SIZE
  by_cases h0 : t.Table = 0
  · simp only [h0, if_true] at hnw hcap ⊢
    rw [Nat.mod_eq_of_lt (a := Size + 2) (by omega), Nat.mod_eq_of_lt (by omega)]
    rw [if_pos (by omega)]
  · simp only [h0, if_false] at hnw hcap ⊢
    rw [Nat.mod_eq_of_lt (a := Size + 2) (by omega),
      Nat.mod_eq_of_lt (a := t.CurrentStrPtr - t.Table) (by omega),
      Nat.mod_eq_of_lt (by omega)]
    rw [if_pos (by omega)]

/-- C4, evaluated at the failing input.  On the empty table the request
`Size = 0xFFFFFFFE` has `used + Size + 2 = 2 ^ 32`, far above
`SMBIOS_TABLE_MAX_LENGTH`, yet `Size += 2` wraps to 0 in 32 bits and
`SmbiosExtendTable` returns `EFI_SUCCESS` without allocating anything. -/
theorem C4_extend_wraps :
    0 + 4294967294 + 2 > referenceConstants.SMBIOS_TABLE_MAX_LENGTH ∧
      SmbiosExtendTable referenceConstants 4096 (emptyTable referenceConstants) 4294967294
        = (.EFI_SUCCESS, emptyTable referenceConstants) := by
  decide

/-! ## Handle assignment (C7, C8) -/

theorem readHandle_set (B : Nat) (P : List Nat) (p lo hi : Nat) (hB : B ≤ p)
    (hin : p - B + 4 ≤ P.length) (hlo : lo < 256) (hhi : hi < 256) :
    readHandle B (writeByte B (writeByte B P (p + 2) lo) (p + 3) hi) p
      = some (lo + 256 * hi) := by
  unfold readHandle readByte writeByte
  have h2 : B ≤ p + 2 := by omega
  have h3 : B ≤ p + 3 := by omega
  simp only [h2, h3, if_true, List.get?_eq_getElem?, Nat.mod_eq_of_lt hlo,
    Nat.mod_eq_of_lt hhi]
  have e1 : ((P.set (p + 2 - B) lo).set (p + 3 - B) hi)[p + 2 - B]? = some lo := by
    rw [List.getElem?_set_ne (by omega), List.getElem?_set_self (by omega)]
  have e2 : ((P.set (p + 2 - B) lo).set (p + 3 - B) hi)[p + 3 - B]? = some hi := by
    rw [List.getElem?_set_self (by simp; omega)]
  rw [e1, e2]

theorem readHandle_setHdrHandle (t : OC_SMBIOS_TABLE) (h : Nat) (hB : t.Table ≤ t.CurrentPtr)
    (hin : t.CurrentPtr - t.Table + 4 ≤ t.Pool.length) :
    readHandle t.Table (setHdrHandle t h).Pool t.CurrentPtr = some (h % 2 ^ 16) := by
  unfold setHdrHandle
  simp only
  rw [readHandle_set _ _ _ _ _ hB hin (by omega) (by omega)]
  congr 1
  omega

theorem SmbiosAssignStructHandle_status (c : Constants) (t : OC_SMBIOS_TABLE) (ty idx : Nat) :
    ((SmbiosAssignStructHandle c t ty idx).1 = .EFI_INVALID_PARAMETER ↔
      (ty = c.SMBIOS_TYPE_CACHE_INFORMATION ∧ idx ≠ 1 ∧ idx ≠ 2 ∧ idx ≠ 3) ∨
        (ty ≠ c.SMBIOS_TYPE_CACHE_INFORMATION ∧ ty ∉ autoIncrementTypes c ∧ idx ≠ 1)) ∧
      ((SmbiosAssignStructHandle c t ty idx).1 ≠ .EFI_INVALID_PARAMETER →
        (SmbiosAssignStructHandle c t ty idx).1 = .EFI_SUCCESS) ∧
      ((SmbiosAssignStructHandle c t ty idx).1 = .EFI_INVALID_PARAMETER →
        (SmbiosAssignStructHandle c t ty idx).2 = t) := by
  have hmem : ty ∈ autoIncrementTypes c ↔
      (ty = c.SMBIOS_TYPE_PORT_CONNECTOR_INFORMATION ∨ ty = c.SMBIOS_TYPE_SYSTEM_SLOTS
        ∨ ty = c.SMBIOS_TYPE_MEMORY_ARRAY_MAPPED_ADDRESS ∨ ty = c.SMBIOS_TYPE_MEMORY_DEVICE
        ∨ ty = c.SMBIOS_TYPE_MEMORY_DEVICE_MAPPED_ADDRESS) := by
    simp [autoIncrementTypes]
  unfold SmbiosAssignStructHandle
  rw [hmem]
  split_ifs with h1 h2 h3 h4 h5 h6
  · simp [h1, h2]
  · simp [h1, h3]
  · simp [h1, h4]
  · simp [h1, h2, h3, h4]
  · simp [h1, h5]
  · simp [h1, h5, h6]
  · have h6' : idx = 1 := by simpa using h6
    cases (singletonCases c).lookup ty <;> simp [h1, h6']

theorem writeByte_length (B : Nat) (P : List Nat) (p v : Nat) :
    (writeByte B P p v).length = P.length := by
  unfold writeByte
  split_ifs <;> simp

theorem SmbiosInitialiseStruct_of_extend {c : Constants} {nb : Nat} {t T : OC_SMBIOS_TABLE}
    {L : Nat} (ty idx : Nat) (hext : SmbiosExtendTable c nb t L = (.EFI_SUCCESS, T)) :
    SmbiosInitialiseStruct c nb t ty L idx =
      match SmbiosAssignStructHandle c (setHdrTypeLength T ty L) ty idx with
      | (.EFI_SUCCESS, A) => (.EFI_SUCCESS, { A with CurrentStrPtr := A.CurrentPtr + L })
      | (st, A) => (st, A) := by
  unfold SmbiosInitialiseStruct
  rw [hext]

theorem lookup_none_of_not_mem (l : List (Nat × Nat)) (k : Nat)
    (h : k ∉ l.map Prod.fst) : l.lookup k = none := by
  induction l with
  | nil => rfl
  | cons q rest ih =>
    obtain ⟨q1, q2⟩ := q
    simp only [List.map_cons, List.mem_cons, not_or] at h
    have hb : (k == q1) = false := by simpa using h.1
    simp only [List.lookup, hb]
    exact ih h.2

/-- C8, as stated, fails: type 200 is not the cache type, not an
auto-increment type and not a label of the switch, yet with slot index 2 the
assignment (alone, and inside `SmbiosInitialiseStruct`) returns
`EFI_INVALID_PARAMETER` instead of falling back to the counter. -/
theorem C8_unknown_type_bad_index :
    200 ≠ referenceConstants.SMBIOS_TYPE_CACHE_INFORMATION ∧
      200 ∉ autoIncrementTypes referenceConstants ∧
      200 ∉ (singletonCases referenceConstants).map Prod.fst ∧
      (SmbiosAssignStructHandle referenceConstants
        (setHdrTypeLength
          (SmbiosExtendTable referenceConstants 4096 (emptyTable referenceConstants) 4).2 200 4)
        200 2).1 = .EFI_INVALID_PARAMETER ∧
      (SmbiosInitialiseStruct referenceConstants 4096 (emptyTable referenceConstants)
        200 4 2).1 = .EFI_INVALID_PARAMETER := by
  decide!

/-- C8, amended.  For a record type that is not the cache type, not an
auto-increment type and not a label of the switch, handle assignment with slot
index 1 succeeds by falling back to the counter: the header receives the current
counter value and the counter advances by one (in 16 bits).  With any other
slot index it returns `EFI_INVALID_PARAMETER` and changes nothing. -/
theorem C8_unknown_type_fallback (c : Constants) (t : OC_SMBIOS_TABLE) (ty : Nat)
    (h1 : ty ≠ c.SMBIOS_TYPE_CACHE_INFORMATION) (h2 : ty ∉ autoIncrementTypes c)
    (h3 : ty ∉ (singletonCases c).map Prod.fst) :
    (SmbiosAssignStructHandle c t ty 1).1 = .EFI_SUCCESS ∧
      (SmbiosAssignStructHandle c t ty 1).2.Handle = (t.Handle + 1) % 2 ^ 16 ∧
      (t.Table ≤ t.CurrentPtr → t.CurrentPtr - t.Table + 4 ≤ t.Pool.length →
        readHandle t.Table (SmbiosAssignStructHandle c t ty 1).2.Pool t.CurrentPtr
          = some (t.Handle % 2 ^ 16)) ∧
      (∀ idx, idx ≠ 1 →
        SmbiosAssignStructHandle c t ty idx = (.EFI_INVALID_PARAMETER, t)) := by
  have hl := lookup_none_of_not_mem _ _ h3
  have hmem : ¬ (ty = c.SMBIOS_TYPE_PORT_CONNECTOR_INFORMATION ∨ ty = c.SMBIOS_TYPE_SYSTEM_SLOTS
        ∨ ty = c.SMBIOS_TYPE_MEMORY_ARRAY_MAPPED_ADDRESS ∨ ty = c.SMBIOS_TYPE_MEMORY_DEVICE
        ∨ ty = c.SMBIOS_TYPE_MEMORY_DEVICE_MAPPED_ADDRESS) := by
    simpa [autoIncrementTypes] using h2
  have he : SmbiosAssignStructHandle c t ty 1 = (.EFI_SUCCESS, assignAutomaticHandle t) := by
    unfold SmbiosAssignStructHandle
    simp only [h1, if_false, hmem, hl, ne_eq, not_true_eq_false]
  refine ⟨by rw [he], by rw [he]; rfl, ?_, ?_⟩
  · intro hB hin
    rw [he]
    exact readHandle_setHdrHandle t t.Handle hB hin
  · intro idx hidx
    unfold SmbiosAssignStructHandle
    simp only [h1, if_false, hmem, ne_eq, hidx, not_false_eq_true, if_true]

/-- C8 (amended) for the unlisted type 200 with slot index 1, after
`sampleRecord` has been built. -/
theorem C8_unknown_type_fallback_witness :
    (200 ≠ referenceConstants.SMBIOS_TYPE_CACHE_INFORMATION ∧
      200 ∉ autoIncrementTypes referenceConstants ∧
      200 ∉ (singletonCases referenceConstants).map Prod.fst) ∧
    (SmbiosAssignStructHandle referenceConstants sampleBuilt.1 200 1).1 = .EFI_SUCCESS ∧
    (SmbiosAssignStructHandle referenceConstants sampleBuilt.1 200 1).2.Handle
      = (sampleBuilt.1.Handle + 1) % 2 ^ 16 :=
  ⟨⟨by decide, by decide, by decide⟩,
    (C8_unknown_type_fallback referenceConstants sampleBuilt.1 200
      (by decide) (by decide) (by decide)).1,
    (C8_unknown_type_fallback referenceConstants sampleBuilt.1 200
      (by decide) (by decide) (by decide)).2.1⟩

/-! ## Builder and walker on a record with an empty string (C1, C3) -/

/-- C1, evaluated at the failing input.  The record with fixed length 4 and the
texts "A", "", "B" is built by three string calls that all store a string
(indices 1, 2, 3) and advance the string cursor by 2, 1 and 2 bytes; the
builder ends the record `4 + (2 + 1 + 2) + 1 = 10` bytes after its start, but
`SmbiosGetTableLength` at the record start returns 7: the empty string's
terminator follows the terminator of "A", and the walker takes these two
zeros for the end of the record. -/
theorem C1_walker_length_disagrees :
    buildRecord referenceConstants (emptyTable referenceConstants) emptyStringRecord
        = some (emptyStringBuilt.1, [1, 2, 3]) ∧
      slice emptyStringBuilt.1.Pool 0 10 = [1, 4, 2, 0, 65, 0, 0, 66, 0, 0] ∧
      emptyStringBuilt.1.CurrentPtr - emptyStringBuilt.1.Table = 4 + (2 + 1 + 2) + 1 ∧
      SmbiosGetTableLength emptyStringBuilt.1.Table emptyStringBuilt.1.Pool
        emptyStringBuilt.1.Table = some 7 := by
  decide!

/-- C3, evaluated at the failing input.  In the record with the texts "A", "",
"B" the third call returned index 3 and its string starts `4 + (2 + 1) = 7`
bytes after the record start (the byte there is `'B'`), but
`SmbiosGetString (record, 3)` returns the address 6 bytes after the record
start, which holds the terminator of the empty string; index 0 yields `NULL`. -/
theorem C3_get_string_disagrees :
    emptyStringBuilt.2 = [1, 2, 3] ∧
      readByte emptyStringBuilt.1.Table emptyStringBuilt.1.Pool
        (emptyStringBuilt.1.Table + 7) = some 66 ∧
      SmbiosGetString emptyStringBuilt.1.Table emptyStringBuilt.1.Pool
        emptyStringBuilt.1.Table 3 = some (emptyStringBuilt.1.Table + 6) ∧
      readByte emptyStringBuilt.1.Table emptyStringBuilt.1.Pool
        (emptyStringBuilt.1.Table + 6) = some 0 ∧
      SmbiosGetString emptyStringBuilt.1.Table emptyStringBuilt.1.Pool
        emptyStringBuilt.1.Table 0 = some 0 := by
  decide!

/-! ## Hex encoding (C9) -/

theorem hexPair_of_byte (b : Nat) (hb : b < 256) :
    hexPair b = [hexDigits.getD (b >>> 4) 0, hexDigits.getD (b &&& 15) 0] := by
  unfold hexPair
  have h1 : b % 256 = b := Nat.mod_eq_of_lt hb
  have h2 : (b >>> 4) &&& 15 = b >>> 4 := by
    have := Nat.and_pow_two_sub_one_eq_mod (b >>> 4) 4
    simp only [Nat.reducePow, Nat.add_one_sub_one] at this
    rw [this, Nat.shiftRight_eq_div_pow]
    exact Nat.mod_eq_of_lt (by omega)
  rw [h1, h2]

/-- C9, as stated, fails for `n = 0`: the hex call on the text of two spaces
(effective length 0) stores a string (index 1) but writes no `0x` prefix, the
byte at the old string cursor stays 0, and the cursor advances by 1, not by
`SMBIOS_STRING_HEX_PREFIX_SIZE + 2 * 0 + 1 = 3`. -/
theorem C9_hex_empty_text :
    overrideLength referenceConstants [32, 32] true = 0 ∧
      (SmbiosOverrideString referenceConstants 0 startedTable (some [32, 32]) 0 true).Result
        = 1 ∧
      readByte startedTable.Table
        (SmbiosOverrideString referenceConstants 0 startedTable (some [32, 32]) 0 true).Table.Pool
        startedTable.CurrentStrPtr = some 0 ∧
      (SmbiosOverrideString referenceConstants 0 startedTable
          (some [32, 32]) 0 true).Table.CurrentStrPtr
        = startedTable.CurrentStrPtr + 1 ∧
      1 ≠ SMBIOS_STRING_HEX_PREFIX_SIZE + 2 * 0 + 1 := by
  decide!

/-- C9, amended.  On a well-formed table whose bytes at and beyond the string
cursor are zero, a hex call that stores a string of effective length `n ≥ 1`
leaves at the old string cursor the characters `'0'`, `'x'`, then for each of
the first `n` source bytes its two digits (high nibble first), then a zero,
and advances the string cursor by `SMBIOS_STRING_HEX_PREFIX_SIZE + 2 * n + 1`.
For `n = 0` it leaves a single zero there and advances the cursor by 1. -/
theorem C9_hex_encoding (c : Constants) (hc : c.Sane) (nb : Nat) (t : OC_SMBIOS_TABLE)
    (text : List Nat) (idx : Nat) (hv : ValidTable c t) (hz : ZeroBeyondCursor t)
    (hres : (SmbiosOverrideString c nb t (some text) idx true).Result ≠ 0) :
    (1 ≤ overrideLength c text true →
      slice (SmbiosOverrideString c nb t (some text) idx true).Table.Pool
          (t.CurrentStrPtr - t.Table)
          (t.CurrentStrPtr - t.Table + (2 + 2 * overrideLength c text true + 1))
        = [48, 120] ++ hexEncode (text.take (overrideLength c text true)) ++ [0] ∧
      (SmbiosOverrideString c nb t (some text) idx true).Table.CurrentStrPtr
          - (SmbiosOverrideString c nb t (some text) idx true).Table.Table
        = t.CurrentStrPtr - t.Table
          + (SMBIOS_STRING_HEX_PREFIX_SIZE + 2 * overrideLength c text true + 1)) ∧
      (overrideLength c text true = 0 →
        slice (SmbiosOverrideString c nb t (some text) idx true).Table.Pool
            (t.CurrentStrPtr - t.Table) (t.CurrentStrPtr - t.Table + 1) = [0] ∧
        (SmbiosOverrideString c nb t (some text) idx true).Table.CurrentStrPtr
            - (SmbiosOverrideString c nb t (some text) idx true).Table.Table
          = t.CurrentStrPtr - t.Table + 1) ∧
      (∀ b, b < 256 → hexPair b = [hexDigits.getD (b >>> 4) 0, hexDigits.getD (b &&& 15) 0]) := by
  obtain ⟨hlay, hlen⟩ := layout_of_valid hv hz
  generalize t.Pool.take (t.CurrentStrPtr - t.Table) = used at hlay hlen
  obtain ⟨n', hlay', -, -, -, -, -, -, -, -⟩ :=
    SmbiosOverrideString_layout hc hlay ⟨nb, text, true⟩ idx hres
  simp only at hlay'
  have hp := hlay'.pool
  have hs := hlay'.str
  have henc : encodedString c ⟨nb, text, true⟩
      = (if overrideLength c text true > 0
          then [48, 120] ++ hexEncode (text.take (overrideLength c text true))
          else []) := by
    unfold encodedString
    simp only [if_true]
  have hel := encodedString_length c ⟨nb, text, true⟩
  simp only [if_true] at hel
  refine ⟨?_, ?_, hexPair_of_byte⟩
  · intro h1
    have hpos : overrideLength c text true > 0 := h1
    rw [if_pos hpos] at hel henc
    constructor
    · have e : t.CurrentStrPtr - t.Table + (2 + 2 * overrideLength c text true + 1)
          = (used ++ (encodedString c ⟨nb, text, true⟩ ++ [0])).length := by
        simp only [List.length_append, hlen, hel, List.length_cons, List.length_nil]
      rw [hp, e, ← hlen, List.append_assoc used, slice_mid, henc]
    · rw [hs]
      simp only [List.length_append, hlen, hel, List.length_cons, List.length_nil,
        SMBIOS_STRING_HEX_PREFIX_SIZE]
      omega
  · intro h0
    have hpos : ¬ overrideLength c text true > 0 := by omega
    rw [if_neg hpos] at hel henc
    constructor
    · have e : t.CurrentStrPtr - t.Table + 1
          = (used ++ (encodedString c ⟨nb, text, true⟩ ++ [0])).length := by
        simp only [List.length_append, hlen, hel, List.length_cons, List.length_nil]
      rw [hp, e, ← hlen, List.append_assoc used, slice_mid, henc]
      rfl
    · rw [hs]
      simp only [List.length_append, hlen, hel, List.length_cons, List.length_nil]
      omega

/-- C9 (amended) for the hex text "KZ " on a started record: `0x4B5A` and a
zero are left at the old string cursor. -/
theorem C9_hex_encoding_witness :
    (referenceConstants.Sane ∧ ValidTable referenceConstants startedTable ∧
      ZeroBeyondCursor startedTable ∧
      (SmbiosOverrideString referenceConstants 0 startedTable (some [75, 90, 32]) 0 true).Result
        ≠ 0 ∧
      1 ≤ overrideLength referenceConstants [75, 90, 32] true) ∧
    slice (SmbiosOverrideString referenceConstants 0 startedTable
          (some [75, 90, 32]) 0 true).Table.Pool
        (startedTable.CurrentStrPtr - startedTable.Table)
        (startedTable.CurrentStrPtr - startedTable.Table
          + (2 + 2 * overrideLength referenceConstants [75, 90, 32] true + 1))
      = [48, 120]
        ++ hexEncode ([75, 90, 32].take (overrideLength referenceConstants [75, 90, 32] true))
        ++ [0] :=
  ⟨⟨by decide, by decide!, by decide!, by decide!, by decide⟩,
    ((C9_hex_encoding referenceConstants (by decide) 0 startedTable [75, 90, 32] 0
      (by decide!) (by decide!) (by decide!)).1 (by decide)).1⟩

/-! ## Truncation and stripping (C10) -/

theorem SmbiosExtendTable_failure (c : Constants) (nb : Nat) (t : OC_SMBIOS_TABLE) (Size : Nat)
    (h : (SmbiosExtendTable c nb t Size).1 ≠ .EFI_SUCCESS) :
    SmbiosExtendTable c nb t Size = (.EFI_OUT_OF_RESOURCES, t) := by
  revert h
  unfold SmbiosExtendTable ReallocatePool
  simp only
  split_ifs <;> simp

/-- Effect of a successful `SmbiosExtendTable` on a well-formed table: the
cursor offsets, the bytes below the string cursor and the bookkeeping are
kept, and the block has room for the request and two terminator bytes. -/
theorem SmbiosExtendTable_valid {c : Constants} {nb : Nat} {t T : OC_SMBIOS_TABLE}
    {Size : Nat} (hc : c.Sane) (hv : ValidTable c t) (hS : Size ≤ 2 ^ 30)
    (hext : SmbiosExtendTable c nb t Size = (.EFI_SUCCESS, T)) :
    T.CurrentPtr = T.Table + (t.CurrentPtr - t.Table) ∧
      T.CurrentStrPtr = T.Table + (t.CurrentStrPtr - t.Table) ∧
      t.CurrentStrPtr - t.Table + Size + 2 ≤ T.Pool.length ∧
      T.Pool.length = T.AllocatedTableSize ∧
      t.CurrentStrPtr - t.Table + Size + 2 ≤ c.SMBIOS_TABLE_MAX_LENGTH ∧
      (∀ i, i < t.CurrentStrPtr - t.Table → T.Pool.get? i = t.Pool.get? i) ∧
      T.Handle = t.Handle ∧ T.MaxStructureSize = t.MaxStructureSize ∧
      T.NumberOfStructures = t.NumberOfStructures ∧ T.Table ≠ 0 := by
  obtain ⟨⟨hpage, hpage2⟩, hmax, -, -⟩ := hc
  obtain ⟨hbase, hcur, hin, halloc, hnull, hlen⟩ := hv
  have hTS : (if t.Table = 0 then 0 else (t.CurrentStrPtr - t.Table) % 2 ^ 32)
      = t.CurrentStrPtr - t.Table := by
    split_ifs with h0
    · rw [(hnull h0).1, h0]
    · exact Nat.mod_eq_of_lt (by omega)
  have hSz : (Size + SMBIOS_STRUCTURE_TERMINATOR_SIZE) % 2 ^ 32 = Size + 2 := by
    unfold SMBIOS_STRUCTURE_TERMINATOR_SIZE
    exact Nat.mod_eq_of_lt (by omega)
  have hRq : (t.CurrentStrPtr - t.Table + (Size + 2)) % 2 ^ 32
      = t.CurrentStrPtr - t.Table + Size + 2 := by
    rw [Nat.mod_eq_of_lt (by omega)]; omega
  have hA1 := ALIGN_VALUE_ge (t.CurrentStrPtr - t.Table + Size + 2) c.EFI_PAGE_SIZE hpage
  have hA2 := ALIGN_VALUE_ge c.SMBIOS_TABLE_MAX_LENGTH c.EFI_PAGE_SIZE hpage
  have hA3 := ALIGN_VALUE_lt (t.CurrentStrPtr - t.Table + Size + 2) c.EFI_PAGE_SIZE hpage
  have hcopy : ∀ Cap, t.CurrentStrPtr - t.Table ≤ Cap → ∀ i, i < t.CurrentStrPtr - t.Table →
      (t.Pool.take (min (t.CurrentStrPtr - t.Table) Cap)
        ++ List.replicate (Cap - (t.Pool.take (min (t.CurrentStrPtr - t.Table) Cap)).length)
          0).get? i = t.Pool.get? i := by
    intro Cap hCap i hi
    have hm : min (t.CurrentStrPtr - t.Table) Cap = t.CurrentStrPtr - t.Table := by omega
    rw [hm, List.get?_eq_getElem?, List.get?_eq_getElem?,
      List.getElem?_append_left (by rw [List.length_take]; omega), List.getElem?_take,
      if_pos hi]
  have hclen : ∀ Cap, t.CurrentStrPtr - t.Table ≤ Cap →
      (t.Pool.take (min (t.CurrentStrPtr - t.Table) Cap)
        ++ List.replicate (Cap - (t.Pool.take (min (t.CurrentStrPtr - t.Table) Cap)).length)
          0).length = Cap := by
    intro Cap hCap
    simp only [List.length_append, List.length_take, List.length_replicate]
    omega
  unfold SmbiosExtendTable at hext
  simp only [hTS, hSz, hRq] at hext
  by_cases hover : t.CurrentStrPtr - t.Table + Size + 2 > c.SMBIOS_TABLE_MAX_LENGTH
  · rw [if_pos hover] at hext; simp at hext
  rw [Nat.mod_eq_of_lt (a := ALIGN_VALUE (t.CurrentStrPtr - t.Table + Size + 2)
    c.EFI_PAGE_SIZE) (by omega)] at hext
  split_ifs at hext with h2 h3
  · simp only [Prod.mk.injEq, true_and] at hext
    subst hext
    refine ⟨by omega, by omega, by omega, halloc, by omega, fun _ _ => rfl, rfl, rfl, rfl, ?_⟩
    intro h0
    have := (hnull h0).2
    rw [this] at halloc
    simp at halloc
    omega
  · unfold ReallocatePool at hext
    split_ifs at hext with h4
    · simp at hext
    · simp only [Prod.mk.injEq, true_and] at hext
      subst hext
      refine ⟨rfl, rfl, ?_, ?_, by omega, ?_, rfl, rfl, rfl, h4⟩
      · simp only [hclen _ (show t.CurrentStrPtr - t.Table
          ≤ ALIGN_VALUE c.SMBIOS_TABLE_MAX_LENGTH c.EFI_PAGE_SIZE by omega)]
        omega
      · simp only [hclen _ (show t.CurrentStrPtr - t.Table
          ≤ ALIGN_VALUE c.SMBIOS_TABLE_MAX_LENGTH c.EFI_PAGE_SIZE by omega)]
      · exact hcopy _ (by omega)
  · unfold ReallocatePool at hext
    split_ifs at hext with h4
    · simp at hext
    · simp only [Prod.mk.injEq, true_and] at hext
      subst hext
      refine ⟨rfl, rfl, ?_, ?_, by omega, ?_, rfl, rfl, rfl, h4⟩
      · simp only [hclen _ (show t.CurrentStrPtr - t.Table
          ≤ ALIGN_VALUE (t.CurrentStrPtr - t.Table + Size + 2) c.EFI_PAGE_SIZE by omega)]
        omega
      · simp only [hclen _ (show t.CurrentStrPtr - t.Table
          ≤ ALIGN_VALUE (t.CurrentStrPtr - t.Table + Size + 2) c.EFI_PAGE_SIZE by omega)]
      · exact hcopy _ (by omega)

theorem writeByte_get_ne (B : Nat) (P : List Nat) (p v i : Nat) (h : i ≠ p - B) :
    (writeByte B P p v).get? i = P.get? i := by
  unfold writeByte
  split_ifs
  · rw [List.get?_eq_getElem?, List.get?_eq_getElem?, List.getElem?_set_ne (Ne.symm h)]
  · rfl

theorem readByte_writeByte_self (B : Nat) (P : List Nat) (p v : Nat) (hB : B ≤ p)
    (hin : p - B < P.length) : readByte B (writeByte B P p v) p = some (v % 256) := by
  unfold readByte writeByte
  simp only [hB, if_true, List.get?_eq_getElem?]
  rw [List.getElem?_set_self hin]

theorem readByte_writeByte_ne (B : Nat) (P : List Nat) (p q v : Nat) (hB : B ≤ q)
    (hne : p - B ≠ q - B) : readByte B (writeByte B P p v) q = readByte B P q := by
  unfold readByte
  simp only [hB, if_true]
  exact writeByte_get_ne B P p v _ (Ne.symm hne)

/-- C5, as stated, fails.  After one finalised record, the call
`SmbiosInitialiseStruct (cache type, 4, slot 4)` returns
`EFI_INVALID_PARAMETER`, yet the two bytes at the record cursor, zero before,
now hold the type 7 and the length 4: the header's type and length are stored
before the handle is assigned.  On the empty table the same failing call has
also allocated the first page. -/
theorem C5_partial_header_remains :
    (SmbiosInitialiseStruct referenceConstants 0 sampleBuilt.1 7 4 4).1
        = .EFI_INVALID_PARAMETER ∧
      readByte sampleBuilt.1.Table sampleBuilt.1.Pool sampleBuilt.1.CurrentPtr = some 0 ∧
      readByte sampleBuilt.1.Table sampleBuilt.1.Pool (sampleBuilt.1.CurrentPtr + 1)
        = some 0 ∧
      readByte (SmbiosInitialiseStruct referenceConstants 0 sampleBuilt.1 7 4 4).2.Table
          (SmbiosInitialiseStruct referenceConstants 0 sampleBuilt.1 7 4 4).2.Pool
          (SmbiosInitialiseStruct referenceConstants 0 sampleBuilt.1 7 4 4).2.CurrentPtr
        = some 7 ∧
      readByte (SmbiosInitialiseStruct referenceConstants 0 sampleBuilt.1 7 4 4).2.Table
          (SmbiosInitialiseStruct referenceConstants 0 sampleBuilt.1 7 4 4).2.Pool
          ((SmbiosInitialiseStruct referenceConstants 0 sampleBuilt.1 7 4 4).2.CurrentPtr + 1)
        = some 4 ∧
      (SmbiosInitialiseStruct referenceConstants 4096 (emptyTable referenceConstants)
          7 4 4).1 = .EFI_INVALID_PARAMETER ∧
      (emptyTable referenceConstants).AllocatedTableSize = 0 ∧
      (SmbiosInitialiseStruct referenceConstants 4096 (emptyTable referenceConstants)
          7 4 4).2.AllocatedTableSize = 4096 := by
  decide!

/-- C5, amended.  If `SmbiosInitialiseStruct` on a well-formed table returns an
error, then the offsets of the record cursor and of the string cursor from the
buffer start, the automatic handle counter, `MaxStructureSize` and
`NumberOfStructures` are as before the call, and so is every byte below the
string cursor other than the two bytes at the record cursor.  After
`EFI_OUT_OF_RESOURCES` the whole table is unchanged.  After
`EFI_INVALID_PARAMETER` the two bytes at the record cursor hold the type and
the length. -/
theorem C5_failure_effect (c : Constants) (hc : c.Sane) (nb : Nat) (t : OC_SMBIOS_TABLE)
    (ty L idx : Nat) (r : EFI_STATUS × OC_SMBIOS_TABLE) (hv : ValidTable c t)
    (hL : L < 256) (hr : r = SmbiosInitialiseStruct c nb t ty L idx)
    (hfail : r.1 ≠ .EFI_SUCCESS) :
    r.2.CurrentPtr - r.2.Table = t.CurrentPtr - t.Table ∧
      r.2.CurrentStrPtr - r.2.Table = t.CurrentStrPtr - t.Table ∧
      r.2.Handle = t.Handle ∧ r.2.MaxStructureSize = t.MaxStructureSize ∧
      r.2.NumberOfStructures = t.NumberOfStructures ∧
      (∀ i, i < t.CurrentStrPtr - t.Table → i ≠ t.CurrentPtr - t.Table →
        i ≠ t.CurrentPtr - t.Table + 1 → r.2.Pool.get? i = t.Pool.get? i) ∧
      (r.1 = .EFI_OUT_OF_RESOURCES → r.2 = t) ∧
      (r.1 = .EFI_INVALID_PARAMETER →
        readByte r.2.Table r.2.Pool r.2.CurrentPtr = some (ty % 256) ∧
        readByte r.2.Table r.2.Pool (r.2.CurrentPtr + 1) = some (L % 256)) := by
  subst hr
  rcases hext : SmbiosExtendTable c nb t L with ⟨st, T⟩
  by_cases hst : st = .EFI_SUCCESS
  · subst hst
    obtain ⟨hcp, hsp, hroom, -, -, hbytes, hH, hM, hN, -⟩ :=
      SmbiosExtendTable_valid hc hv (by omega) hext
    obtain ⟨hbase, hcur, -, -, -, -⟩ := hv
    rw [SmbiosInitialiseStruct_of_extend ty idx hext] at hfail ⊢
    obtain ⟨-, hok, hsame⟩ :=
      SmbiosAssignStructHandle_status c (setHdrTypeLength T ty L) ty idx
    rcases hass : SmbiosAssignStructHandle c (setHdrTypeLength T ty L) ty idx with ⟨st2, A⟩
    rw [hass] at hfail hok hsame
    cases st2 with
    | EFI_SUCCESS => simp at hfail
    | EFI_OUT_OF_RESOURCES => simp at hok
    | EFI_INVALID_PARAMETER =>
      have hA : A = setHdrTypeLength T ty L := hsame rfl
      subst hA
      simp only [setHdrTypeLength]
      refine ⟨by omega, by omega, hH, hM, hN, ?_, by simp, fun _ => ⟨?_, ?_⟩⟩
      · intro i hi h1 h2
        rw [writeByte_get_ne _ _ _ _ _ (by omega), writeByte_get_ne _ _ _ _ _ (by omega)]
        exact hbytes i hi
      · rw [readByte_writeByte_ne _ _ _ _ _ (by omega) (by omega)]
        exact readByte_writeByte_self _ _ _ _ (by omega) (by omega)
      · exact readByte_writeByte_self _ _ _ _ (by omega)
          (by rw [writeByte_length]; omega)
  · have hne : (SmbiosExtendTable c nb t L).1 ≠ .EFI_SUCCESS := by rw [hext]; exact hst
    have hf := SmbiosExtendTable_failure c nb t L hne
    have hI : SmbiosInitialiseStruct c nb t ty L idx = (.EFI_OUT_OF_RESOURCES, t) := by
      unfold SmbiosInitialiseStruct
      rw [hf]
    rw [hI]
    simp

/-- C5 (amended) for a cache record with the bad slot 4, after `sampleRecord`
has been built: the string cursor offset is unchanged. -/
theorem C5_failure_effect_witness :
    (referenceConstants.Sane ∧ ValidTable referenceConstants sampleBuilt.1 ∧
      (SmbiosInitialiseStruct referenceConstants 0 sampleBuilt.1 7 4 4).1 ≠ .EFI_SUCCESS) ∧
    (SmbiosInitialiseStruct referenceConstants 0 sampleBuilt.1 7 4 4).2.CurrentStrPtr
        - (SmbiosInitialiseStruct referenceConstants 0 sampleBuilt.1 7 4 4).2.Table
      = sampleBuilt.1.CurrentStrPtr - sampleBuilt.1.Table :=
  ⟨⟨by decide, by decide!, by decide!⟩,
    (C5_failure_effect referenceConstants (by decide) 0 sampleBuilt.1 7 4 4
      (SmbiosInitialiseStruct referenceConstants 0 sampleBuilt.1 7 4 4)
      (by decide!) (by decide) rfl (by decide!)).2.1⟩

/-! ## Handle uniqueness over a session (C6) -/

/-- C6, as stated, fails: two successful builds of a BIOS-information record
leave the same handle in both headers. -/
theorem C6_duplicate_singleton :
    buildSession referenceConstants (emptyTable referenceConstants) duplicateSession
        = some (duplicateBuilt.1, [0, 6]) ∧
      readHandle duplicateBuilt.1.Table duplicateBuilt.1.Pool (duplicateBuilt.1.Table + 0)
        = some referenceConstants.OcSmbiosBiosInformationHandle ∧
      readHandle duplicateBuilt.1.Table duplicateBuilt.1.Pool (duplicateBuilt.1.Table + 6)
        = some referenceConstants.OcSmbiosBiosInformationHandle := by
  decide!

theorem readHandle_at (B : Nat) (pre post : List Nat) (a b lo hi : Nat) :
    readHandle B (pre ++ a :: b :: lo :: hi :: post) (B + pre.length)
      = some (lo + 256 * hi) := by
  unfold readHandle
  have e1 : pre ++ a :: b :: lo :: hi :: post = (pre ++ [a, b]) ++ lo :: (hi :: post) := by simp
  have e2 : B + pre.length + 2 = B + (pre ++ [a, b]).length := by simp; omega
  have e3 : pre ++ a :: b :: lo :: hi :: post = (pre ++ [a, b, lo]) ++ hi :: post := by simp
  have e4 : B + pre.length + 3 = B + (pre ++ [a, b, lo]).length := by simp; omega
  have h1 : readByte B (pre ++ a :: b :: lo :: hi :: post) (B + pre.length + 2) = some lo := by
    rw [e1, e2, readByte_at]
  have h2 : readByte B (pre ++ a :: b :: lo :: hi :: post) (B + pre.length + 3) = some hi := by
    rw [e3, e4, readByte_at]
  rw [h1, h2]

theorem recordBytes_length_ge (c : Constants) (r : RecordBuild) (h : Nat)
    (hL4 : 4 ≤ r.MinLength) : 6 ≤ (recordBytes c r h).length := by
  unfold recordBytes terminator
  simp only [List.length_append, fixedBody_length _ _ _ hL4]
  split_ifs with h0
  · simp
    omega
  · have hp : 0 < (stringPool c r.Strings).length :=
      List.length_pos.mpr (fun he => h0 ((stringPool_eq_nil c r.Strings).mp he))
    simp
    omega

/-- Layout after a session of successful record builds. -/
theorem buildSession_layout {c : Constants} (hc : c.Sane) :
    ∀ (builds : List RecordBuild) (t : OC_SMBIOS_TABLE) (used : List Nat) (n : Nat)
      (t' : OC_SMBIOS_TABLE) (starts : List Nat),
      Layout c t used n → t.CurrentPtr = t.CurrentStrPtr →
      (∀ r ∈ builds, 4 ≤ r.MinLength ∧ r.MinLength < 256) →
      buildSession c t builds = some (t', starts) →
      ∃ n', Layout c t' (used ++ sessionBytes c t.Handle builds) n' ∧
        starts = sessionStarts c used.length t.Handle builds := by
  intro builds
  induction builds with
  | nil =>
    intro t used n t' starts hl _ _ hb
    simp only [buildSession, Option.some.injEq, Prod.mk.injEq] at hb
    obtain ⟨rfl, rfl⟩ := hb
    exact ⟨n, by simpa [sessionBytes] using hl, by simp [sessionStarts]⟩
  | cons r rest ih =>
    intro t used n t' starts hl hcur hL hb
    simp only [buildSession] at hb
    rcases hrec : buildRecord c t r with _ | ⟨t1, rs⟩
    · rw [hrec] at hb; simp at hb
    · rw [hrec] at hb
      simp only at hb
      rcases hrest : buildSession c t1 rest with _ | ⟨t2, starts2⟩
      · rw [hrest] at hb; simp at hb
      · rw [hrest] at hb
        simp only [Option.some.injEq, Prod.mk.injEq] at hb
        obtain ⟨rfl, rfl⟩ := hb
        have hr := hL r (List.mem_cons_self _ _)
        obtain ⟨n1, hl1, hc1, hH1, -, -⟩ := buildRecord_layout hc hl hcur hr.1 hr.2 hrec
        obtain ⟨n2, hl2, hs2⟩ := ih t1 _ n1 t2 starts2 hl1 hc1
          (fun x hx => hL x (List.mem_cons_of_mem _ hx)) hrest
        rw [hH1] at hl2 hs2
        refine ⟨n2, ?_, ?_⟩
        · simpa [sessionBytes] using hl2
        · have hst := hl.str
          have e : t.CurrentPtr - t.Table = used.length := by rw [hcur, hst]; omega
          rw [e, hs2]
          simp [sessionStarts]

theorem sessionBytes_length_ge (c : Constants) :
    ∀ (builds : List RecordBuild) (counter : Nat),
      (∀ r ∈ builds, 4 ≤ r.MinLength ∧ r.MinLength < 256) →
      6 * builds.length ≤ (sessionBytes c counter builds).length := by
  intro builds
  induction builds with
  | nil => intro _ _; simp
  | cons r rest ih =>
    intro counter hL
    have h1 := recordBytes_length_ge c r (drawnHandle c r.SmbiosType r.Index counter)
      (hL r (List.mem_cons_self _ _)).1
    have h2 := ih (nextHandle c r.SmbiosType r.Index counter)
      (fun x hx => hL x (List.mem_cons_of_mem _ hx))
    simp only [sessionBytes, List.length_append, List.length_cons]
    omega

/-- The handles read back from the headers of a session are the handles
drawn. -/
theorem sessionHandles_read (c : Constants) (B : Nat) (post : List Nat) :
    ∀ (builds : List RecordBuild) (pre : List Nat) (counter : Nat),
      (∀ r ∈ builds, 4 ≤ r.MinLength ∧ r.MinLength < 256) →
      (sessionStarts c pre.length counter builds).map
          (fun p => readHandle B (pre ++ sessionBytes c counter builds ++ post) (B + p))
        = (sessionHandles c counter builds).map (fun h => some (h % 2 ^ 16)) := by
  intro builds
  induction builds with
  | nil => intro _ _ _; simp [sessionStarts, sessionHandles]
  | cons r rest ih =>
    intro pre counter hL
    have hr := hL r (List.mem_cons_self _ _)
    have ih' := ih (pre ++ recordBytes c r (drawnHandle c r.SmbiosType r.Index counter))
      (nextHandle c r.SmbiosType r.Index counter) (fun x hx => hL x (List.mem_cons_of_mem _ hx))
    simp only [sessionStarts, sessionHandles, sessionBytes, List.map_cons]
    congr 1
    · unfold recordBytes fixedBody
      have e : pre ++ ([r.SmbiosType % 256, r.MinLength % 256,
            drawnHandle c r.SmbiosType r.Index counter % 2 ^ 16 % 256,
            drawnHandle c r.SmbiosType r.Index counter % 2 ^ 16 / 256]
              ++ List.replicate (r.MinLength - 4) 0 ++ stringPool c r.Strings
              ++ terminator r.Strings
            ++ sessionBytes c (nextHandle c r.SmbiosType r.Index counter) rest) ++ post
          = pre ++ (r.SmbiosType % 256) :: (r.MinLength % 256)
              :: (drawnHandle c r.SmbiosType r.Index counter % 2 ^ 16 % 256)
              :: (drawnHandle c r.SmbiosType r.Index counter % 2 ^ 16 / 256)
              :: (List.replicate (r.MinLength - 4) 0 ++ stringPool c r.Strings
                ++ terminator r.Strings
                ++ sessionBytes c (nextHandle c r.SmbiosType r.Index counter) rest ++ post) := by
        simp
      rw [e, readHandle_at]
      congr 1
      omega
    · have e1 : pre.length + (recordBytes c r (drawnHandle c r.SmbiosType r.Index counter)).length
          = (pre ++ recordBytes c r (drawnHandle c r.SmbiosType r.Index counter)).length := by
        simp
      have e2 : pre ++ (recordBytes c r (drawnHandle c r.SmbiosType r.Index counter)
            ++ sessionBytes c (nextHandle c r.SmbiosType r.Index counter) rest) ++ post
          = pre ++ recordBytes c r (drawnHandle c r.SmbiosType r.Index counter)
            ++ sessionBytes c (nextHandle c r.SmbiosType r.Index counter) rest ++ post := by
        simp
      rw [e1, e2]
      exact ih'

theorem lookup_mem_snd (l : List (Nat × Nat)) (k h : Nat) (hl : l.lookup k = some h) :
    h ∈ l.map Prod.snd := by
  induction l with
  | nil => simp [List.lookup] at hl
  | cons q rest ih =>
    obtain ⟨q1, q2⟩ := q
    simp only [List.lookup] at hl
    by_cases hk : k = q1
    · have hb : (k == q1) = true := by simpa using hk
      simp only [hb, Option.some.injEq] at hl
      simp [hl]
    · have hb : (k == q1) = false := by simpa using hk
      simp only [hb] at hl
      simp only [List.map_cons, List.mem_cons]
      exact Or.inr (ih hl)

theorem lookup_inj (l : List (Nat × Nat)) (hnd : (l.map Prod.snd).Nodup) (a b h : Nat)
    (ha : l.lookup a = some h) (hb : l.lookup b = some h) : a = b := by
  induction l with
  | nil => simp [List.lookup] at ha
  | cons q rest ih =>
    obtain ⟨q1, q2⟩ := q
    simp only [List.map_cons, List.nodup_cons] at hnd
    simp only [List.lookup] at ha hb
    by_cases hak : a = q1
    · have hab : (a == q1) = true := by simpa using hak
      simp only [hab, Option.some.injEq] at ha
      by_cases hbk : b = q1
      · rw [hak, hbk]
      · have hbb : (b == q1) = false := by simpa using hbk
        simp only [hbb] at hb
        exact absurd (ha ▸ lookup_mem_snd rest b h hb) hnd.1
    · have hab : (a == q1) = false := by simpa using hak
      simp only [hab] at ha
      by_cases hbk : b = q1
      · have hbb : (b == q1) = true := by simpa using hbk
        simp only [hbb, Option.some.injEq] at hb
        exact absurd (hb ▸ lookup_mem_snd rest a h ha) hnd.1
      · have hbb : (b == q1) = false := by simpa using hbk
        simp only [hbb] at hb
        exact ih hnd.2 ha hb

theorem reservedHandle_mem (c : Constants) (ty idx h : Nat)
    (hr : reservedHandle c ty idx = some h) : h ∈ reservedConstants c := by
  unfold reservedHandle at hr
  unfold reservedConstants
  split_ifs at hr with h1 h2 h3 h4 h5 h6
  · simp only [Option.some.injEq] at hr; simp [← hr]
  · simp only [Option.some.injEq] at hr; simp [← hr]
  · simp only [Option.some.injEq] at hr; simp [← hr]
  · exact List.mem_append_right _ (lookup_mem_snd _ _ _ hr)

/-- Two builds that draw the same reserved handle have the same type and slot
index, the reserved constants being pairwise distinct. -/
theorem reservedHandle_inj (c : Constants) (hdist : (reservedConstants c).Nodup)
    (ty1 i1 ty2 i2 h : Nat) (h1 : reservedHandle c ty1 i1 = some h)
    (h2 : reservedHandle c ty2 i2 = some h) : (ty1, i1) = (ty2, i2) := by
  unfold reservedConstants at hdist
  have hd := List.nodup_append.mp hdist
  obtain ⟨hcache, hsingle, hdisj⟩ := hd
  simp only [List.nodup_cons, List.mem_cons, List.mem_singleton, List.not_mem_nil,
    or_false, not_or, List.nodup_nil, and_true, not_false_eq_true] at hcache
  obtain ⟨⟨h12, h13⟩, h23⟩ := hcache
  have hL : ∀ x, x ∈ (singletonCases c).map Prod.snd →
      x ≠ c.OcSmbiosL1CacheHandle ∧ x ≠ c.OcSmbiosL2CacheHandle
        ∧ x ≠ c.OcSmbiosL3CacheHandle := by
    intro x hx
    refine ⟨?_, ?_, ?_⟩ <;>
    · intro he
      subst he
      exact hdisj (by simp) hx
  unfold reservedHandle at h1 h2
  split_ifs at h1 with a1 a2 a3 a4 a5 a6 <;> split_ifs at h2 with b1 b2 b3 b4 b5 b6 <;>
    (try simp only [Option.some.injEq] at h1) <;> (try simp only [Option.some.injEq] at h2)
  all_goals first
    | (subst a1; subst b1; subst_vars; rfl)
    | (exfalso; subst h1; first
        | exact h12 h2.symm | exact h12 h2 | exact h13 h2.symm | exact h13 h2
        | exact h23 h2.symm | exact h23 h2)
    | (exfalso; have := hL h (lookup_mem_snd _ _ _ h2); subst h1; simp at this)
    | (exfalso; have := hL h (lookup_mem_snd _ _ _ h1); subst h2; simp at this)
    | (have e := lookup_inj _ hsingle _ _ _ h1 h2
       have e1 : i1 = 1 := by simpa using a6
       have e2 : i2 = 1 := by simpa using b6
       rw [e, e1, e2])

theorem sessionHandles_mem (c : Constants) :
    ∀ (builds : List RecordBuild) (counter : Nat), counter + builds.length < 2 ^ 16 →
      ∀ h ∈ sessionHandles c counter builds,
        (∃ r ∈ builds, reservedHandle c r.SmbiosType r.Index = some h) ∨
          (counter ≤ h ∧ h < counter + builds.length) := by
  intro builds
  induction builds with
  | nil => intro _ _ h hh; simp [sessionHandles] at hh
  | cons r rest ih =>
    intro counter hcnt h hh
    simp only [List.length_cons] at hcnt
    simp only [sessionHandles, List.mem_cons] at hh
    unfold drawnHandle nextHandle at hh
    cases hres : reservedHandle c r.SmbiosType r.Index with
    | some hd =>
      rw [hres] at hh
      simp only [Option.getD_some, Option.isSome_some, if_true] at hh
      rcases hh with rfl | hin
      · exact Or.inl ⟨r, List.mem_cons_self _ _, hres⟩
      · rcases ih counter (by omega) h hin with ⟨x, hx, hxr⟩ | ⟨h1, h2⟩
        · exact Or.inl ⟨x, List.mem_cons_of_mem _ hx, hxr⟩
        · exact Or.inr ⟨h1, by simp only [List.length_cons]; omega⟩
    | none =>
      rw [hres] at hh
      simp only [Option.getD_none, Option.isSome_none, Bool.false_eq_true, if_false] at hh
      have hm : (counter + 1) % 2 ^ 16 = counter + 1 := Nat.mod_eq_of_lt (by omega)
      rw [hm] at hh
      rcases hh with rfl | hin
      · exact Or.inr ⟨le_refl _, by simp only [List.length_cons]; omega⟩
      · rcases ih (counter + 1) (by omega) h hin with ⟨x, hx, hxr⟩ | ⟨h1, h2⟩
        · exact Or.inl ⟨x, List.mem_cons_of_mem _ hx, hxr⟩
        · exact Or.inr ⟨by omega, by simp only [List.length_cons]; omega⟩

theorem mem_reservedKeys (c : Constants) (builds : List RecordBuild) (x : RecordBuild)
    (hx : x ∈ builds) (h : Nat) (hr : reservedHandle c x.SmbiosType x.Index = some h) :
    (x.SmbiosType, x.Index) ∈ reservedKeys c builds := by
  unfold reservedKeys
  refine List.mem_map.mpr ⟨x, List.mem_filter.mpr ⟨hx, ?_⟩, rfl⟩
  simp [hr]

/-- The handles drawn by a session are pairwise distinct when the reserved
constants are distinct and below the counter, the counter does not wrap, and no
type and slot with a reserved handle is built twice. -/
theorem sessionHandles_nodup (c : Constants) (hdist : (reservedConstants c).Nodup)
    (hbelow : ∀ h ∈ reservedConstants c, h < c.OcSmbiosAutomaticHandle) :
    ∀ (builds : List RecordBuild) (counter : Nat), c.OcSmbiosAutomaticHandle ≤ counter →
      counter + builds.length < 2 ^ 16 → (reservedKeys c builds).Nodup →
      (sessionHandles c counter builds).Nodup := by
  intro builds
  induction builds with
  | nil => intro _ _ _ _; simp [sessionHandles]
  | cons r rest ih =>
    intro counter hauto hcnt hkeys
    simp only [List.length_cons] at hcnt
    simp only [sessionHandles, List.nodup_cons]
    unfold drawnHandle nextHandle
    cases hres : reservedHandle c r.SmbiosType r.Index with
    | some hd =>
      have hk : reservedKeys c (r :: rest)
          = (r.SmbiosType, r.Index) :: reservedKeys c rest := by
        simp [reservedKeys, List.filter_cons, hres]
      rw [hk, List.nodup_cons] at hkeys
      simp only [Option.getD_some, Option.isSome_some, if_true]
      refine ⟨?_, ih counter hauto (by omega) hkeys.2⟩
      intro hin
      rcases sessionHandles_mem c rest counter (by omega) hd hin with ⟨x, hx, hxr⟩ | ⟨h1, -⟩
      · have e := reservedHandle_inj c hdist _ _ _ _ _ hxr hres
        exact hkeys.1 (e ▸ mem_reservedKeys c rest x hx hd hxr)
      · have := hbelow hd (reservedHandle_mem c _ _ _ hres)
        omega
    | none =>
      have hk : reservedKeys c (r :: rest) = reservedKeys c rest := by
        simp [reservedKeys, List.filter_cons, hres]
      rw [hk] at hkeys
      simp only [Option.getD_none, Option.isSome_none, Bool.false_eq_true, if_false]
      have hm : (counter + 1) % 2 ^ 16 = counter + 1 := Nat.mod_eq_of_lt (by omega)
      rw [hm]
      refine ⟨?_, ih (counter + 1) (by omega) (by omega) hkeys⟩
      intro hin
      rcases sessionHandles_mem c rest (counter + 1) (by omega) counter hin
        with ⟨x, hx, hxr⟩ | ⟨h1, -⟩
      · have := hbelow counter (reservedHandle_mem c _ _ _ hxr)
        omega
      · omega

theorem sessionHandles_lt (c : Constants)
    (hbelow : ∀ h ∈ reservedConstants c, h < c.OcSmbiosAutomaticHandle)
    (builds : List RecordBuild) (counter : Nat) (hauto : c.OcSmbiosAutomaticHandle ≤ counter)
    (hcnt : counter + builds.length < 2 ^ 16) :
    ∀ h ∈ sessionHandles c counter builds, h < 2 ^ 16 := by
  intro h hh
  rcases sessionHandles_mem c builds counter hcnt h hh with ⟨x, -, hxr⟩ | ⟨-, h2⟩
  · have := hbelow h (reservedHandle_mem c _ _ _ hxr)
    omega
  · omega

theorem sessionStarts_length (c : Constants) :
    ∀ (builds : List RecordBuild) (p counter : Nat),
      (sessionStarts c p counter builds).length = builds.length := by
  intro builds
  induction builds with
  | nil => intro _ _; rfl
  | cons r rest ih => intro p counter; simp [sessionStarts, ih]

/-- C6, amended.  In a construction session from the empty table (counter at
`OcSmbiosAutomaticHandle`, above all reserved constants, which are pairwise
distinct) made of successful record builds with `4 ≤ L`, in which no singleton
type and no cache slot is built twice, no two finalised records carry the same
handle in their headers. -/
theorem C6_handles_unique (c : Constants) (hc : c.Sane)
    (hdist : (reservedConstants c).Nodup)
    (hbelow : ∀ h ∈ reservedConstants c, h < c.OcSmbiosAutomaticHandle)
    (hwrap : c.OcSmbiosAutomaticHandle + c.SMBIOS_TABLE_MAX_LENGTH / 6 < 2 ^ 16)
    (builds : List RecordBuild) (t' : OC_SMBIOS_TABLE) (starts : List Nat)
    (hL : ∀ r ∈ builds, 4 ≤ r.MinLength ∧ r.MinLength < 256)
    (hkeys : (reservedKeys c builds).Nodup)
    (hs : buildSession c (emptyTable c) builds = some (t', starts)) :
    starts.length = builds.length ∧
      (∀ p ∈ starts, (readHandle t'.Table t'.Pool (t'.Table + p)).isSome = true) ∧
      (starts.map (fun p => readHandle t'.Table t'.Pool (t'.Table + p))).Nodup := by
  have hl0 : Layout c (emptyTable c) [] 0 := by
    refine ⟨rfl, rfl, rfl, le_refl _, fun _ => ⟨rfl, rfl⟩, ?_⟩
    simp
  obtain ⟨n', hl, hst⟩ := buildSession_layout hc builds (emptyTable c) [] 0 t' starts hl0 rfl hL hs
  have hp := hl.pool
  have hmax := hl.max
  simp only [List.nil_append, List.length_nil] at hp hmax hst
  have hlen := sessionBytes_length_ge c builds (emptyTable c).Handle hL
  have hcnt : c.OcSmbiosAutomaticHandle + builds.length < 2 ^ 16 := by omega
  have hread := sessionHandles_read c t'.Table (List.replicate n' 0) builds []
    (emptyTable c).Handle hL
  simp only [List.nil_append, List.length_nil] at hread
  rw [← hp, ← hst] at hread
  have hlt := sessionHandles_lt c hbelow builds c.OcSmbiosAutomaticHandle (le_refl _) hcnt
  have hnd := sessionHandles_nodup c hdist hbelow builds c.OcSmbiosAutomaticHandle (le_refl _)
    hcnt hkeys
  refine ⟨by rw [hst, sessionStarts_length], ?_, ?_⟩
  · intro p hp'
    have hm : readHandle t'.Table t'.Pool (t'.Table + p)
        ∈ starts.map (fun p => readHandle t'.Table t'.Pool (t'.Table + p)) :=
      List.mem_map_of_mem _ hp'
    rw [hread] at hm
    obtain ⟨h, -, hh⟩ := List.mem_map.mp hm
    rw [← hh]
    rfl
  · rw [hread]
    refine List.Nodup.map_on ?_ hnd
    intro a ha b hb hab
    simp only [Option.some.injEq] at hab
    have h1 := hlt a ha
    have h2 := hlt b hb
    rw [Nat.mod_eq_of_lt h1, Nat.mod_eq_of_lt h2] at hab
    exact hab

/-- C6 (amended) for `sampleSession`: the four headers hold the handles 1,
128, 129 and 9. -/
theorem C6_handles_unique_witness :
    (referenceConstants.Sane ∧ (reservedConstants referenceConstants).Nodup ∧
      (∀ h ∈ reservedConstants referenceConstants,
        h < referenceConstants.OcSmbiosAutomaticHandle) ∧
      referenceConstants.OcSmbiosAutomaticHandle
        + referenceConstants.SMBIOS_TABLE_MAX_LENGTH / 6 < 2 ^ 16 ∧
      (∀ r ∈ sampleSession, 4 ≤ r.MinLength ∧ r.MinLength < 256) ∧
      (reservedKeys referenceConstants sampleSession).Nodup ∧
      buildSession referenceConstants (emptyTable referenceConstants) sampleSession
        = some (sampleSessionBuilt.1, sampleSessionBuilt.2)) ∧
    (sampleSessionBuilt.2.map (fun p =>
      readHandle sampleSessionBuilt.1.Table sampleSessionBuilt.1.Pool
        (sampleSessionBuilt.1.Table + p))).Nodup :=
  ⟨⟨by decide, by decide, by decide, by decide, by decide, by decide, by decide!⟩,
    (C6_handles_unique referenceConstants (by decide) (by decide) (by decide) (by decide)
      sampleSession sampleSessionBuilt.1 sampleSessionBuilt.2 (by decide) (by decide)
      (by decide!)).2.2⟩

/-! ## Walker on records without empty strings -/

theorem scanDoubleZero_skip (B : Nat) (post : List Nat) :
    ∀ (e pre : List Nat) (fuel : Nat), (∀ b ∈ e, b ≠ 0) →
      scanDoubleZero B (pre ++ e ++ post) (fuel + e.length) (B + pre.length)
        = scanDoubleZero B (pre ++ e ++ post) fuel (B + pre.length + e.length) := by
  intro e
  induction e with
  | nil => intro pre fuel _; simp
  | cons x xs ih =>
    intro pre fuel he
    have hx : x ≠ 0 := he x (List.mem_cons_self _ _)
    have hxs : ∀ b ∈ xs, b ≠ 0 := fun b hb => he b (List.mem_cons_of_mem _ hb)
    have e1 : pre ++ x :: xs ++ post = pre ++ x :: (xs ++ post) := by simp
    have e2 : pre ++ x :: (xs ++ post) = (pre ++ [x]) ++ xs ++ post := by simp
    have e3 : B + pre.length + 1 = B + (pre ++ [x]).length := by simp; omega
    have e4 : fuel + (x :: xs).length = (fuel + xs.length) + 1 := by simp; omega
    have e5 : B + pre.length + (x :: xs).length = B + (pre ++ [x]).length + xs.length := by
      simp; omega
    rw [e4, scanDoubleZero, e1, readByte_at]
    simp only [hx, ne_eq, not_false_eq_true, if_true]
    rw [e2, e3, ih (pre ++ [x]) fuel hxs, e5]

theorem scanDoubleZero_found (B : Nat) (pre post : List Nat) (fuel : Nat) :
    scanDoubleZero B (pre ++ 0 :: 0 :: post) (fuel + 1) (B + pre.length)
      = some (B + pre.length) := by
  have e1 : pre ++ 0 :: 0 :: post = (pre ++ [0]) ++ 0 :: post := by simp
  have e2 : B + pre.length + 1 = B + (pre ++ [0]).length := by simp; omega
  have h1 : readByte B (pre ++ 0 :: 0 :: post) (B + pre.length + 1) = some 0 := by
    rw [e1, e2, readByte_at]
  rw [scanDoubleZero, readByte_at]
  simp only [ne_eq, not_true_eq_false, if_false, h1]

theorem scanDoubleZero_single (B : Nat) (pre post : List Nat) (x fuel : Nat) (hx : x ≠ 0) :
    scanDoubleZero B (pre ++ 0 :: x :: post) (fuel + 1) (B + pre.length)
      = scanDoubleZero B (pre ++ 0 :: x :: post) fuel (B + pre.length + 1) := by
  have e1 : pre ++ 0 :: x :: post = (pre ++ [0]) ++ x :: post := by simp
  have e2 : B + pre.length + 1 = B + (pre ++ [0]).length := by simp; omega
  have h1 : readByte B (pre ++ 0 :: x :: post) (B + pre.length + 1) = some x := by
    rw [e1, e2, readByte_at]
  rw [scanDoubleZero, readByte_at]
  simp only [ne_eq, not_true_eq_false, if_false, h1, hx, not_false_eq_true, if_true]

/-- The scan of `SmbiosGetTableLength` over a pool of non-empty strings without
zero bytes stops at the terminator of the last string. -/
theorem scanDoubleZero_stringPool (c : Constants) (B : Nat) (post : List Nat) :
    ∀ (ss : List StringCall) (pre : List Nat) (fuel : Nat), ss ≠ [] →
      (∀ s ∈ ss, encodedString c s ≠ [] ∧ ∀ b ∈ encodedString c s, b ≠ 0) →
      scanDoubleZero B (pre ++ stringPool c ss ++ 0 :: post)
          (fuel + (stringPool c ss).length) (B + pre.length)
        = some (B + pre.length + (stringPool c ss).length - 1) := by
  intro ss
  induction ss with
  | nil => intro _ _ h; exact absurd rfl h
  | cons s rest ih =>
    intro pre fuel _ hs
    obtain ⟨hne, hnz⟩ := hs s (List.mem_cons_self _ _)
    have hrest : ∀ x ∈ rest, encodedString c x ≠ [] ∧ ∀ b ∈ encodedString c x, b ≠ 0 :=
      fun x hx => hs x (List.mem_cons_of_mem _ hx)
    have e1 : pre ++ stringPool c (s :: rest) ++ 0 :: post
        = pre ++ encodedString c s ++ (0 :: (stringPool c rest ++ 0 :: post)) := by
      simp [stringPool]
    have e2 : fuel + (stringPool c (s :: rest)).length
        = (fuel + (stringPool c rest).length + 1) + (encodedString c s).length := by
      simp [stringPool]; omega
    rw [e1, e2, scanDoubleZero_skip B _ _ pre _ hnz]
    have e3 : pre ++ encodedString c s ++ (0 :: (stringPool c rest ++ 0 :: post))
        = (pre ++ encodedString c s) ++ 0 :: (stringPool c rest ++ 0 :: post) := by simp
    have e4 : B + pre.length + (encodedString c s).length
        = B + (pre ++ encodedString c s).length := by simp; omega
    rw [e3, e4]
    cases rest with
    | nil =>
      simp only [stringPool, List.nil_append, List.length_nil, Nat.add_zero]
      rw [scanDoubleZero_found]
      simp
      omega
    | cons s2 rest2 =>
      obtain ⟨hne2, hnz2⟩ := hrest s2 (List.mem_cons_self _ _)
      obtain ⟨x, xs, hx⟩ := List.exists_cons_of_ne_nil hne2
      have hx0 : x ≠ 0 := hnz2 x (by rw [hx]; exact List.mem_cons_self _ _)
      have e5 : stringPool c (s2 :: rest2) ++ 0 :: post
          = x :: (xs ++ [0] ++ stringPool c rest2 ++ 0 :: post) := by
        simp [stringPool, hx]
      have e6 : (pre ++ encodedString c s) ++ 0 :: x :: (xs ++ [0] ++ stringPool c rest2
            ++ 0 :: post)
          = (pre ++ encodedString c s ++ [0]) ++ stringPool c (s2 :: rest2) ++ 0 :: post := by
        simp [stringPool, hx]
      have e7 : B + (pre ++ encodedString c s).length + 1
          = B + (pre ++ encodedString c s ++ [0]).length := by simp; omega
      rw [e5, scanDoubleZero_single _ _ _ _ _ hx0, e6, e7,
        ih (pre ++ encodedString c s ++ [0]) fuel (by simp) hrest]
      simp [stringPool]
      omega

theorem hexDigits_ne_zero (i : Nat) (hi : i < 16) : hexDigits.getD i 0 ≠ 0 := by
  interval_cases i <;> simp [hexDigits]

theorem hexEncode_ne_zero (text : List Nat) : ∀ b ∈ hexEncode text, b ≠ 0 := by
  induction text with
  | nil => intro b hb; simp [hexEncode] at hb
  | cons x xs ih =>
    intro b hb
    simp only [hexEncode, hexPair, List.mem_append, List.mem_cons, List.mem_singleton,
      List.not_mem_nil, or_false] at hb
    have h15 : ∀ y : Nat, y &&& 15 < 16 := fun y =>
      Nat.lt_succ_of_le Nat.and_le_right
    rcases hb with (rfl | rfl) | hb
    · exact hexDigits_ne_zero _ (h15 _)
    · exact hexDigits_ne_zero _ (h15 _)
    · exact ih b hb

/-- A string call with a positive effective length on a text without zero
bytes appends a non-empty string without zero bytes. -/
theorem encodedString_ok (c : Constants) (s : StringCall)
    (hpos : 0 < overrideLength c s.Override s.Hex) (hnz : ∀ b ∈ s.Override, b % 256 ≠ 0) :
    encodedString c s ≠ [] ∧ ∀ b ∈ encodedString c s, b ≠ 0 := by
  have hle := overrideLength_le_length c s.Override s.Hex
  have hl := encodedString_length c s
  constructor
  · intro he
    rw [he] at hl
    simp only [List.length_nil] at hl
    split_ifs at hl <;> omega
  · intro b hb
    unfold encodedString at hb
    simp only at hb
    split_ifs at hb with hx
    · simp only [List.mem_append, List.mem_cons, List.mem_singleton, List.not_mem_nil,
        or_false] at hb
      rcases hb with (rfl | rfl) | hb
      · omega
      · omega
      · exact hexEncode_ne_zero _ b hb
    · obtain ⟨a, ha, rfl⟩ := List.mem_map.mp hb
      exact hnz a (List.mem_of_mem_take ha)

/-- Round trip between builder and walker, for records whose strings are all
non-empty and free of zero bytes: `SmbiosGetTableLength` at the record start
returns the fixed length plus the bytes of the string pool plus 1, or the fixed
length plus 2 for a record without strings, and this is where the builder left
the record cursor. -/
theorem buildRecord_table_length (c : Constants) (hc : c.Sane) (t t' : OC_SMBIOS_TABLE)
    (r : RecordBuild) (rs : List Nat) (ht : BetweenRecords c t)
    (hL4 : 4 ≤ r.MinLength) (hL : r.MinLength < 256)
    (hne : ∀ s ∈ r.Strings, encodedString c s ≠ [] ∧ ∀ b ∈ encodedString c s, b ≠ 0)
    (hb : buildRecord c t r = some (t', rs)) :
    SmbiosGetTableLength t'.Table t'.Pool (t'.Table + (t.CurrentPtr - t.Table))
        = some (r.MinLength + (stringPool c r.Strings).length
            + (if r.Strings = [] then 2 else 1)) ∧
      t'.CurrentPtr = t'.Table + (t.CurrentPtr - t.Table)
        + (r.MinLength + (stringPool c r.Strings).length
            + (if r.Strings = [] then 2 else 1)) := by
  obtain ⟨hlay, hcur, hlen⟩ := BetweenRecords_layout ht
  generalize t.Pool.take (t.CurrentStrPtr - t.Table) = used at hlay hlen
  obtain ⟨n', hlay', hcur', -, -, -⟩ := buildRecord_layout hc hlay hcur hL4 hL hb
  obtain ⟨hp, -, hs, -, -, -⟩ := hlay'
  have hbl := fixedBody_length r.SmbiosType r.MinLength
    (drawnHandle c r.SmbiosType r.Index t.Handle) hL4
  rw [← hlen]
  have hread : readByte t'.Table t'.Pool (t'.Table + used.length + 1) = some r.MinLength := by
    have e : used ++ recordBytes c r (drawnHandle c r.SmbiosType r.Index t.Handle)
          ++ List.replicate n' 0
        = (used ++ [r.SmbiosType % 256]) ++ (r.MinLength % 256)
          :: ([drawnHandle c r.SmbiosType r.Index t.Handle % 2 ^ 16 % 256,
              drawnHandle c r.SmbiosType r.Index t.Handle % 2 ^ 16 / 256]
            ++ List.replicate (r.MinLength - 4) 0 ++ stringPool c r.Strings
            ++ terminator r.Strings ++ List.replicate n' 0) := by
      simp [recordBytes, fixedBody]
    have e2 : t'.Table + used.length + 1 = t'.Table + (used ++ [r.SmbiosType % 256]).length := by
      simp; omega
    rw [hp, e, e2, readByte_at, Nat.mod_eq_of_lt hL]
  have haddr : t'.Table + used.length + r.MinLength
      = t'.Table + (used ++ fixedBody r.SmbiosType r.MinLength
          (drawnHandle c r.SmbiosType r.Index t.Handle)).length := by
    simp only [List.length_append, hbl]; omega
  constructor
  · unfold SmbiosGetTableLength
    rw [hread]
    simp only
    rw [haddr]
    by_cases h0 : r.Strings = []
    · have e : t'.Pool = (used ++ fixedBody r.SmbiosType r.MinLength
            (drawnHandle c r.SmbiosType r.Index t.Handle)) ++ 0 :: 0 :: List.replicate n' 0 := by
        rw [hp]
        simp [recordBytes, terminator, h0, stringPool]
      have hfound := scanDoubleZero_found t'.Table (used ++ fixedBody r.SmbiosType r.MinLength
        (drawnHandle c r.SmbiosType r.Index t.Handle)) (List.replicate n' 0) t'.Pool.length
      rw [← e] at hfound
      rw [hfound]
      simp only [h0, stringPool, List.length_nil, if_true, List.length_append, hbl,
        Option.some.injEq]
      omega
    · have e : t'.Pool = (used ++ fixedBody r.SmbiosType r.MinLength
            (drawnHandle c r.SmbiosType r.Index t.Handle)) ++ stringPool c r.Strings
            ++ 0 :: List.replicate n' 0 := by
        rw [hp]
        simp [recordBytes, terminator, h0]
      have hpl : (stringPool c r.Strings).length ≤ t'.Pool.length := by
        rw [e]; simp only [List.length_append]; omega
      have hpos : 0 < (stringPool c r.Strings).length :=
        List.length_pos.mpr (fun he => h0 ((stringPool_eq_nil c r.Strings).mp he))
      have hscan := scanDoubleZero_stringPool c t'.Table (List.replicate n' 0) r.Strings
        (used ++ fixedBody r.SmbiosType r.MinLength
          (drawnHandle c r.SmbiosType r.Index t.Handle))
        (t'.Pool.length + 1 - (stringPool c r.Strings).length) h0 hne
      rw [← e] at hscan
      have ef : t'.Pool.length + 1 - (stringPool c r.Strings).length
          + (stringPool c r.Strings).length = t'.Pool.length + 1 := by omega
      rw [ef] at hscan
      rw [hscan]
      simp only [h0, if_false, List.length_append, hbl, Option.some.injEq]
      omega
  · rw [hcur', hs]
    simp only [recordBytes, terminator, List.length_append, hbl]
    split_ifs <;> simp <;> omega

theorem skipToZero_skip (B : Nat) (post : List Nat) :
    ∀ (e pre : List Nat) (fuel : Nat), (∀ b ∈ e, b ≠ 0) →
      skipToZero B (pre ++ e ++ 0 :: post) (fuel + e.length + 1) (B + pre.length)
        = some (B + pre.length + e.length) := by
  intro e
  induction e with
  | nil =>
    intro pre fuel _
    simp only [List.append_nil, List.length_nil, Nat.add_zero]
    rw [skipToZero, readByte_at]
    simp
  | cons x xs ih =>
    intro pre fuel he
    have hx : x ≠ 0 := he x (List.mem_cons_self _ _)
    have hxs : ∀ b ∈ xs, b ≠ 0 := fun b hb => he b (List.mem_cons_of_mem _ hb)
    have e1 : pre ++ x :: xs ++ 0 :: post = pre ++ x :: (xs ++ 0 :: post) := by simp
    have e2 : pre ++ x :: (xs ++ 0 :: post) = (pre ++ [x]) ++ xs ++ 0 :: post := by simp
    have e3 : B + pre.length + 1 = B + (pre ++ [x]).length := by simp; omega
    have e4 : fuel + (x :: xs).length + 1 = (fuel + xs.length + 1) + 1 := by simp; omega
    have e5 : B + pre.length + (x :: xs).length = B + (pre ++ [x]).length + xs.length := by
      simp; omega
    rw [e4, skipToZero, e1, readByte_at]
    simp only [hx, ne_eq, not_false_eq_true, if_true]
    rw [e2, e3, ih (pre ++ [x]) fuel hxs, e5]

/-- The walk of `SmbiosGetString` over a pool of non-empty strings without zero
bytes: after `m` strings it stands at the start of string `m + 1`. -/
theorem getStringLoop_stringPool (c : Constants) (B : Nat) (post : List Nat) :
    ∀ (m : Nat) (ss : List StringCall) (pre : List Nat), m < ss.length →
      (∀ s ∈ ss, encodedString c s ≠ [] ∧ ∀ b ∈ encodedString c s, b ≠ 0) →
      getStringLoop B (pre ++ stringPool c ss ++ 0 :: post) m (B + pre.length)
        = some (B + pre.length + (stringPool c (ss.take m)).length) := by
  intro m
  induction m with
  | zero => intro ss pre _ _; simp [getStringLoop, stringPool]
  | succ k ih =>
    intro ss pre hm hs
    match ss, hm, hs with
    | [], hm, _ => simp at hm
    | [_], hm, _ => simp at hm
    | s :: s2 :: rest, hm, hs =>
      obtain ⟨-, hnz⟩ := hs s (List.mem_cons_self _ _)
      have hrest : ∀ x ∈ s2 :: rest,
          encodedString c x ≠ [] ∧ ∀ b ∈ encodedString c x, b ≠ 0 :=
        fun x hx => hs x (List.mem_cons_of_mem _ hx)
      obtain ⟨hne2, hnz2⟩ := hrest s2 (List.mem_cons_self _ _)
      obtain ⟨x, xs, hx⟩ := List.exists_cons_of_ne_nil hne2
      have hx0 : x ≠ 0 := hnz2 x (by rw [hx]; exact List.mem_cons_self _ _)
      have e1 : pre ++ stringPool c (s :: s2 :: rest) ++ 0 :: post
          = pre ++ encodedString c s ++ 0 :: (stringPool c (s2 :: rest) ++ 0 :: post) := by
        simp [stringPool]
      have hlen : (encodedString c s).length
          ≤ (pre ++ stringPool c (s :: s2 :: rest) ++ 0 :: post).length := by
        simp [stringPool]; omega
      have hskip := skipToZero_skip B (stringPool c (s2 :: rest) ++ 0 :: post)
        (encodedString c s) pre
        ((pre ++ stringPool c (s :: s2 :: rest) ++ 0 :: post).length
          - (encodedString c s).length) hnz
      have ef : (pre ++ stringPool c (s :: s2 :: rest) ++ 0 :: post).length
          - (encodedString c s).length + (encodedString c s).length + 1
          = (pre ++ stringPool c (s :: s2 :: rest) ++ 0 :: post).length + 1 := by omega
      rw [ef, ← e1] at hskip
      have e2 : pre ++ stringPool c (s :: s2 :: rest) ++ 0 :: post
          = (pre ++ encodedString c s ++ [0]) ++ x
            :: (xs ++ [0] ++ stringPool c rest ++ 0 :: post) := by
        simp [stringPool, hx]
      have e3 : B + pre.length + (encodedString c s).length + 1
          = B + (pre ++ encodedString c s ++ [0]).length := by simp; omega
      have hnext : readByte B (pre ++ stringPool c (s :: s2 :: rest) ++ 0 :: post)
          (B + pre.length + (encodedString c s).length + 1) = some x := by
        rw [e2, e3, readByte_at]
      have e4 : pre ++ stringPool c (s :: s2 :: rest) ++ 0 :: post
          = (pre ++ encodedString c s ++ [0]) ++ stringPool c (s2 :: rest) ++ 0 :: post := by
        simp [stringPool]
      rw [getStringLoop, hskip]
      simp only [hnext, hx0, if_false]
      rw [e3, e4, ih (s2 :: rest) (pre ++ encodedString c s ++ [0])
        (by simp only [List.length_cons] at hm ⊢; omega) hrest]
      simp [stringPool]
      omega

theorem SmbiosOverrideString_index (c : Constants) (nb : Nat) (t : OC_SMBIOS_TABLE)
    (text : List Nat) (idx : Nat) (hex : Bool)
    (h : (SmbiosOverrideString c nb t (some text) idx hex).Result ≠ 0) :
    (SmbiosOverrideString c nb t (some text) idx hex).Result = (idx + 1) % 256 ∧
      (SmbiosOverrideString c nb t (some text) idx hex).Index = (idx + 1) % 256 := by
  revert h
  unfold SmbiosOverrideString
  simp only
  rcases SmbiosExtendTable c nb t
      (if hex = true then
        (overrideLength c text hex * 2 + SMBIOS_STRING_HEX_PREFIX_SIZE + 1) % 2 ^ 32
      else (overrideLength c text hex + 1) % 2 ^ 32) with ⟨st, T⟩
  cases st <;> cases hex <;> simp [SmbiosSetString, SmbiosSetStringHex]

/-- The indices returned by the string calls of a record: 1, 2, ..., at most
255 of them. -/
theorem buildStrings_indices (c : Constants) :
    ∀ (ss : List StringCall) (t : OC_SMBIOS_TABLE) (idx : Nat) (t' : OC_SMBIOS_TABLE)
      (rs : List Nat), idx < 256 → buildStrings c t idx ss = some (t', rs) →
      rs = List.range' (idx + 1) ss.length ∧ idx + ss.length < 256 := by
  intro ss
  induction ss with
  | nil =>
    intro t idx t' rs hidx hb
    simp only [buildStrings, Option.some.injEq, Prod.mk.injEq] at hb
    simp [← hb.2, hidx]
  | cons s rest ih =>
    intro t idx t' rs hidx hb
    simp only [buildStrings] at hb
    split_ifs at hb with h0
    obtain ⟨hR, hI⟩ := SmbiosOverrideString_index c s.NewBuffer t s.Override idx s.Hex h0
    have hlt : idx + 1 < 256 := by
      by_contra hge
      have : idx + 1 = 256 := by omega
      rw [hR, this] at h0
      simp at h0
    rw [Nat.mod_eq_of_lt hlt] at hR hI
    rcases hrest : buildStrings c
        (SmbiosOverrideString c s.NewBuffer t (some s.Override) idx s.Hex).Table
        (SmbiosOverrideString c s.NewBuffer t (some s.Override) idx s.Hex).Index rest
      with _ | ⟨t2, rs2⟩
    · rw [hrest] at hb; simp at hb
    · rw [hrest] at hb
      simp only [Option.some.injEq, Prod.mk.injEq] at hb
      rw [hI] at hrest
      obtain ⟨h1, h2⟩ := ih _ _ _ _ hlt hrest
      refine ⟨?_, by simp only [List.length_cons]; omega⟩
      rw [← hb.2, hR, h1]
      simp [List.range']

/-- String index round trip, for records whose strings are all non-empty and
free of zero bytes: the `j`-th string call returned `j`, `SmbiosGetString
(record, j)` returns the address of the first byte of the `j`-th string, and
index 0 yields `NULL`. -/
theorem buildRecord_get_string (c : Constants) (hc : c.Sane) (t t' : OC_SMBIOS_TABLE)
    (r : RecordBuild) (rs : List Nat) (ht : BetweenRecords c t)
    (hL4 : 4 ≤ r.MinLength) (hL : r.MinLength < 256)
    (hne : ∀ s ∈ r.Strings, encodedString c s ≠ [] ∧ ∀ b ∈ encodedString c s, b ≠ 0)
    (hb : buildRecord c t r = some (t', rs)) (j : Nat) (hj1 : 1 ≤ j)
    (hjk : j ≤ r.Strings.length) :
    rs.get? (j - 1) = some j ∧
      SmbiosGetString t'.Table t'.Pool (t'.Table + (t.CurrentPtr - t.Table)) j
        = some (t'.Table + (t.CurrentPtr - t.Table) + r.MinLength
            + (stringPool c (r.Strings.take (j - 1))).length) ∧
      SmbiosGetString t'.Table t'.Pool (t'.Table + (t.CurrentPtr - t.Table)) 0 = some 0 := by
  have hrs : rs = List.range' 1 r.Strings.length := by
    unfold buildRecord at hb
    rcases hinit : SmbiosInitialiseStruct c r.NewBuffer t r.SmbiosType r.MinLength r.Index
      with ⟨st, t1⟩
    rw [hinit] at hb
    cases st with
    | EFI_OUT_OF_RESOURCES => simp at hb
    | EFI_INVALID_PARAMETER => simp at hb
    | EFI_SUCCESS =>
      simp only at hb
      rcases hstr : buildStrings c t1 0 r.Strings with _ | ⟨t2, rs2⟩
      · rw [hstr] at hb; simp at hb
      · rw [hstr] at hb
        simp only [Option.some.injEq, Prod.mk.injEq] at hb
        rw [← hb.2]
        exact (buildStrings_indices c r.Strings t1 0 t2 rs2 (by omega) hstr).1
  obtain ⟨hlay, hcur, hlen⟩ := BetweenRecords_layout ht
  generalize t.Pool.take (t.CurrentStrPtr - t.Table) = used at hlay hlen
  obtain ⟨n', hlay', -, -, -, -⟩ := buildRecord_layout hc hlay hcur hL4 hL hb
  obtain ⟨hp, -, -, -, -, -⟩ := hlay'
  have hbl := fixedBody_length r.SmbiosType r.MinLength
    (drawnHandle c r.SmbiosType r.Index t.Handle) hL4
  rw [← hlen]
  have hread : readByte t'.Table t'.Pool (t'.Table + used.length + 1) = some r.MinLength := by
    have e : used ++ recordBytes c r (drawnHandle c r.SmbiosType r.Index t.Handle)
          ++ List.replicate n' 0
        = (used ++ [r.SmbiosType % 256]) ++ (r.MinLength % 256)
          :: ([drawnHandle c r.SmbiosType r.Index t.Handle % 2 ^ 16 % 256,
              drawnHandle c r.SmbiosType r.Index t.Handle % 2 ^ 16 / 256]
            ++ List.replicate (r.MinLength - 4) 0 ++ stringPool c r.Strings
            ++ terminator r.Strings ++ List.replicate n' 0) := by
      simp [recordBytes, fixedBody]
    have e2 : t'.Table + used.length + 1 = t'.Table + (used ++ [r.SmbiosType % 256]).length := by
      simp; omega
    rw [hp, e, e2, readByte_at, Nat.mod_eq_of_lt hL]
  have h0 : r.Strings ≠ [] := by
    intro he
    rw [he] at hjk
    simp at hjk
    omega
  refine ⟨?_, ?_, ?_⟩
  · rw [hrs, List.get?_eq_getElem?, List.getElem?_range' _ _ (by omega)]
    congr 1
    omega
  · unfold SmbiosGetString
    rw [hread]
    have hj0 : j ≠ 0 := by omega
    simp only [hj0, if_false]
    have haddr : t'.Table + used.length + r.MinLength
        = t'.Table + (used ++ fixedBody r.SmbiosType r.MinLength
            (drawnHandle c r.SmbiosType r.Index t.Handle)).length := by
      simp only [List.length_append, hbl]; omega
    have e : t'.Pool = (used ++ fixedBody r.SmbiosType r.MinLength
          (drawnHandle c r.SmbiosType r.Index t.Handle)) ++ stringPool c r.Strings
          ++ 0 :: List.replicate n' 0 := by
      rw [hp]
      simp [recordBytes, terminator, h0]
    have hloop := getStringLoop_stringPool c t'.Table (List.replicate n' 0) (j - 1) r.Strings
      (used ++ fixedBody r.SmbiosType r.MinLength
        (drawnHandle c r.SmbiosType r.Index t.Handle)) (by omega) hne
    rw [← e] at hloop
    rw [haddr, hloop]
  · unfold SmbiosGetString
    rw [hread]
    simp

/-! ## The scans are bounded by the block -/

theorem readByte_none_of_ge (B : Nat) (P : List Nat) (a : Nat) (h : B + P.length ≤ a) :
    readByte B P a = none := by
  unfold readByte
  split_ifs
  · rw [List.get?_eq_getElem?, List.getElem?_eq_none (by omega)]
  · rfl

/-- More fuel than the block has bytes left does not change the result of the
double-zero scan: the scan ends, with a result or with a read outside the
block, before the fuel of `SmbiosGetTableLength` is used up. -/
theorem scanDoubleZero_fuel (B : Nat) (P : List Nat) :
    ∀ (fuel a : Nat), B + P.length + 1 ≤ a + fuel →
      scanDoubleZero B P (fuel + 1) a = scanDoubleZero B P fuel a := by
  intro fuel
  induction fuel with
  | zero =>
    intro a h
    conv_lhs => rw [scanDoubleZero]
    rw [readByte_none_of_ge B P a (by omega)]
    rfl
  | succ k ih =>
    intro a h
    conv_lhs => rw [scanDoubleZero]
    conv_rhs => rw [scanDoubleZero]
    rw [ih (a + 1) (by omega)]

/-- The same for the inner loop of `SmbiosGetString`. -/
theorem skipToZero_fuel (B : Nat) (P : List Nat) :
    ∀ (fuel a : Nat), B + P.length + 1 ≤ a + fuel →
      skipToZero B P (fuel + 1) a = skipToZero B P fuel a := by
  intro fuel
  induction fuel with
  | zero =>
    intro a h
    conv_lhs => rw [skipToZero]
    rw [readByte_none_of_ge B P a (by omega)]
    rfl
  | succ k ih =>
    intro a h
    conv_lhs => rw [skipToZero]
    conv_rhs => rw [skipToZero]
    rw [ih (a + 1) (by omega)]

/-! ## `MaxStructureSize` (C11) -/

theorem buildSession_max {c : Constants} (hc : c.Sane) :
    ∀ (builds : List RecordBuild) (t : OC_SMBIOS_TABLE) (used : List Nat) (n : Nat)
      (t' : OC_SMBIOS_TABLE) (starts : List Nat),
      Layout c t used n → t.CurrentPtr = t.CurrentStrPtr →
      (∀ r ∈ builds, 4 ≤ r.MinLength ∧ r.MinLength < 256) →
      buildSession c t builds = some (t', starts) →
      t'.MaxStructureSize = max t.MaxStructureSize (sessionMaxLength builds) := by
  intro builds
  induction builds with
  | nil =>
    intro t used n t' starts _ _ _ hb
    simp only [buildSession, Option.some.injEq, Prod.mk.injEq] at hb
    obtain ⟨rfl, -⟩ := hb
    simp [sessionMaxLength]
  | cons r rest ih =>
    intro t used n t' starts hl hcur hL hb
    simp only [buildSession] at hb
    rcases hrec : buildRecord c t r with _ | ⟨t1, rs⟩
    · rw [hrec] at hb; simp at hb
    · rw [hrec] at hb
      simp only at hb
      rcases hrest : buildSession c t1 rest with _ | ⟨t2, starts2⟩
      · rw [hrest] at hb; simp at hb
      · rw [hrest] at hb
        simp only [Option.some.injEq, Prod.mk.injEq] at hb
        obtain ⟨rfl, -⟩ := hb
        have hr := hL r (List.mem_cons_self _ _)
        obtain ⟨n1, hl1, hc1, -, hM1, -⟩ := buildRecord_layout hc hl hcur hr.1 hr.2 hrec
        have h2 := ih t1 _ n1 t2 starts2 hl1 hc1
          (fun x hx => hL x (List.mem_cons_of_mem _ hx)) hrest
        rw [h2, hM1]
        simp only [sessionMaxLength, List.map_cons, List.foldr_cons]
        omega

/-- C11 (as stated, refuted): after the single complete record build
`sampleRecord` on the empty table (whose `MaxStructureSize` is 0), the record's
total length, as `SmbiosGetTableLength` computes it, is 17 bytes (8 fixed bytes,
the strings "Apple" and "M" with their terminators, one closing zero), while
`MaxStructureSize` is 8, the fixed length. -/
theorem C11_max_is_not_total_length :
    (emptyTable referenceConstants).MaxStructureSize = 0 ∧
      buildRecord referenceConstants (emptyTable referenceConstants) sampleRecord
        = some sampleBuilt ∧
      SmbiosGetTableLength sampleBuilt.1.Table sampleBuilt.1.Pool sampleBuilt.1.Table
        = some 17 ∧
      sampleBuilt.1.MaxStructureSize = 8 ∧
      ¬ (sampleBuilt.1.MaxStructureSize = 17) := by
  decide!

/-- C11 (amended): after any session of successful record builds with fixed
lengths from 4 to 255, started on a well-formed table between two records whose
`MaxStructureSize` is 0, `MaxStructureSize` is the largest fixed length
(`Hdr->Length`) among the finalised records; string pools and terminators do
not count. -/
theorem C11_max_fixed_length (c : Constants) (hc : c.Sane) (t t' : OC_SMBIOS_TABLE)
    (builds : List RecordBuild) (starts : List Nat) (ht : BetweenRecords c t)
    (h0 : t.MaxStructureSize = 0)
    (hL : ∀ r ∈ builds, 4 ≤ r.MinLength ∧ r.MinLength < 256)
    (hb : buildSession c t builds = some (t', starts)) :
    t'.MaxStructureSize = sessionMaxLength builds := by
  obtain ⟨hlay, hcur, -⟩ := BetweenRecords_layout ht
  have h := buildSession_max hc builds t _ _ t' starts hlay hcur hL hb
  rw [h, h0]
  simp

theorem C11_max_fixed_length_witness :
    (referenceConstants.Sane ∧ BetweenRecords referenceConstants (emptyTable referenceConstants)
      ∧ buildSession referenceConstants (emptyTable referenceConstants) sampleSession
          = some sampleSessionBuilt) ∧
    sampleSessionBuilt.1.MaxStructureSize = sessionMaxLength sampleSession ∧
    sessionMaxLength sampleSession = 6 :=
  ⟨⟨by decide, by decide, by decide!⟩,
    C11_max_fixed_length referenceConstants (by decide) (emptyTable referenceConstants)
      sampleSessionBuilt.1 sampleSession sampleSessionBuilt.2 (by decide) rfl (by decide)
      (by decide!), by decide⟩

/-! ## Cursor rebasing and repeated extension (C16, C17) -/

/-- The two ways `SmbiosExtendTable` succeeds: the request fits and the table
is returned as it is, or the block is reallocated and the cursors are
rebased. -/
theorem SmbiosExtendTable_success {c : Constants} {nb : Nat} {t T : OC_SMBIOS_TABLE}
    {Size : Nat} (hext : SmbiosExtendTable c nb t Size = (.EFI_SUCCESS, T)) :
    ((if t.Table = 0 then 0 else (t.CurrentStrPtr - t.Table) % 2 ^ 32)
        + (Size + 2) % 2 ^ 32) % 2 ^ 32 ≤ c.SMBIOS_TABLE_MAX_LENGTH ∧
      ((((if t.Table = 0 then 0 else (t.CurrentStrPtr - t.Table) % 2 ^ 32)
          + (Size + 2) % 2 ^ 32) % 2 ^ 32 ≤ t.AllocatedTableSize ∧ T = t) ∨
        (t.AllocatedTableSize < ((if t.Table = 0 then 0 else (t.CurrentStrPtr - t.Table) % 2 ^ 32)
          + (Size + 2) % 2 ^ 32) % 2 ^ 32 ∧ nb ≠ 0 ∧ T.Table = nb ∧
          T.CurrentPtr = nb + (t.CurrentPtr - t.Table) ∧
          T.CurrentStrPtr
            = nb + (if t.Table = 0 then 0 else (t.CurrentStrPtr - t.Table) % 2 ^ 32) ∧
          T.AllocatedTableSize
            = min (ALIGN_VALUE (((if t.Table = 0 then 0 else (t.CurrentStrPtr - t.Table) % 2 ^ 32)
                + (Size + 2) % 2 ^ 32) % 2 ^ 32) c.EFI_PAGE_SIZE % 2 ^ 32)
              (ALIGN_VALUE c.SMBIOS_TABLE_MAX_LENGTH c.EFI_PAGE_SIZE))) := by
  unfold SmbiosExtendTable SMBIOS_STRUCTURE_TERMINATOR_SIZE at hext
  simp only at hext
  generalize (if t.Table = 0 then 0 else (t.CurrentStrPtr - t.Table) % 2 ^ 32) = TS at hext ⊢
  generalize (TS + (Size + 2) % 2 ^ 32) % 2 ^ 32 = Rq at hext ⊢
  split_ifs at hext with h1 h2 h3
  · simp at hext
  · simp only [Prod.mk.injEq, true_and] at hext
    exact ⟨by omega, Or.inl ⟨h2, hext.symm⟩⟩
  · unfold ReallocatePool at hext
    split_ifs at hext with h4
    · simp at hext
    · simp only [Prod.mk.injEq, true_and] at hext
      subst hext
      refine ⟨by omega, Or.inr ⟨by omega, h4, rfl, rfl, rfl, ?_⟩⟩
      simp only
      omega
  · unfold ReallocatePool at hext
    split_ifs at hext with h4
    · simp at hext
    · simp only [Prod.mk.injEq, true_and] at hext
      subst hext
      refine ⟨by omega, Or.inr ⟨by omega, h4, rfl, rfl, rfl, ?_⟩⟩
      simp only
      omega

/-- C16: whenever `SmbiosExtendTable` succeeds, in particular when it succeeds
by reallocating the block, the record cursor and the string cursor lie at the
same offsets from the buffer start as before the call.  The table state has
its cursors at or above the buffer start, the string cursor less than 2^32 bytes
above it, and a null string cursor when there is no buffer. -/
theorem C16_cursor_rebasing (c : Constants) (nb : Nat) (t T : OC_SMBIOS_TABLE) (Size : Nat)
    (hcur : t.Table ≤ t.CurrentPtr) (hstr : t.Table ≤ t.CurrentStrPtr)
    (h32 : t.CurrentStrPtr - t.Table < 2 ^ 32) (hnull : t.Table = 0 → t.CurrentStrPtr = 0)
    (hext : SmbiosExtendTable c nb t Size = (.EFI_SUCCESS, T)) :
    T.Table ≤ T.CurrentPtr ∧ T.Table ≤ T.CurrentStrPtr ∧
      T.CurrentPtr - T.Table = t.CurrentPtr - t.Table ∧
      T.CurrentStrPtr - T.Table = t.CurrentStrPtr - t.Table := by
  obtain ⟨-, h | h⟩ := SmbiosExtendTable_success hext
  · obtain ⟨-, rfl⟩ := h
    exact ⟨hcur, hstr, rfl, rfl⟩
  · obtain ⟨-, -, hT, hC, hS, -⟩ := h
    have hTS : (if t.Table = 0 then 0 else (t.CurrentStrPtr - t.Table) % 2 ^ 32)
        = t.CurrentStrPtr - t.Table := by
      split_ifs with h0
      · rw [hnull h0]; simp
      · exact Nat.mod_eq_of_lt h32
    rw [hTS] at hS
    rw [hT, hC, hS]
    omega

theorem C16_cursor_rebasing_witness :
    (sampleBuilt.1.Table ≤ sampleBuilt.1.CurrentPtr ∧
      sampleBuilt.1.Table ≤ sampleBuilt.1.CurrentStrPtr ∧
      sampleBuilt.1.CurrentStrPtr - sampleBuilt.1.Table < 2 ^ 32 ∧
      (sampleBuilt.1.Table = 0 → sampleBuilt.1.CurrentStrPtr = 0) ∧
      SmbiosExtendTable referenceConstants 8192 sampleBuilt.1 5000
        = (.EFI_SUCCESS, grownTable.2) ∧
      sampleBuilt.1.Table = 4096 ∧ grownTable.2.Table = 8192 ∧
      sampleBuilt.1.AllocatedTableSize = 4096 ∧ grownTable.2.AllocatedTableSize = 8192) ∧
    (grownTable.2.Table ≤ grownTable.2.CurrentPtr ∧
      grownTable.2.Table ≤ grownTable.2.CurrentStrPtr ∧
      grownTable.2.CurrentPtr - grownTable.2.Table
        = sampleBuilt.1.CurrentPtr - sampleBuilt.1.Table ∧
      grownTable.2.CurrentStrPtr - grownTable.2.Table
        = sampleBuilt.1.CurrentStrPtr - sampleBuilt.1.Table) :=
  ⟨⟨by decide!, by decide!, by decide!, by decide!, Prod.ext (by decide!) rfl, by decide!,
      by decide!, by decide!, by decide!⟩,
    C16_cursor_rebasing referenceConstants 8192 sampleBuilt.1 grownTable.2 5000
      (by decide!) (by decide!) (by decide!) (by decide!) (Prod.ext (by decide!) rfl)⟩

/-- A request that fits the cap and the allocated block succeeds and returns the
table as it is. -/
theorem SmbiosExtendTable_fits (c : Constants) (nb : Nat) (t : OC_SMBIOS_TABLE) (Size : Nat)
    (hcap : ((if t.Table = 0 then 0 else (t.CurrentStrPtr - t.Table) % 2 ^ 32)
        + (Size + 2) % 2 ^ 32) % 2 ^ 32 ≤ c.SMBIOS_TABLE_MAX_LENGTH)
    (hfit : ((if t.Table = 0 then 0 else (t.CurrentStrPtr - t.Table) % 2 ^ 32)
        + (Size + 2) % 2 ^ 32) % 2 ^ 32 ≤ t.AllocatedTableSize) :
    SmbiosExtendTable c nb t Size = (.EFI_SUCCESS, t) := by
  unfold SmbiosExtendTable SMBIOS_STRUCTURE_TERMINATOR_SIZE
  simp only
  rw [if_neg (by omega), if_pos hfit]

/-- Where the 32-bit sums of the first call do not wrap, a second
`SmbiosExtendTable` with the same or a smaller size succeeds and returns the
table as it is, whatever the allocator would answer. -/
theorem SmbiosExtendTable_idempotent (c : Constants) (hc : c.Sane) (nb1 nb2 : Nat)
    (t T : OC_SMBIOS_TABLE) (S1 S2 : Nat) (hS : S2 ≤ S1)
    (hnw : (if t.Table = 0 then 0 else (t.CurrentStrPtr - t.Table) % 2 ^ 32) + S1 + 2 < 2 ^ 32)
    (hext : SmbiosExtendTable c nb1 t S1 = (.EFI_SUCCESS, T)) :
    SmbiosExtendTable c nb2 T S2 = (.EFI_SUCCESS, T) := by
  obtain ⟨⟨hpage, hpage2⟩, hmax, -, -⟩ := hc
  obtain ⟨hle, h | h⟩ := SmbiosExtendTable_success hext
  · obtain ⟨hfit, rfl⟩ := h
    apply SmbiosExtendTable_fits
    all_goals
      revert hnw hle hfit
      generalize (if T.Table = 0 then 0 else (T.CurrentStrPtr - T.Table) % 2 ^ 32) = TS
      intro hnw hle hfit
      rw [Nat.mod_eq_of_lt (a := S1 + 2) (by omega), Nat.mod_eq_of_lt (by omega)] at hle hfit
      rw [Nat.mod_eq_of_lt (a := S2 + 2) (by omega), Nat.mod_eq_of_lt (by omega)]
      omega
  · obtain ⟨-, hnb, hT, -, hStr, hA⟩ := h
    generalize (if t.Table = 0 then 0 else (t.CurrentStrPtr - t.Table) % 2 ^ 32) = TS
      at hnw hle hStr hA
    rw [Nat.mod_eq_of_lt (a := S1 + 2) (by omega),
      Nat.mod_eq_of_lt (a := TS + (S1 + 2)) (by omega)] at hle hA
    have hA1 := ALIGN_VALUE_ge (TS + (S1 + 2)) c.EFI_PAGE_SIZE hpage
    have hA2 := ALIGN_VALUE_ge c.SMBIOS_TABLE_MAX_LENGTH c.EFI_PAGE_SIZE hpage
    have hA3 := ALIGN_VALUE_lt (TS + (S1 + 2)) c.EFI_PAGE_SIZE hpage
    rw [Nat.mod_eq_of_lt (a := ALIGN_VALUE (TS + (S1 + 2)) c.EFI_PAGE_SIZE) (by omega)] at hA
    have hTS : (if T.Table = 0 then 0 else (T.CurrentStrPtr - T.Table) % 2 ^ 32) = TS := by
      rw [if_neg (by omega), hStr, hT]
      have : nb1 + TS - nb1 = TS := by omega
      rw [this]
      exact Nat.mod_eq_of_lt (by omega)
    apply SmbiosExtendTable_fits
    all_goals
      rw [hTS, Nat.mod_eq_of_lt (a := S2 + 2) (by omega), Nat.mod_eq_of_lt (by omega)]
      omega

/-- C17, evaluated at the failing input.  On the empty table the request
`S1 = 0xFFFFFFFE` succeeds, because `Size += 2` wraps to 0 in 32 bits, and
reserves nothing.  The smaller request `S2 = 70000` that follows then fails
with `EFI_OUT_OF_RESOURCES`, and the smaller request `S2 = 4` succeeds but
allocates a block: `AllocatedTableSize` goes from 0 to 4096 and the cursors move
from NULL into the new block. -/
theorem C17_second_extend_differs :
    SmbiosExtendTable referenceConstants 4096 (emptyTable referenceConstants) 4294967294
        = (.EFI_SUCCESS, emptyTable referenceConstants) ∧
      (70000 ≤ 4294967294 ∧
        SmbiosExtendTable referenceConstants 4096 (emptyTable referenceConstants) 70000
          = (.EFI_OUT_OF_RESOURCES, emptyTable referenceConstants)) ∧
      (4 ≤ 4294967294 ∧
        (SmbiosExtendTable referenceConstants 4096 (emptyTable referenceConstants) 4).1
          = .EFI_SUCCESS ∧
        (emptyTable referenceConstants).AllocatedTableSize = 0 ∧
        (SmbiosExtendTable referenceConstants 4096 (emptyTable referenceConstants)
          4).2.AllocatedTableSize = 4096 ∧
        (emptyTable referenceConstants).CurrentStrPtr = 0 ∧
        (SmbiosExtendTable referenceConstants 4096 (emptyTable referenceConstants)
          4).2.CurrentStrPtr = 4096) := by
  decide!

/-! ## The record-length primitive (C19) -/

theorem readByte_some_below {B : Nat} {P : List Nat} {a b x : Nat} (hB : B ≤ a) (hab : a ≤ b)
    (hb : readByte B P b = some x) : ∃ y, readByte B P a = some y := by
  unfold readByte at hb ⊢
  rw [if_pos (by omega)] at hb
  rw [if_pos hB]
  rw [List.get?_eq_getElem?] at hb ⊢
  have hlt : b - B < P.length := by
    by_contra hcon
    rw [List.getElem?_eq_none (by omega)] at hb
    simp at hb
  have hlt2 : a - B < P.length := by omega
  exact ⟨P[a - B], List.getElem?_eq_getElem hlt2⟩

theorem readByte_some_lt {B : Nat} {P : List Nat} {b x : Nat}
    (hb : readByte B P b = some x) : B ≤ b ∧ b - B < P.length := by
  unfold readByte at hb
  split_ifs at hb with h
  rw [List.get?_eq_getElem?] at hb
  refine ⟨h, ?_⟩
  by_contra hcon
  rw [List.getElem?_eq_none (by omega)] at hb
  simp at hb

/-- The scan of `SmbiosGetTableLength` stops at the first address at or after
its start where two zero bytes follow each other. -/
theorem scanDoubleZero_least (B : Nat) (P : List Nat) :
    ∀ (d a fuel : Nat), B ≤ a →
      readByte B P (a + d) = some 0 → readByte B P (a + d + 1) = some 0 →
      (∀ r, a ≤ r → r < a + d →
        ¬ (readByte B P r = some 0 ∧ readByte B P (r + 1) = some 0)) →
      d < fuel → scanDoubleZero B P fuel a = some (a + d) := by
  intro d
  induction d with
  | zero =>
    intro a fuel _ h0 h1 _ hf
    obtain ⟨k, rfl⟩ : ∃ k, fuel = k + 1 := ⟨fuel - 1, by omega⟩
    rw [scanDoubleZero]
    simp only [Nat.add_zero] at h0 h1
    simp [h0, h1]
  | succ d ih =>
    intro a fuel hB h0 h1 hleast hf
    obtain ⟨k, rfl⟩ : ∃ k, fuel = k + 1 := ⟨fuel - 1, by omega⟩
    have e : a + 1 + d = a + (d + 1) := by omega
    have hrec : scanDoubleZero B P k (a + 1) = some (a + (d + 1)) := by
      rw [← e]
      apply ih (a + 1) k (by omega)
      · rw [e]; exact h0
      · rw [e]; exact h1
      · intro r hr1 hr2
        exact hleast r (by omega) (by omega)
      · omega
    obtain ⟨y, hy⟩ := readByte_some_below hB (by omega : a ≤ a + (d + 1)) h0
    obtain ⟨z, hz⟩ := readByte_some_below (by omega : B ≤ a + 1)
      (by omega : a + 1 ≤ a + (d + 1)) h0
    rw [scanDoubleZero, hy]
    simp only
    by_cases hy0 : y = 0
    · subst hy0
      simp only [ne_eq, not_true_eq_false, if_false, hz]
      by_cases hz0 : z = 0
      · subst hz0
        exact absurd ⟨hy, hz⟩ (hleast a (le_refl _) (by omega))
      · simp only [ne_eq, hz0, not_false_eq_true, if_true]
        exact hrec
    · simp only [ne_eq, hy0, not_false_eq_true, if_true]
      exact hrec

/-- C19: in every byte buffer, for a record start `p` inside the buffer whose
header length byte is `L`, if two zero bytes follow each other at some `q` at or
after `p + L`, then `SmbiosGetTableLength` returns `(q0 - p) + 2` for the least
such address `q0`; the result is at least `L + 2` and the two bytes that end the
returned range are zero. -/
theorem C19_table_length_least (Base : Nat) (Pool : List Nat) (p L q : Nat) (hp : Base ≤ p)
    (hL : readByte Base Pool (p + 1) = some L) (hq : p + L ≤ q)
    (h0 : readByte Base Pool q = some 0) (h1 : readByte Base Pool (q + 1) = some 0) :
    ∃ q0, p + L ≤ q0 ∧ q0 ≤ q ∧
      readByte Base Pool q0 = some 0 ∧ readByte Base Pool (q0 + 1) = some 0 ∧
      (∀ r, p + L ≤ r → r < q0 →
        ¬ (readByte Base Pool r = some 0 ∧ readByte Base Pool (r + 1) = some 0)) ∧
      SmbiosGetTableLength Base Pool p = some (q0 - p + 2) ∧
      L + 2 ≤ q0 - p + 2 ∧
      readByte Base Pool (p + (q0 - p + 2) - 2) = some 0 ∧
      readByte Base Pool (p + (q0 - p + 2) - 1) = some 0 := by
  have hex : ∃ r, p + L ≤ r ∧ readByte Base Pool r = some 0
      ∧ readByte Base Pool (r + 1) = some 0 := ⟨q, hq, h0, h1⟩
  have hspec := Nat.find_spec hex
  have hmin : ∀ r, r < Nat.find hex → ¬ (p + L ≤ r ∧ readByte Base Pool r = some 0
      ∧ readByte Base Pool (r + 1) = some 0) := fun r hr => Nat.find_min hex hr
  have hle : Nat.find hex ≤ q := Nat.find_min' hex ⟨hq, h0, h1⟩
  generalize Nat.find hex = q0 at hspec hmin hle
  obtain ⟨hq0, hz0, hz1⟩ := hspec
  have hin := (readByte_some_lt hz1).2
  have hscan : scanDoubleZero Base Pool (Pool.length + 1) (p + L) = some q0 := by
    have e : p + L + (q0 - (p + L)) = q0 := by omega
    have := scanDoubleZero_least Base Pool (q0 - (p + L)) (p + L) (Pool.length + 1)
      (by omega) (by rw [e]; exact hz0) (by rw [e]; exact hz1)
      (fun r hr1 hr2 hcon => hmin r (by omega) ⟨hr1, hcon.1, hcon.2⟩) (by omega)
    rw [this, e]
  have e1 : p + (q0 - p + 2) - 2 = q0 := by omega
  have e2 : p + (q0 - p + 2) - 1 = q0 + 1 := by omega
  refine ⟨q0, hq0, hle, hz0, hz1, fun r hr1 hr2 hcon => hmin r hr2 ⟨hr1, hcon.1, hcon.2⟩,
    ?_, by omega, by rw [e1]; exact hz0, by rw [e2]; exact hz1⟩
  unfold SmbiosGetTableLength
  rw [hL]
  simp only
  rw [hscan]

theorem C19_table_length_least_witness :
    (100 ≤ 100 ∧ readByte 100 lengthSample (100 + 1) = some 4 ∧ 100 + 4 ≤ 106 ∧
      readByte 100 lengthSample 106 = some 0 ∧ readByte 100 lengthSample (106 + 1) = some 0) ∧
    (∃ q0, 100 + 4 ≤ q0 ∧ q0 ≤ 106 ∧
      readByte 100 lengthSample q0 = some 0 ∧ readByte 100 lengthSample (q0 + 1) = some 0 ∧
      (∀ r, 100 + 4 ≤ r → r < q0 →
        ¬ (readByte 100 lengthSample r = some 0 ∧ readByte 100 lengthSample (r + 1) = some 0)) ∧
      SmbiosGetTableLength 100 lengthSample 100 = some (q0 - 100 + 2) ∧
      4 + 2 ≤ q0 - 100 + 2 ∧
      readByte 100 lengthSample (100 + (q0 - 100 + 2) - 2) = some 0 ∧
      readByte 100 lengthSample (100 + (q0 - 100 + 2) - 1) = some 0) ∧
    SmbiosGetTableLength 100 lengthSample 100 = some 7 :=
  ⟨by decide,
    C19_table_length_least 100 lengthSample 100 4 106 (by decide) (by decide) (by decide)
      (by decide) (by decide), by decide⟩

/-! ## The table walkers on a well-formed serialized table -/

/-- The scan of `SmbiosGetTableLength` over a pool of non-empty strings
without zero bytes stops at the terminator of the last string. -/
theorem scanDoubleZero_poolBytes (B : Nat) (post : List Nat) :
    ∀ (ss : List (List Nat)) (pre : List Nat) (fuel : Nat), ss ≠ [] →
      (∀ s ∈ ss, s ≠ [] ∧ ∀ b ∈ s, b ≠ 0) →
      scanDoubleZero B (pre ++ poolBytes ss ++ 0 :: post)
          (fuel + (poolBytes ss).length) (B + pre.length)
        = some (B + pre.length + (poolBytes ss).length - 1) := by
  intro ss
  induction ss with
  | nil => intro _ _ h; exact absurd rfl h
  | cons s rest ih =>
    intro pre fuel _ hs
    obtain ⟨hne, hnz⟩ := hs s (List.mem_cons_self _ _)
    have hrest : ∀ x ∈ rest, x ≠ [] ∧ ∀ b ∈ x, b ≠ 0 :=
      fun x hx => hs x (List.mem_cons_of_mem _ hx)
    have e1 : pre ++ poolBytes (s :: rest) ++ 0 :: post
        = pre ++ s ++ (0 :: (poolBytes rest ++ 0 :: post)) := by
      simp [poolBytes]
    have e2 : fuel + (poolBytes (s :: rest)).length
        = (fuel + (poolBytes rest).length + 1) + s.length := by
      simp [poolBytes]; omega
    rw [e1, e2, scanDoubleZero_skip B _ _ pre _ hnz]
    have e3 : pre ++ s ++ (0 :: (poolBytes rest ++ 0 :: post))
        = (pre ++ s) ++ 0 :: (poolBytes rest ++ 0 :: post) := by simp
    have e4 : B + pre.length + s.length = B + (pre ++ s).length := by simp; omega
    rw [e3, e4]
    cases rest with
    | nil =>
      simp only [poolBytes, List.map_nil, List.flatten_nil, List.nil_append, List.length_nil,
        Nat.add_zero]
      rw [scanDoubleZero_found]
      simp
      omega
    | cons s2 rest2 =>
      obtain ⟨hne2, hnz2⟩ := hrest s2 (List.mem_cons_self _ _)
      obtain ⟨x, xs, hx⟩ := List.exists_cons_of_ne_nil hne2
      have hx0 : x ≠ 0 := hnz2 x (by rw [hx]; exact List.mem_cons_self _ _)
      have e5 : poolBytes (s2 :: rest2) ++ 0 :: post
          = x :: (xs ++ [0] ++ poolBytes rest2 ++ 0 :: post) := by
        simp [poolBytes, hx]
      have e6 : (pre ++ s) ++ 0 :: x :: (xs ++ [0] ++ poolBytes rest2 ++ 0 :: post)
          = (pre ++ s ++ [0]) ++ poolBytes (s2 :: rest2) ++ 0 :: post := by
        simp [poolBytes, hx]
      have e7 : B + (pre ++ s).length + 1 = B + (pre ++ s ++ [0]).length := by simp; omega
      rw [e5, scanDoubleZero_single _ _ _ _ _ hx0, e6, e7,
        ih (pre ++ s ++ [0]) fuel (by simp) hrest]
      simp [poolBytes]
      omega

theorem SmbiosRecord.bytes_length (r : SmbiosRecord) :
    r.bytes.length
      = 4 + r.Body.length + (poolBytes r.Strings).length + (if r.Strings = [] then 2 else 1) := by
  unfold SmbiosRecord.bytes
  split_ifs <;> simp <;> omega

theorem poolBytes_eq_nil (ss : List (List Nat)) : poolBytes ss = [] ↔ ss = [] := by
  cases ss with
  | nil => simp [poolBytes]
  | cons s rest => simp [poolBytes]

/-- Header reads of a serialized record inside a block. -/
theorem readByte_record_type (B : Nat) (pre post : List Nat) (r : SmbiosRecord) :
    readByte B (pre ++ r.bytes ++ post) (B + pre.length) = some r.SmbiosType := by
  have e : pre ++ r.bytes ++ post
      = pre ++ r.SmbiosType :: ([4 + r.Body.length, r.Handle % 256, r.Handle / 256] ++ r.Body
        ++ poolBytes r.Strings ++ (if r.Strings = [] then [0, 0] else [0]) ++ post) := by
    simp [SmbiosRecord.bytes]
  rw [e, readByte_at]

theorem readByte_record_length (B : Nat) (pre post : List Nat) (r : SmbiosRecord) :
    readByte B (pre ++ r.bytes ++ post) (B + pre.length + 1) = some (4 + r.Body.length) := by
  have e : pre ++ r.bytes ++ post
      = (pre ++ [r.SmbiosType]) ++ (4 + r.Body.length) :: ([r.Handle % 256, r.Handle / 256]
        ++ r.Body ++ poolBytes r.Strings ++ (if r.Strings = [] then [0, 0] else [0]) ++ post) := by
    simp [SmbiosRecord.bytes]
  have e2 : B + pre.length + 1 = B + (pre ++ [r.SmbiosType]).length := by simp; omega
  rw [e, e2, readByte_at]

theorem readHandle_record (B : Nat) (pre post : List Nat) (r : SmbiosRecord) :
    readHandle B (pre ++ r.bytes ++ post) (B + pre.length) = some r.Handle := by
  have e : pre ++ r.bytes ++ post
      = (pre ++ [r.SmbiosType, 4 + r.Body.length]) ++ (r.Handle % 256) :: ([r.Handle / 256]
        ++ r.Body ++ poolBytes r.Strings ++ (if r.Strings = [] then [0, 0] else [0]) ++ post) := by
    simp [SmbiosRecord.bytes]
  have e2 : B + pre.length + 2 = B + (pre ++ [r.SmbiosType, 4 + r.Body.length]).length := by
    simp; omega
  have e3 : pre ++ r.bytes ++ post
      = (pre ++ [r.SmbiosType, 4 + r.Body.length, r.Handle % 256]) ++ (r.Handle / 256) :: (
        r.Body ++ poolBytes r.Strings ++ (if r.Strings = [] then [0, 0] else [0]) ++ post) := by
    simp [SmbiosRecord.bytes]
  have e4 : B + pre.length + 3
      = B + (pre ++ [r.SmbiosType, 4 + r.Body.length, r.Handle % 256]).length := by
    simp; omega
  have h2 : readByte B (pre ++ r.bytes ++ post) (B + pre.length + 2) = some (r.Handle % 256) := by
    rw [e, e2, readByte_at]
  have h3 : readByte B (pre ++ r.bytes ++ post) (B + pre.length + 3) = some (r.Handle / 256) := by
    rw [e3, e4, readByte_at]
  unfold readHandle
  rw [h2, h3]
  simp only [Option.some.injEq]
  omega

/-- On a well-formed record inside a block `SmbiosGetTableLength` returns the
number of bytes of the record. -/
theorem SmbiosGetTableLength_record (B : Nat) (pre post : List Nat) (r : SmbiosRecord)
    (hr : r.WellFormed) :
    SmbiosGetTableLength B (pre ++ r.bytes ++ post) (B + pre.length)
      = some r.bytes.length := by
  obtain ⟨-, -, -, -, hstr⟩ := hr
  have hne : ∀ s ∈ r.Strings, s ≠ [] ∧ ∀ b ∈ s, b ≠ 0 := fun s hs =>
    ⟨(hstr s hs).1, fun b hb => by have := ((hstr s hs).2 b hb).1; omega⟩
  unfold SmbiosGetTableLength
  rw [readByte_record_length]
  simp only
  have haddr : B + pre.length + (4 + r.Body.length)
      = B + (pre ++ [r.SmbiosType, 4 + r.Body.length, r.Handle % 256, r.Handle / 256]
          ++ r.Body).length := by
    simp; omega
  rw [haddr, SmbiosRecord.bytes_length]
  by_cases h0 : r.Strings = []
  · have e : pre ++ r.bytes ++ post
        = (pre ++ [r.SmbiosType, 4 + r.Body.length, r.Handle % 256, r.Handle / 256] ++ r.Body)
          ++ 0 :: 0 :: post := by
      simp [SmbiosRecord.bytes, h0, poolBytes]
    rw [e, scanDoubleZero_found]
    simp [h0, poolBytes]
    omega
  · have e : pre ++ r.bytes ++ post
        = (pre ++ [r.SmbiosType, 4 + r.Body.length, r.Handle % 256, r.Handle / 256] ++ r.Body)
          ++ poolBytes r.Strings ++ 0 :: post := by
      simp [SmbiosRecord.bytes, h0]
    have hpos : 0 < (poolBytes r.Strings).length :=
      List.length_pos.mpr (fun he => h0 ((poolBytes_eq_nil r.Strings).mp he))
    have hpl : (poolBytes r.Strings).length ≤ (pre ++ r.bytes ++ post).length := by
      rw [e]; simp only [List.length_append]; omega
    have hscan := scanDoubleZero_poolBytes B post r.Strings
      (pre ++ [r.SmbiosType, 4 + r.Body.length, r.Handle % 256, r.Handle / 256] ++ r.Body)
      ((pre ++ r.bytes ++ post).length + 1 - (poolBytes r.Strings).length) h0 hne
    rw [← e] at hscan
    have ef : (pre ++ r.bytes ++ post).length + 1 - (poolBytes r.Strings).length
        + (poolBytes r.Strings).length = (pre ++ r.bytes ++ post).length + 1 := by omega
    rw [ef] at hscan
    rw [hscan]
    simp only [h0, if_false, List.length_append, Option.some.injEq]
    simp
    omega

theorem tableBytes_cons (r : SmbiosRecord) (rs : List SmbiosRecord) :
    tableBytes (r :: rs) = r.bytes ++ tableBytes rs := by
  simp [tableBytes]

theorem tableBytes_single (e : SmbiosRecord) : tableBytes [e] = e.bytes := by
  simp [tableBytes]

theorem tableBytes_length_ge (rs : List SmbiosRecord) : rs.length ≤ (tableBytes rs).length := by
  induction rs with
  | nil => simp
  | cons r rs ih =>
    rw [tableBytes_cons, List.length_append, SmbiosRecord.bytes_length, List.length_cons]
    omega

/-- The loop of `SmbiosGetTableFromType` on a well-formed table, from a record
boundary on: with the counter at `i`, it returns the start of the record of
type `T` that is number `n - i` (from 0) among those still ahead, the
end-of-table record included, or NULL. -/
theorem getTableFromTypeLoop_spec (c : Constants) (B S T n : Nat) (hn : n < 2 ^ 16) :
    ∀ (rs : List SmbiosRecord) (e : SmbiosRecord) (pre post : List Nat) (i fuel : Nat),
      WellFormedTable c rs e → i ≤ n → rs.length < fuel →
      getTableFromTypeLoop c B (pre ++ tableBytes (rs ++ [e]) ++ post) S T n fuel
          (B + pre.length) i
        = some ((typedStarts T (B + pre.length) (rs ++ [e])).getD (n - i) 0) := by
  intro rs
  induction rs with
  | nil =>
    intro e pre post i fuel hwf hi hf
    obtain ⟨k, rfl⟩ : ∃ k, fuel = k + 1 := ⟨fuel - 1, by simp at hf; omega⟩
    obtain ⟨-, -, hend⟩ := hwf
    simp only [List.nil_append, tableBytes_single]
    rw [getTableFromTypeLoop, readByte_record_type]
    simp only
    by_cases hT : e.SmbiosType = T
    · by_cases hin : i = n
      · subst hin
        rw [if_neg (by simp [hT])]
        simp [typedStarts, hT]
      · obtain ⟨m, hm⟩ : ∃ m, n - i = m + 1 := ⟨n - i - 1, by omega⟩
        rw [if_pos (Or.inl hin), if_pos hend, hm]
        simp [typedStarts, hT]
    · rw [if_pos (Or.inr hT), if_pos hend]
      simp [typedStarts, hT]
  | cons r rs ih =>
    intro e pre post i fuel hwf hi hf
    obtain ⟨k, rfl⟩ : ∃ k, fuel = k + 1 := ⟨fuel - 1, by simp at hf; omega⟩
    obtain ⟨hrs, hewf, hend⟩ := hwf
    obtain ⟨hrwf, hrne⟩ := hrs r (List.mem_cons_self _ _)
    have hwf2 : WellFormedTable c rs e :=
      ⟨fun x hx => hrs x (List.mem_cons_of_mem _ hx), hewf, hend⟩
    have epool : pre ++ tableBytes (r :: rs ++ [e]) ++ post
        = pre ++ r.bytes ++ (tableBytes (rs ++ [e]) ++ post) := by
      simp [tableBytes]
    have epool2 : pre ++ r.bytes ++ (tableBytes (rs ++ [e]) ++ post)
        = (pre ++ r.bytes) ++ tableBytes (rs ++ [e]) ++ post := by
      simp
    have eaddr : B + pre.length + r.bytes.length = B + (pre ++ r.bytes).length := by
      simp; omega
    have hrec := fun j (hj : j ≤ n) =>
      ih e (pre ++ r.bytes) post j k hwf2 hj (by simpa using hf)
    rw [epool, getTableFromTypeLoop, readByte_record_type, SmbiosGetTableLength_record _ _ _ _ hrwf]
    simp only
    have hb : ¬ (B + pre.length + r.bytes.length > B + pre.length + r.bytes.length + S) := by
      omega
    by_cases hT : r.SmbiosType = T
    · by_cases hin : i = n
      · subst hin
        rw [if_neg (by simp [hT])]
        simp [typedStarts, hT]
      · obtain ⟨m, hm⟩ : ∃ m, n - i = m + 1 := ⟨n - i - 1, by omega⟩
        have hm2 : n - (i + 1) = m := by omega
        have hmod : (i + 1) % 2 ^ 16 = i + 1 := Nat.mod_eq_of_lt (by omega)
        rw [if_pos (Or.inl hin), if_neg hrne, if_neg hb, if_pos hT, hmod, epool2, eaddr,
          hrec (i + 1) (by omega), hm, hm2]
        simp [typedStarts, hT, Nat.add_assoc]
    · rw [if_pos (Or.inr hT), if_neg hrne, if_neg hb, if_neg hT, epool2, eaddr, hrec i hi]
      simp [typedStarts, hT, Nat.add_assoc]

/-- The loop of `SmbiosGetTableCount` on a well-formed table, from a record
boundary on: the counter grows, in 16 bits, by the number of records of type
`T` ahead of the end-of-table record. -/
theorem getTableCountLoop_spec (c : Constants) (B S T : Nat) :
    ∀ (rs : List SmbiosRecord) (e : SmbiosRecord) (pre post : List Nat) (i fuel : Nat),
      WellFormedTable c rs e → i < 2 ^ 16 → rs.length < fuel →
      getTableCountLoop c B (pre ++ tableBytes (rs ++ [e]) ++ post) S T fuel (B + pre.length) i
        = some ((i + countOfType T rs) % 2 ^ 16) := by
  intro rs
  induction rs with
  | nil =>
    intro e pre post i fuel hwf hi hf
    obtain ⟨k, rfl⟩ : ∃ k, fuel = k + 1 := ⟨fuel - 1, by simp at hf; omega⟩
    obtain ⟨-, -, hend⟩ := hwf
    simp only [List.nil_append, tableBytes_single]
    rw [getTableCountLoop, readByte_record_type]
    simp only
    rw [if_neg (by simp [hend])]
    simp only [countOfType, List.filter_nil, List.length_nil, Nat.add_zero]
    rw [Nat.mod_eq_of_lt hi]
  | cons r rs ih =>
    intro e pre post i fuel hwf hi hf
    obtain ⟨k, rfl⟩ : ∃ k, fuel = k + 1 := ⟨fuel - 1, by simp at hf; omega⟩
    obtain ⟨hrs, hewf, hend⟩ := hwf
    obtain ⟨hrwf, hrne⟩ := hrs r (List.mem_cons_self _ _)
    have hwf2 : WellFormedTable c rs e :=
      ⟨fun x hx => hrs x (List.mem_cons_of_mem _ hx), hewf, hend⟩
    have epool : pre ++ tableBytes (r :: rs ++ [e]) ++ post
        = pre ++ r.bytes ++ (tableBytes (rs ++ [e]) ++ post) := by
      simp [tableBytes]
    have epool2 : pre ++ r.bytes ++ (tableBytes (rs ++ [e]) ++ post)
        = (pre ++ r.bytes) ++ tableBytes (rs ++ [e]) ++ post := by
      simp
    have eaddr : B + pre.length + r.bytes.length = B + (pre ++ r.bytes).length := by
      simp; omega
    have hk : rs.length < k := by simpa using hf
    have hrec := fun j hj => ih e (pre ++ r.bytes) post j k hwf2 hj hk
    have hb : ¬ (B + pre.length + r.bytes.length > B + pre.length + r.bytes.length + S) := by
      omega
    rw [epool, getTableCountLoop, readByte_record_type, SmbiosGetTableLength_record _ _ _ _ hrwf]
    simp only
    rw [if_pos hrne, if_neg hb, epool2, eaddr]
    by_cases hT : r.SmbiosType = T
    · have hcnt : countOfType T (r :: rs) = countOfType T rs + 1 := by
        simp [countOfType, hT]
      rw [if_pos hT, hrec _ (Nat.mod_lt _ (by norm_num)), hcnt, Nat.mod_add_mod]
      congr 2
      omega
    · have hcnt : countOfType T (r :: rs) = countOfType T rs := by
        simp [countOfType, hT]
      rw [if_neg hT, hrec _ hi, hcnt]

/-- The loop of `SmbiosGetTableFromHandle` on a well-formed table, from a
record boundary on. -/
theorem getTableFromHandleLoop_spec (c : Constants) (B : Nat) (Smbios : SMBIOS_TABLE_ENTRY_POINT)
    (h : Nat) :
    ∀ (rs : List SmbiosRecord) (e : SmbiosRecord) (pre post : List Nat) (fuel : Nat),
      WellFormedTable c rs e → rs.length < fuel →
      getTableFromHandleLoop c B (pre ++ tableBytes (rs ++ [e]) ++ post) Smbios h fuel
          (B + pre.length)
        = some (handleStartWithin h ((Smbios.TableAddress + Smbios.TableLength) % 2 ^ 32)
            (B + pre.length) (rs ++ [e])) := by
  intro rs
  induction rs with
  | nil =>
    intro e pre post fuel hwf hf
    obtain ⟨k, rfl⟩ : ∃ k, fuel = k + 1 := ⟨fuel - 1, by simp at hf; omega⟩
    obtain ⟨-, -, hend⟩ := hwf
    simp only [List.nil_append, tableBytes_single]
    rw [getTableFromHandleLoop, readHandle_record]
    simp only
    by_cases hh : e.Handle = h
    · rw [if_neg (by simp [hh])]
      simp [handleStartWithin, hh]
    · rw [if_pos hh, readByte_record_type]
      simp only
      rw [if_pos hend]
      simp [handleStartWithin, hh]
  | cons r rs ih =>
    intro e pre post fuel hwf hf
    obtain ⟨k, rfl⟩ : ∃ k, fuel = k + 1 := ⟨fuel - 1, by simp at hf; omega⟩
    obtain ⟨hrs, hewf, hend⟩ := hwf
    obtain ⟨hrwf, hrne⟩ := hrs r (List.mem_cons_self _ _)
    have hwf2 : WellFormedTable c rs e :=
      ⟨fun x hx => hrs x (List.mem_cons_of_mem _ hx), hewf, hend⟩
    have epool : pre ++ tableBytes (r :: rs ++ [e]) ++ post
        = pre ++ r.bytes ++ (tableBytes (rs ++ [e]) ++ post) := by
      simp [tableBytes]
    have epool2 : pre ++ r.bytes ++ (tableBytes (rs ++ [e]) ++ post)
        = (pre ++ r.bytes) ++ tableBytes (rs ++ [e]) ++ post := by
      simp
    have eaddr : B + pre.length + r.bytes.length = B + (pre ++ r.bytes).length := by
      simp; omega
    have hrec := ih e (pre ++ r.bytes) post k hwf2 (by simpa using hf)
    rw [epool, getTableFromHandleLoop, readHandle_record]
    simp only
    by_cases hh : r.Handle = h
    · rw [if_neg (by simp [hh])]
      simp [handleStartWithin, hh]
    · rw [if_pos hh, readByte_record_type, SmbiosGetTableLength_record _ _ _ _ hrwf]
      simp only
      rw [if_neg hrne]
      simp only [List.cons_append, handleStartWithin, if_neg hh]
      by_cases hb : B + pre.length + r.bytes.length
          > (Smbios.TableAddress + Smbios.TableLength) % 2 ^ 32
      · rw [if_pos hb, if_pos hb]
      · rw [if_neg hb, if_neg hb, epool2, eaddr, hrec]
        rfl

/-- With a bound at or above the end of the table the bounded scan for a
handle is the plain scan. -/
theorem handleStartWithin_eq (h Bound : Nat) :
    ∀ (rs : List SmbiosRecord) (Start : Nat), Start + (tableBytes rs).length ≤ Bound →
      handleStartWithin h Bound Start rs = handleStart h Start rs := by
  intro rs
  induction rs with
  | nil => intro _ _; rfl
  | cons r rs ih =>
    intro Start hle
    rw [tableBytes_cons, List.length_append] at hle
    simp only [handleStartWithin, handleStart]
    split_ifs with h1 h2
    · rfl
    · omega
    · exact ih _ (by omega)

theorem handleStart_of_mem (h : Nat) :
    ∀ (rs : List SmbiosRecord) (Start : Nat), 0 < Start → (∃ r ∈ rs, r.Handle = h) →
      handleStart h Start rs ∈ recordStarts Start rs ∧ handleStart h Start rs ≠ 0 := by
  intro rs
  induction rs with
  | nil => intro _ _ hex; simp at hex
  | cons r rs ih =>
    intro Start hS hex
    simp only [handleStart, recordStarts]
    split_ifs with h1
    · exact ⟨List.mem_cons_self _ _, by omega⟩
    · obtain ⟨x, hx, hxh⟩ := hex
      rcases List.mem_cons.mp hx with rfl | hx
      · exact absurd hxh h1
      · obtain ⟨hm, hne⟩ := ih (Start + r.bytes.length) (by omega) ⟨x, hx, hxh⟩
        exact ⟨List.mem_cons_of_mem _ hm, hne⟩

theorem handleStart_of_not_mem (h : Nat) :
    ∀ (rs : List SmbiosRecord) (Start : Nat), (∀ r ∈ rs, r.Handle ≠ h) →
      handleStart h Start rs = 0 := by
  intro rs
  induction rs with
  | nil => intro _ _; rfl
  | cons r rs ih =>
    intro Start hall
    simp only [handleStart]
    rw [if_neg (hall r (List.mem_cons_self _ _))]
    exact ih _ (fun x hx => hall x (List.mem_cons_of_mem _ hx))

theorem typedStarts_pos (T : Nat) :
    ∀ (rs : List SmbiosRecord) (Start : Nat), 0 < Start → ∀ a ∈ typedStarts T Start rs, a ≠ 0 := by
  intro rs
  induction rs with
  | nil => intro _ _ a ha; simp [typedStarts] at ha
  | cons r rs ih =>
    intro Start hS a ha
    simp only [typedStarts] at ha
    split_ifs at ha with h1
    · rcases List.mem_cons.mp ha with rfl | ha
      · omega
      · exact ih _ (by omega) a ha
    · exact ih _ (by omega) a ha

theorem typedStarts_length (T : Nat) :
    ∀ (rs : List SmbiosRecord) (Start : Nat),
      (typedStarts T Start rs).length = countOfType T rs := by
  intro rs
  induction rs with
  | nil => intro _; rfl
  | cons r rs ih =>
    intro Start
    simp only [typedStarts, countOfType]
    by_cases h1 : r.SmbiosType = T
    · simp only [h1, if_true, List.length_cons, ih, countOfType, decide_True, List.filter_cons_of_pos]
    · simp only [h1, if_false, ih, countOfType, decide_False, Bool.false_eq_true,
        not_false_eq_true, List.filter_cons_of_neg]

theorem countOfType_append (T : Nat) (rs ss : List SmbiosRecord) :
    countOfType T (rs ++ ss) = countOfType T rs + countOfType T ss := by
  simp [countOfType]

/-! ## Find by type and index, count by type, find by handle (C12 to C15, C20) -/

/-- C12: on every well-formed serialized table (well-formed records, then an
end-of-table record) lying anywhere inside a block, at a non-null address, for
every type `T`, every size argument and every index `1 ≤ n < 2^16`,
`SmbiosGetTableFromType` returns the start of the `n`-th record of type `T` in
table order when there are at least `n` of them, a non-null address, and NULL
otherwise.  The result is the same when the block ends with the end-of-table
record, where any read past that record would leave the block: the walker
reads nothing past it. -/
theorem C12_find_by_type (c : Constants) (Base : Nat) (pre post : List Nat)
    (rs : List SmbiosRecord) (e : SmbiosRecord) (S T n : Nat)
    (hwf : WellFormedTable c rs e) (hbase : 0 < Base + pre.length)
    (hn1 : 1 ≤ n) (hn : n < 2 ^ 16) :
    (∀ a, (typedStarts T (Base + pre.length) (rs ++ [e])).get? (n - 1) = some a →
      a ≠ 0 ∧ SmbiosGetTableFromType c Base (pre ++ tableBytes (rs ++ [e]) ++ post)
        (Base + pre.length) S T n = some a) ∧
    ((typedStarts T (Base + pre.length) (rs ++ [e])).length < n →
      SmbiosGetTableFromType c Base (pre ++ tableBytes (rs ++ [e]) ++ post)
        (Base + pre.length) S T n = some 0) ∧
    SmbiosGetTableFromType c Base (pre ++ tableBytes (rs ++ [e])) (Base + pre.length) S T n
      = SmbiosGetTableFromType c Base (pre ++ tableBytes (rs ++ [e]) ++ post)
        (Base + pre.length) S T n := by
  have hfuel : ∀ post2 : List Nat,
      rs.length < (pre ++ tableBytes (rs ++ [e]) ++ post2).length + 1 := by
    intro post2
    have := tableBytes_length_ge (rs ++ [e])
    simp only [List.length_append] at this ⊢
    omega
  have hmain : ∀ post2 : List Nat,
      SmbiosGetTableFromType c Base (pre ++ tableBytes (rs ++ [e]) ++ post2)
        (Base + pre.length) S T n
      = some ((typedStarts T (Base + pre.length) (rs ++ [e])).getD (n - 1) 0) := by
    intro post2
    unfold SmbiosGetTableFromType
    rw [if_neg (by omega)]
    exact getTableFromTypeLoop_spec c Base S T n hn rs e pre post2 1 _ hwf hn1 (hfuel post2)
  refine ⟨?_, ?_, ?_⟩
  · intro a ha
    rw [List.get?_eq_getElem?] at ha
    refine ⟨typedStarts_pos T _ _ hbase a (List.getElem?_mem ha), ?_⟩
    rw [hmain, List.getD_eq_getElem?_getD, ha]
    rfl
  · intro hlt
    rw [hmain, List.getD_eq_getElem?_getD, List.getElem?_eq_none (by omega)]
    rfl
  · have h1 := hmain []
    rw [List.append_nil] at h1
    rw [h1, hmain]

theorem C12_find_by_type_witness :
    (WellFormedTable referenceConstants walkRecords walkEnd ∧ 0 < 1000 + ([] : List Nat).length ∧
      1 ≤ 2 ∧ 2 < 2 ^ 16) ∧
    ((∀ a, (typedStarts 17 (1000 + ([] : List Nat).length) (walkRecords ++ [walkEnd])).get? (2 - 1)
        = some a →
      a ≠ 0 ∧ SmbiosGetTableFromType referenceConstants 1000
        ([] ++ tableBytes (walkRecords ++ [walkEnd]) ++ [])
        (1000 + ([] : List Nat).length) 29 17 2 = some a) ∧
    ((typedStarts 17 (1000 + ([] : List Nat).length) (walkRecords ++ [walkEnd])).length < 2 →
      SmbiosGetTableFromType referenceConstants 1000
        ([] ++ tableBytes (walkRecords ++ [walkEnd]) ++ [])
        (1000 + ([] : List Nat).length) 29 17 2 = some 0) ∧
    SmbiosGetTableFromType referenceConstants 1000 ([] ++ tableBytes (walkRecords ++ [walkEnd]))
        (1000 + ([] : List Nat).length) 29 17 2
      = SmbiosGetTableFromType referenceConstants 1000
        ([] ++ tableBytes (walkRecords ++ [walkEnd]) ++ [])
        (1000 + ([] : List Nat).length) 29 17 2) ∧
    recordStarts 1000 (walkRecords ++ [walkEnd]) = [1000, 1010, 1017, 1023] ∧
    SmbiosGetTableFromType referenceConstants 1000 walkSample 1000 29 17 2 = some 1017 ∧
    SmbiosGetTableFromType referenceConstants 1000 walkSample 1000 29 3 1 = some 0 :=
  ⟨by decide,
    C12_find_by_type referenceConstants 1000 [] [] walkRecords walkEnd 29 17 2 (by decide)
      (by decide) (by decide) (by decide),
    by decide, by decide, by decide⟩

/-- Find by handle where the bound does not wrap: for an entry-point
descriptor whose address is the non-null start of a well-formed serialized
table inside a block and whose address plus length stays below 2^32,
`SmbiosGetTableFromHandle` returns the start of the first record with handle
`h` that the scan reaches before a record ends above address plus length, and
NULL when it reaches none.  When the length covers the table, the result is
the start of the first record in table order, the end-of-table record
included, whose handle is `h`: a non-null record start if there is one, NULL
if there is none. -/
theorem SmbiosGetTableFromHandle_below_4G (c : Constants) (Base : Nat) (pre post : List Nat)
    (rs : List SmbiosRecord) (e : SmbiosRecord) (Smbios : SMBIOS_TABLE_ENTRY_POINT) (h : Nat)
    (hwf : WellFormedTable c rs e) (haddr : Smbios.TableAddress = Base + pre.length)
    (hbase : 0 < Smbios.TableAddress)
    (h32 : Smbios.TableAddress + Smbios.TableLength < 2 ^ 32) :
    SmbiosGetTableFromHandle c Base (pre ++ tableBytes (rs ++ [e]) ++ post) Smbios h
        = some (handleStartWithin h (Smbios.TableAddress + Smbios.TableLength)
            Smbios.TableAddress (rs ++ [e])) ∧
      ((tableBytes (rs ++ [e])).length ≤ Smbios.TableLength →
        SmbiosGetTableFromHandle c Base (pre ++ tableBytes (rs ++ [e]) ++ post) Smbios h
          = some (handleStart h Smbios.TableAddress (rs ++ [e])) ∧
        ((∃ r ∈ rs ++ [e], r.Handle = h) →
          handleStart h Smbios.TableAddress (rs ++ [e])
              ∈ recordStarts Smbios.TableAddress (rs ++ [e]) ∧
            handleStart h Smbios.TableAddress (rs ++ [e]) ≠ 0) ∧
        ((∀ r ∈ rs ++ [e], r.Handle ≠ h) →
          handleStart h Smbios.TableAddress (rs ++ [e]) = 0)) := by
  have hfuel : rs.length < (pre ++ tableBytes (rs ++ [e]) ++ post).length + 1 := by
    have := tableBytes_length_ge (rs ++ [e])
    simp only [List.length_append] at this ⊢
    omega
  have hmain : SmbiosGetTableFromHandle c Base (pre ++ tableBytes (rs ++ [e]) ++ post) Smbios h
      = some (handleStartWithin h (Smbios.TableAddress + Smbios.TableLength)
          Smbios.TableAddress (rs ++ [e])) := by
    unfold SmbiosGetTableFromHandle
    rw [if_neg (by omega), haddr,
      getTableFromHandleLoop_spec c Base Smbios h rs e pre post _ hwf hfuel, haddr,
      Nat.mod_eq_of_lt (by rw [← haddr]; exact h32)]
  refine ⟨hmain, fun hlen => ⟨?_, ?_, ?_⟩⟩
  · rw [hmain, handleStartWithin_eq h _ (rs ++ [e]) _ (by omega)]
  · exact handleStart_of_mem h (rs ++ [e]) _ hbase
  · exact handleStart_of_not_mem h (rs ++ [e]) _

/-- C14, evaluated at the failing input.  The page-sized table is well formed,
4096 bytes long, and lies in the last page below 4 GiB, so its entry point has
`TableAddress + TableLength = 2^32`; its cache record, at offset 3855, has
handle 41.  The bound `Smbios->TableAddress + Smbios->TableLength` is computed
in 32 bits and wraps to 0, the record pointer is above it after the first
step, and `SmbiosGetTableFromHandle` returns NULL for handle 41, and for the
handle of the end-of-table record.  One page lower the same table gives the
cache record. -/
theorem C14_bound_wraps :
    WellFormedTable referenceConstants topRecords topEnd ∧
      topSample = tableBytes (topRecords ++ [topEnd]) ∧
      topSample.length = topEntryPoint.TableLength ∧
      topEntryPoint.TableAddress + topEntryPoint.TableLength = 2 ^ 32 ∧
      handleStart 41 topEntryPoint.TableAddress (topRecords ++ [topEnd])
        = topEntryPoint.TableAddress + 3855 ∧
      readHandle topEntryPoint.TableAddress topSample (topEntryPoint.TableAddress + 3855)
        = some 41 ∧
      SmbiosGetTableFromHandle referenceConstants topEntryPoint.TableAddress topSample
        topEntryPoint 41 = some 0 ∧
      SmbiosGetTableFromHandle referenceConstants topEntryPoint.TableAddress topSample
        topEntryPoint 43 = some 0 ∧
      SmbiosGetTableFromHandle referenceConstants 4294959104 topSample
        ⟨4096, 4294959104⟩ 41 = some (4294959104 + 3855) := by
  decide!

/-- The size argument has no effect on the loop of `SmbiosGetTableFromType`:
its bound check compares the record pointer with itself plus the size. -/
theorem getTableFromTypeLoop_size (c : Constants) (B : Nat) (P : List Nat) (S S2 T n : Nat) :
    ∀ (fuel Raw i : Nat),
      getTableFromTypeLoop c B P S T n fuel Raw i
        = getTableFromTypeLoop c B P S2 T n fuel Raw i := by
  intro fuel
  induction fuel with
  | zero => intro _ _; rfl
  | succ k ih =>
    intro Raw i
    rw [getTableFromTypeLoop, getTableFromTypeLoop]
    cases readByte B P Raw with
    | none => rfl
    | some ty =>
      simp only
      cases SmbiosGetTableLength B P Raw with
      | none => rfl
      | some len =>
        simp only
        rw [if_neg (by omega : ¬ Raw + len > Raw + len + S),
          if_neg (by omega : ¬ Raw + len > Raw + len + S2), ih]

/-- The result of `SmbiosGetTableFromType` is the same for every size
argument. -/
theorem SmbiosGetTableFromType_size (c : Constants) (B : Nat) (P : List Nat)
    (t S S2 T n : Nat) :
    SmbiosGetTableFromType c B P t S T n = SmbiosGetTableFromType c B P t S2 T n := by
  unfold SmbiosGetTableFromType
  rw [getTableFromTypeLoop_size c B P S S2 T n]

/-- C15, evaluated at the failing input.  On the sample table of types 17, 7,
17, 127 at address 1000 with the size bound 8, the first record is 10 bytes
long, so the cursor is at offset 10, above the bound, after one step, before
any cache record (type 7) or the second memory-device record (type 17) or the
end-of-table record has been reached; `SmbiosGetTableFromType` goes on and
returns the record at offset 10 for (7, 1) and the record at offset 17 for
(17, 2), not NULL. -/
theorem C15_size_bound_ignored :
    SmbiosGetTableLength 1000 walkSample 1000 = some 10 ∧ 8 < 10 ∧
      SmbiosGetTableFromType referenceConstants 1000 walkSample 1000 8 7 1 = some 1010 ∧
      SmbiosGetTableFromType referenceConstants 1000 walkSample 1000 8 17 2 = some 1017 ∧
      SmbiosGetTableFromType referenceConstants 1000 walkSample 1000 0 17 2 = some 1017 := by
  decide

/-- C20 (as stated, refuted): on the sample table of types 17, 7, 17, 127
`SmbiosGetTableFromType` with the end-of-table type and index 1 returns the
end-of-table record at address 1023, not NULL, while `SmbiosGetTableCount`
returns 0 for that type, and 1 is not at most 0. -/
theorem C20_end_type_found_not_counted :
    WellFormedTable referenceConstants walkRecords walkEnd ∧
      walkSample = tableBytes (walkRecords ++ [walkEnd]) ∧
      SmbiosGetTableFromType referenceConstants 1000 walkSample 1000 29
        referenceConstants.SMBIOS_TYPE_END_OF_TABLE 1 = some 1023 ∧
      SmbiosGetTableCount referenceConstants 1000 walkSample 1000 29
        referenceConstants.SMBIOS_TYPE_END_OF_TABLE = some 0 ∧
      ¬ ((1023 : Nat) ≠ 0 ↔ 1 ≤ 0) := by
  decide

/-- C20 (amended): on every well-formed serialized table at a non-null address
inside a block, for every type `T` other than the end-of-table type with fewer
than 2^16 records and every index `1 ≤ n < 2^16`, `SmbiosGetTableFromType`
returns a record (not NULL) if and only if `n` is at most the result of
`SmbiosGetTableCount`. -/
theorem C20_find_iff_count (c : Constants) (Base : Nat) (pre post : List Nat)
    (rs : List SmbiosRecord) (e : SmbiosRecord) (S T n : Nat)
    (hwf : WellFormedTable c rs e) (hbase : 0 < Base + pre.length)
    (hT : T ≠ c.SMBIOS_TYPE_END_OF_TABLE) (hcount : countOfType T rs < 2 ^ 16)
    (hn1 : 1 ≤ n) (hn : n < 2 ^ 16) :
    ∃ a k,
      SmbiosGetTableFromType c Base (pre ++ tableBytes (rs ++ [e]) ++ post)
        (Base + pre.length) S T n = some a ∧
      SmbiosGetTableCount c Base (pre ++ tableBytes (rs ++ [e]) ++ post)
        (Base + pre.length) S T = some k ∧
      (a ≠ 0 ↔ n ≤ k) := by
  have hfuel : rs.length < (pre ++ tableBytes (rs ++ [e]) ++ post).length + 1 := by
    have := tableBytes_length_ge (rs ++ [e])
    simp only [List.length_append] at this ⊢
    omega
  have hfind : SmbiosGetTableFromType c Base (pre ++ tableBytes (rs ++ [e]) ++ post)
        (Base + pre.length) S T n
      = some ((typedStarts T (Base + pre.length) (rs ++ [e])).getD (n - 1) 0) := by
    unfold SmbiosGetTableFromType
    rw [if_neg (by omega)]
    exact getTableFromTypeLoop_spec c Base S T n hn rs e pre post 1 _ hwf hn1 hfuel
  have hcnt : SmbiosGetTableCount c Base (pre ++ tableBytes (rs ++ [e]) ++ post)
        (Base + pre.length) S T = some (countOfType T rs) := by
    unfold SmbiosGetTableCount
    rw [if_neg (by omega),
      getTableCountLoop_spec c Base S T rs e pre post 0 _ hwf (by norm_num) hfuel,
      Nat.zero_add, Nat.mod_eq_of_lt hcount]
  have hlen : (typedStarts T (Base + pre.length) (rs ++ [e])).length = countOfType T rs := by
    rw [typedStarts_length, countOfType_append]
    have : countOfType T [e] = 0 := by
      have hne : ¬ e.SmbiosType = T := by rw [hwf.2.2]; exact fun h => hT h.symm
      simp [countOfType, hne]
    omega
  refine ⟨_, _, hfind, hcnt, ?_⟩
  rw [List.getD_eq_getElem?_getD]
  constructor
  · intro ha
    by_contra hlt
    rw [List.getElem?_eq_none (by omega)] at ha
    exact ha rfl
  · intro hle
    have hlt : n - 1 < (typedStarts T (Base + pre.length) (rs ++ [e])).length := by omega
    rw [List.getElem?_eq_getElem hlt]
    exact typedStarts_pos T _ _ hbase _ (List.getElem_mem _)

theorem C20_find_iff_count_witness :
    (WellFormedTable referenceConstants walkRecords walkEnd ∧ 0 < 1000 + ([] : List Nat).length ∧
      17 ≠ referenceConstants.SMBIOS_TYPE_END_OF_TABLE ∧ countOfType 17 walkRecords < 2 ^ 16 ∧
      1 ≤ 2 ∧ 2 < 2 ^ 16) ∧
    (∃ a k,
      SmbiosGetTableFromType referenceConstants 1000
        ([] ++ tableBytes (walkRecords ++ [walkEnd]) ++ [])
        (1000 + ([] : List Nat).length) 29 17 2 = some a ∧
      SmbiosGetTableCount referenceConstants 1000
        ([] ++ tableBytes (walkRecords ++ [walkEnd]) ++ [])
        (1000 + ([] : List Nat).length) 29 17 = some k ∧
      (a ≠ 0 ↔ 2 ≤ k)) ∧
    SmbiosGetTableFromType referenceConstants 1000 walkSample 1000 29 17 3 = some 0 :=
  ⟨by decide,
    C20_find_iff_count referenceConstants 1000 [] [] walkRecords walkEnd 29 17 2 (by decide)
      (by decide) (by decide) (by decide) (by decide) (by decide),
    by decide⟩

/-! ## The walker loops are bounded by the block -/

theorem SmbiosGetTableLength_ge_two {B : Nat} {P : List Nat} {p len : Nat}
    (h : SmbiosGetTableLength B P p = some len) : 2 ≤ len := by
  unfold SmbiosGetTableLength at h
  cases h1 : readByte B P (p + 1) with
  | none => rw [h1] at h; simp at h
  | some L =>
    rw [h1] at h
    simp only at h
    cases h2 : scanDoubleZero B P (P.length + 1) (p + L) with
    | none => rw [h2] at h; simp at h
    | some a =>
      rw [h2] at h
      simp only [Option.some.injEq] at h
      omega

/-- More fuel than the block has bytes left does not change the result of the
loop of `SmbiosGetTableFromType`: every turn moves the record pointer forward
and reads at it, so the loop ends, with a result or with a read outside the
block, before the fuel of `SmbiosGetTableFromType` is used up. -/
theorem getTableFromTypeLoop_fuel (c : Constants) (B : Nat) (P : List Nat) (S T n : Nat) :
    ∀ (fuel Raw i : Nat), B + P.length + 1 ≤ Raw + fuel →
      getTableFromTypeLoop c B P S T n (fuel + 1) Raw i
        = getTableFromTypeLoop c B P S T n fuel Raw i := by
  intro fuel
  induction fuel with
  | zero =>
    intro Raw i h
    conv_lhs => rw [getTableFromTypeLoop]
    rw [readByte_none_of_ge B P Raw (by omega)]
    rfl
  | succ k ih =>
    intro Raw i h
    conv_lhs => rw [getTableFromTypeLoop]
    conv_rhs => rw [getTableFromTypeLoop]
    cases readByte B P Raw with
    | none => rfl
    | some ty =>
      simp only
      rcases hlen : SmbiosGetTableLength B P Raw with _ | len
      · rfl
      · have h2 := SmbiosGetTableLength_ge_two hlen
        simp only
        rw [ih (Raw + len) _ (by omega)]

/-- The same for the loop of `SmbiosGetTableCount`. -/
theorem getTableCountLoop_fuel (c : Constants) (B : Nat) (P : List Nat) (S T : Nat) :
    ∀ (fuel Raw i : Nat), B + P.length + 1 ≤ Raw + fuel →
      getTableCountLoop c B P S T (fuel + 1) Raw i = getTableCountLoop c B P S T fuel Raw i := by
  intro fuel
  induction fuel with
  | zero =>
    intro Raw i h
    conv_lhs => rw [getTableCountLoop]
    rw [readByte_none_of_ge B P Raw (by omega)]
    rfl
  | succ k ih =>
    intro Raw i h
    conv_lhs => rw [getTableCountLoop]
    conv_rhs => rw [getTableCountLoop]
    cases readByte B P Raw with
    | none => rfl
    | some ty =>
      simp only
      rcases hlen : SmbiosGetTableLength B P Raw with _ | len
      · rfl
      · have h2 := SmbiosGetTableLength_ge_two hlen
        simp only
        rw [ih (Raw + len) _ (by omega)]

theorem readHandle_none_of_ge (B : Nat) (P : List Nat) (a : Nat) (h : B + P.length ≤ a) :
    readHandle B P a = none := by
  unfold readHandle
  rw [readByte_none_of_ge B P (a + 2) (by omega)]

/-- The same for the loop of `SmbiosGetTableFromHandle`. -/
theorem getTableFromHandleLoop_fuel (c : Constants) (B : Nat) (P : List Nat)
    (Smbios : SMBIOS_TABLE_ENTRY_POINT) (h : Nat) :
    ∀ (fuel Raw : Nat), B + P.length + 1 ≤ Raw + fuel →
      getTableFromHandleLoop c B P Smbios h (fuel + 1) Raw
        = getTableFromHandleLoop c B P Smbios h fuel Raw := by
  intro fuel
  induction fuel with
  | zero =>
    intro Raw hle
    conv_lhs => rw [getTableFromHandleLoop]
    rw [readHandle_none_of_ge B P Raw (by omega)]
    rfl
  | succ k ih =>
    intro Raw hle
    conv_lhs => rw [getTableFromHandleLoop]
    conv_rhs => rw [getTableFromHandleLoop]
    cases readHandle B P Raw with
    | none => rfl
    | some hd =>
      simp only
      cases readByte B P Raw with
      | none => rfl
      | some ty =>
        simp only
        rcases hlen : SmbiosGetTableLength B P Raw with _ | len
        · rfl
        · have h2 := SmbiosGetTableLength_ge_two hlen
          simp only
          rw [ih (Raw + len) (by omega)]

/-! ## Capacity invariant of a session (C18) -/

theorem writeBytes_length (B : Nat) :
    ∀ (bs : List Nat) (P : List Nat) (p : Nat), (writeBytes B P p bs).length = P.length := by
  intro bs
  induction bs with
  | nil => intro P p; rfl
  | cons b bs ih =>
    intro P p
    rw [writeBytes, ih, writeByte_length]

theorem hexLoop_length (B : Nat) :
    ∀ (n : Nat) (P : List Nat) (T : Nat) (s : List Nat),
      (hexLoop B P T s n).1.length = P.length ∧ (hexLoop B P T s n).2 = T + 2 * n := by
  intro n
  induction n with
  | zero => intro P T s; simp [hexLoop]
  | succ k ih =>
    intro P T s
    rw [hexLoop]
    obtain ⟨h1, h2⟩ := ih
      (writeByte B (writeByte B P T (hexDigits.getD ((s.headD 0 % 256) >>> 4 &&& 15) 0)) (T + 1)
        (hexDigits.getD (s.headD 0 % 256 &&& 15) 0)) (T + 2) s.tail
    rw [h1, h2, writeByte_length, writeByte_length]
    exact ⟨rfl, by omega⟩

theorem SmbiosAssignStructHandle_frame (c : Constants) (t : OC_SMBIOS_TABLE) (ty idx : Nat) :
    (SmbiosAssignStructHandle c t ty idx).2.Table = t.Table ∧
      (SmbiosAssignStructHandle c t ty idx).2.CurrentPtr = t.CurrentPtr ∧
      (SmbiosAssignStructHandle c t ty idx).2.CurrentStrPtr = t.CurrentStrPtr ∧
      (SmbiosAssignStructHandle c t ty idx).2.AllocatedTableSize = t.AllocatedTableSize ∧
      (SmbiosAssignStructHandle c t ty idx).2.Pool.length = t.Pool.length := by
  unfold SmbiosAssignStructHandle
  split_ifs
  all_goals first
    | (simp [setHdrHandle, assignAutomaticHandle, writeByte_length]; done)
    | (cases (singletonCases c).lookup ty <;>
        simp [setHdrHandle, assignAutomaticHandle, writeByte_length])

theorem SmbiosExtendTable_alloc_le {c : Constants} {nb : Nat} {t T : OC_SMBIOS_TABLE}
    {Size : Nat} (hext : SmbiosExtendTable c nb t Size = (.EFI_SUCCESS, T))
    (h : t.AllocatedTableSize ≤ ALIGN_VALUE c.SMBIOS_TABLE_MAX_LENGTH c.EFI_PAGE_SIZE) :
    T.AllocatedTableSize ≤ ALIGN_VALUE c.SMBIOS_TABLE_MAX_LENGTH c.EFI_PAGE_SIZE := by
  obtain ⟨-, h1 | h1⟩ := SmbiosExtendTable_success hext
  · rw [h1.2]; exact h
  · rw [h1.2.2.2.2.2]; exact Nat.min_le_right _ _

/-- `SmbiosInitialiseStruct` on a table between two records: an open record on
success, an unchanged table after `EFI_OUT_OF_RESOURCES`, and after
`EFI_INVALID_PARAMETER` a table between two records whose block has room for
the fixed body and two more bytes at the record cursor. -/
theorem SmbiosInitialiseStruct_capacity {c : Constants} (hc : c.Sane) (nb : Nat)
    (t : OC_SMBIOS_TABLE) (ty L idx : Nat) (hidle : IdleState c t) (hL : L < 256) :
    ((SmbiosInitialiseStruct c nb t ty L idx).1 = .EFI_SUCCESS →
        OpenState c (SmbiosInitialiseStruct c nb t ty L idx).2 L) ∧
      ((SmbiosInitialiseStruct c nb t ty L idx).1 = .EFI_INVALID_PARAMETER →
        IdleState c (SmbiosInitialiseStruct c nb t ty L idx).2 ∧
        (SmbiosInitialiseStruct c nb t ty L idx).2.CurrentPtr
            - (SmbiosInitialiseStruct c nb t ty L idx).2.Table + L + 2
          ≤ (SmbiosInitialiseStruct c nb t ty L idx).2.AllocatedTableSize) ∧
      ((SmbiosInitialiseStruct c nb t ty L idx).1 = .EFI_OUT_OF_RESOURCES →
        (SmbiosInitialiseStruct c nb t ty L idx).2 = t) := by
  rcases hext : SmbiosExtendTable c nb t L with ⟨st, T⟩
  by_cases hst : st = .EFI_SUCCESS
  · subst hst
    obtain ⟨hcp, hsp, hroom, hpl, hmax, -, -, -, -, hT0⟩ :=
      SmbiosExtendTable_valid hc hidle.1 (by omega) hext
    have halloc := SmbiosExtendTable_alloc_le hext hidle.2.2
    obtain ⟨⟨hbase, hle, -, -, -, -⟩, hcur, -⟩ := hidle
    rw [SmbiosInitialiseStruct_of_extend ty idx hext]
    have hfr := SmbiosAssignStructHandle_frame c (setHdrTypeLength T ty L) ty idx
    obtain ⟨-, hok, hsame⟩ := SmbiosAssignStructHandle_status c (setHdrTypeLength T ty L) ty idx
    rcases hass : SmbiosAssignStructHandle c (setHdrTypeLength T ty L) ty idx with ⟨st2, A⟩
    rw [hass] at hfr hok hsame
    simp only [setHdrTypeLength, writeByte_length] at hfr
    obtain ⟨f1, f2, f3, f4, f5⟩ := hfr
    cases st2 with
    | EFI_SUCCESS =>
      refine ⟨fun _ => ?_, fun h => by simp at h, fun h => by simp at h⟩
      simp only [OpenState, ValidTable]
      refine ⟨⟨by omega, by omega, by omega, by omega, fun h0 => by omega, by omega⟩,
        by omega, by omega, by omega, by omega⟩
    | EFI_OUT_OF_RESOURCES => simp at hok
    | EFI_INVALID_PARAMETER =>
      refine ⟨fun h => by simp at h, fun _ => ?_, fun h => by simp at h⟩
      simp only [IdleState, ValidTable]
      refine ⟨⟨⟨by omega, by omega, by omega, by omega, fun h0 => by omega, by omega⟩,
        by omega, by omega⟩, by omega⟩
  · have hne : (SmbiosExtendTable c nb t L).1 ≠ .EFI_SUCCESS := by rw [hext]; exact hst
    have hf := SmbiosExtendTable_failure c nb t L hne
    have hI : SmbiosInitialiseStruct c nb t ty L idx = (.EFI_OUT_OF_RESOURCES, t) := by
      unfold SmbiosInitialiseStruct
      rw [hf]
    rw [hI]
    simp

theorem SmbiosFinaliseStruct_cursors (t : OC_SMBIOS_TABLE) :
    (SmbiosFinaliseStruct t).Table = t.Table ∧ (SmbiosFinaliseStruct t).Pool = t.Pool ∧
      (SmbiosFinaliseStruct t).AllocatedTableSize = t.AllocatedTableSize ∧
      (SmbiosFinaliseStruct t).CurrentPtr = (SmbiosFinaliseStruct t).CurrentStrPtr ∧
      ((SmbiosFinaliseStruct t).CurrentStrPtr = t.CurrentStrPtr + 1 ∨
        (SmbiosFinaliseStruct t).CurrentStrPtr = t.CurrentStrPtr + 2) := by
  unfold SmbiosFinaliseStruct
  simp only
  generalize (readByte t.Table t.Pool (t.CurrentPtr + 1)).getD 0 = X
  split_ifs with h1 h2 h2
  all_goals simp only [true_and, and_true, true_or, or_true]
  all_goals first
    | trivial
    | (simp only [ne_eq, not_not] at h2; omega)

/-- `SmbiosFinaliseStruct` on an open record leaves a table between two
records, whatever length byte it reads in the header. -/
theorem SmbiosFinaliseStruct_capacity {c : Constants} (t : OC_SMBIOS_TABLE) (L : Nat)
    (ho : OpenState c t L) : IdleState c (SmbiosFinaliseStruct t) := by
  obtain ⟨h1, h2, h3, h4, h5⟩ := SmbiosFinaliseStruct_cursors t
  obtain ⟨⟨hbase, hle, hin, hpl, hnull, hmax⟩, ho1, ho2, ho3, ho4⟩ := ho
  unfold IdleState ValidTable
  rw [h1, h2, h3, h4]
  have hT0 : t.Table ≠ 0 := by
    intro h0
    have hp := congrArg List.length (hnull h0).2
    simp only [List.length_nil] at hp
    omega
  refine ⟨⟨by omega, le_refl _, by omega, hpl, fun h0 => absurd h0 hT0, by omega⟩, rfl, ho4⟩

/-- `SmbiosOverrideString` inside an open record, stored or not, leaves an
open record. -/
theorem SmbiosOverrideString_capacity {c : Constants} (hc : c.Sane) (nb : Nat)
    (t : OC_SMBIOS_TABLE) (text : List Nat) (idx : Nat) (hex : Bool) (L : Nat)
    (ho : OpenState c t L) :
    OpenState c (SmbiosOverrideString c nb t (some text) idx hex).Table L := by
  have hb := overrideLength_bound hc text hex
  unfold SmbiosOverrideString
  simp only
  generalize overrideLength c text hex = Len at hb ⊢
  have hBL : (if hex then (Len * 2 + SMBIOS_STRING_HEX_PREFIX_SIZE + 1) % 2 ^ 32
      else (Len + 1) % 2 ^ 32)
      = (if hex then Len * 2 + SMBIOS_STRING_HEX_PREFIX_SIZE + 1 else Len + 1) := by
    cases hex with
    | false =>
      simp only [Bool.false_eq_true, if_false] at hb ⊢
      exact Nat.mod_eq_of_lt (by omega)
    | true =>
      simp only [if_true] at hb ⊢
      exact Nat.mod_eq_of_lt (by omega)
  rw [hBL]
  generalize hBLdef : (if hex then Len * 2 + SMBIOS_STRING_HEX_PREFIX_SIZE + 1 else Len + 1)
    = BL at hb ⊢
  rcases hext : SmbiosExtendTable c nb t BL with ⟨st, T⟩
  by_cases hst : st = .EFI_SUCCESS
  · subst hst
    simp only
    obtain ⟨hcp, hsp, hroom, hpl, hmax, -, -, -, -, hT0⟩ :=
      SmbiosExtendTable_valid hc ho.1 hb hext
    have halloc := SmbiosExtendTable_alloc_le hext ho.2.2.2.2
    obtain ⟨⟨hbase, hle, -, -, -, -⟩, ho1, -, -, -⟩ := ho
    cases hex with
    | false =>
      simp only [Bool.false_eq_true, if_false] at hBLdef ⊢
      have hlen : (SmbiosSetString T.Table T.Pool T.CurrentStrPtr text Len idx).Pool.length
          = T.Pool.length := by
        unfold SmbiosSetString
        simp only
        split_ifs
        · exact writeBytes_length _ _ _ _
        · rfl
      have hbuf : (SmbiosSetString T.Table T.Pool T.CurrentStrPtr text Len idx).Buffer
          = T.CurrentStrPtr + (Len + 1) := rfl
      simp only [OpenState, ValidTable]
      rw [hlen, hbuf]
      refine ⟨⟨by omega, by omega, by omega, by omega, fun h0 => absurd h0 hT0, by omega⟩,
        by omega, by omega, by omega, by omega⟩
    | true =>
      simp only [if_true] at hBLdef ⊢
      unfold SMBIOS_STRING_HEX_PREFIX_SIZE at hBLdef
      have hboth : (SmbiosSetStringHex T.Table T.Pool T.CurrentStrPtr text Len idx).Pool.length
            = T.Pool.length ∧
          (SmbiosSetStringHex T.Table T.Pool T.CurrentStrPtr text Len idx).Buffer
            ≤ T.CurrentStrPtr + (Len * 2 + 2 + 1) ∧
          T.CurrentStrPtr
            ≤ (SmbiosSetStringHex T.Table T.Pool T.CurrentStrPtr text Len idx).Buffer := by
        unfold SmbiosSetStringHex
        simp only
        split_ifs
        · obtain ⟨h1, h2⟩ := hexLoop_length T.Table Len
            (writeByte T.Table (writeByte T.Table T.Pool T.CurrentStrPtr 48)
              (T.CurrentStrPtr + 1) 120) (T.CurrentStrPtr + 2) text
          rw [h1, h2, writeByte_length, writeByte_length]
          exact ⟨rfl, by omega, by omega⟩
        · exact ⟨rfl, by omega, by omega⟩
      obtain ⟨hlen, hbuf1, hbuf2⟩ := hboth
      simp only [OpenState, ValidTable]
      rw [hlen]
      refine ⟨⟨by omega, by omega, by omega, by omega, fun h0 => absurd h0 hT0, by omega⟩,
        by omega, by omega, by omega, by omega⟩
  · have hne : (SmbiosExtendTable c nb t BL).1 ≠ .EFI_SUCCESS := by rw [hext]; exact hst
    have hf := SmbiosExtendTable_failure c nb t BL hne
    rw [hext] at hf
    simp only [Prod.mk.injEq] at hf
    obtain ⟨rfl, rfl⟩ := hf
    exact ho

theorem stringTrace_open {c : Constants} (hc : c.Sane) (L : Nat) :
    ∀ (ss : List StringCall) (t : OC_SMBIOS_TABLE) (idx : Nat), OpenState c t L →
      ∀ x ∈ stringTrace c t idx ss, OpenState c x L := by
  intro ss
  induction ss with
  | nil => intro t idx _ x hx; simp [stringTrace] at hx
  | cons s rest ih =>
    intro t idx ho x hx
    have h1 := SmbiosOverrideString_capacity hc s.NewBuffer t s.Override idx s.Hex L ho
    simp only [stringTrace, List.mem_cons] at hx
    rcases hx with rfl | hx
    · exact h1
    · exact ih _ _ h1 x hx

theorem getLastD_of_forall {α : Type} (P : α → Prop) (l : List α) (d : α) (hd : P d)
    (hl : ∀ x ∈ l, P x) : P (l.getLastD d) := by
  cases l with
  | nil => exact hd
  | cons a as =>
    rw [List.getLastD_cons]
    induction as generalizing a with
    | nil => exact hl a (List.mem_cons_self _ _)
    | cons b bs ih =>
      rw [List.getLastD_cons]
      exact ih b (fun x hx => hl x (List.mem_cons_of_mem _ hx))

theorem TraceState_idle {c : Constants} {p : OC_SMBIOS_TABLE × BuildPhase}
    (h : TraceState c p) (hp : ∀ L, p.2 ≠ .opened L) : IdleState c p.1 := by
  obtain ⟨t, ph⟩ := p
  cases ph with
  | idle => exact h
  | opened L => exact absurd rfl (hp L)
  | rejected L => exact h.1

/-- One record build from a table between two records: every table of its
trace is as its phase says, and the last one is a table between two records
again. -/
theorem attemptTrace_state {c : Constants} (hc : c.Sane) (t : OC_SMBIOS_TABLE)
    (r : RecordBuild) (hidle : IdleState c t) (hL : r.MinLength < 256) :
    (∀ p ∈ attemptTrace c t r, TraceState c p) ∧
      IdleState c ((attemptTrace c t r).getLastD (t, BuildPhase.idle)).1 := by
  obtain ⟨hs, hi, ho⟩ := SmbiosInitialiseStruct_capacity hc r.NewBuffer t r.SmbiosType
    r.MinLength r.Index hidle hL
  unfold attemptTrace
  rcases hinit : SmbiosInitialiseStruct c r.NewBuffer t r.SmbiosType r.MinLength r.Index
    with ⟨st, t1⟩
  rw [hinit] at hs hi ho
  cases st with
  | EFI_SUCCESS =>
    have h1 : OpenState c t1 r.MinLength := hs rfl
    have h2 := stringTrace_open hc r.MinLength r.Strings t1 0 h1
    have h3 : OpenState c ((stringTrace c t1 0 r.Strings).getLastD t1) r.MinLength :=
      getLastD_of_forall (fun x => OpenState c x r.MinLength) _ _ h1 h2
    have h4 := SmbiosFinaliseStruct_capacity _ _ h3
    simp only
    constructor
    · intro p hp
      simp only [List.mem_cons, List.mem_append, List.mem_map, List.mem_singleton,
        List.not_mem_nil, or_false] at hp
      rcases hp with (rfl | ⟨x, hx, rfl⟩) | rfl
      · exact h1
      · exact h2 x hx
      · exact h4
    · rw [List.getLastD_concat]
      exact h4
  | EFI_INVALID_PARAMETER =>
    simp only
    constructor
    · intro p hp
      simp only [List.mem_singleton] at hp
      subst hp
      exact hi rfl
    · exact (hi rfl).1
  | EFI_OUT_OF_RESOURCES =>
    simp only
    have h1 : t1 = t := ho rfl
    subst h1
    constructor
    · intro p hp
      simp only [List.mem_singleton] at hp
      subst hp
      exact hidle
    · exact hidle

theorem sessionTrace_state {c : Constants} (hc : c.Sane) :
    ∀ (builds : List RecordBuild) (t : OC_SMBIOS_TABLE), IdleState c t →
      (∀ r ∈ builds, r.MinLength < 256) →
      ∀ p ∈ sessionTrace c t builds, TraceState c p := by
  intro builds
  induction builds with
  | nil => intro t _ _ p hp; simp [sessionTrace] at hp
  | cons r rest ih =>
    intro t hidle hL p hp
    obtain ⟨h1, h2⟩ := attemptTrace_state hc t r hidle (hL r (List.mem_cons_self _ _))
    simp only [sessionTrace, List.mem_append] at hp
    rcases hp with hp | hp
    · exact h1 p hp
    · exact ih _ h2 (fun x hx => hL x (List.mem_cons_of_mem _ hx)) p hp

theorem attemptTrace_phase (c : Constants) (t : OC_SMBIOS_TABLE) (r : RecordBuild) :
    ∀ p ∈ attemptTrace c t r,
      p.2 = .idle ∨ p.2 = .opened r.MinLength ∨ p.2 = .rejected r.MinLength := by
  unfold attemptTrace
  rcases SmbiosInitialiseStruct c r.NewBuffer t r.SmbiosType r.MinLength r.Index with ⟨st, t1⟩
  cases st with
  | EFI_SUCCESS =>
    intro p hp
    simp only [List.mem_cons, List.mem_append, List.mem_map, List.mem_singleton,
      List.not_mem_nil, or_false] at hp
    rcases hp with (rfl | ⟨x, hx, rfl⟩) | rfl
    · exact Or.inr (Or.inl rfl)
    · exact Or.inr (Or.inl rfl)
    · exact Or.inl rfl
  | EFI_INVALID_PARAMETER =>
    intro p hp
    simp only [List.mem_singleton] at hp
    subst hp
    exact Or.inr (Or.inr rfl)
  | EFI_OUT_OF_RESOURCES =>
    intro p hp
    simp only [List.mem_singleton] at hp
    subst hp
    exact Or.inl rfl

theorem sessionTrace_phase (c : Constants) :
    ∀ (builds : List RecordBuild) (t : OC_SMBIOS_TABLE), ∀ p ∈ sessionTrace c t builds,
      p.2 = .idle ∨ ∃ r ∈ builds, p.2 = .opened r.MinLength ∨ p.2 = .rejected r.MinLength := by
  intro builds
  induction builds with
  | nil => intro t p hp; simp [sessionTrace] at hp
  | cons r rest ih =>
    intro t p hp
    simp only [sessionTrace, List.mem_append] at hp
    rcases hp with hp | hp
    · rcases attemptTrace_phase c t r p hp with h | h
      · exact Or.inl h
      · exact Or.inr ⟨r, List.mem_cons_self _ _, h⟩
    · rcases ih _ p hp with h | ⟨x, hx, h⟩
      · exact Or.inl h
      · exact Or.inr ⟨x, List.mem_cons_of_mem _ hx, h⟩

theorem CapacityInvariant_of_idle {c : Constants} {t : OC_SMBIOS_TABLE} (h : IdleState c t) :
    CapacityInvariant c t := by
  obtain ⟨⟨hbase, hle, hin, hpl, -, -⟩, -, halloc⟩ := h
  exact ⟨hbase, hle, by omega, halloc, hpl⟩

theorem CapacityInvariant_of_open {c : Constants} {t : OC_SMBIOS_TABLE} {L : Nat}
    (h : OpenState c t L) : CapacityInvariant c t ∧ OpenRecordInvariant t L := by
  obtain ⟨⟨hbase, hle, hin, hpl, -, -⟩, h1, h2, -, halloc⟩ := h
  exact ⟨⟨hbase, hle, by omega, halloc, hpl⟩, h1, h2⟩

theorem emptyTable_idle (c : Constants) : IdleState c (emptyTable c) := by
  simp [IdleState, ValidTable, emptyTable]

/-- C18 (as stated, refuted): on the empty table a `SmbiosInitialiseStruct`
that the allocator refuses returns `EFI_OUT_OF_RESOURCES` and leaves the table
empty; the `SmbiosFinaliseStruct` that follows it moves both cursors two bytes
forward (one byte if the header byte it reads were non-zero), past the
allocated size, which is still 0.  The same happens on a table whose sixteen
records fill the allocated page exactly: the refused `SmbiosInitialiseStruct`
leaves it as it is and `SmbiosFinaliseStruct` moves the cursors to offset 4098
of a buffer of 4096 bytes. -/
theorem C18_finalise_after_failure :
    (SmbiosInitialiseStruct referenceConstants 0 (emptyTable referenceConstants) 1 4 1
        = (.EFI_OUT_OF_RESOURCES, emptyTable referenceConstants) ∧
      (SmbiosFinaliseStruct (emptyTable referenceConstants)).CurrentStrPtr
          - (SmbiosFinaliseStruct (emptyTable referenceConstants)).Table = 2 ∧
      (SmbiosFinaliseStruct (emptyTable referenceConstants)).AllocatedTableSize = 0 ∧
      ¬ ((SmbiosFinaliseStruct (emptyTable referenceConstants)).CurrentStrPtr
          - (SmbiosFinaliseStruct (emptyTable referenceConstants)).Table
        ≤ (SmbiosFinaliseStruct (emptyTable referenceConstants)).AllocatedTableSize)) ∧
    ((buildSession referenceConstants (emptyTable referenceConstants) fullPageSession).isSome ∧
      fullPageBuilt.1.CurrentStrPtr - fullPageBuilt.1.Table = 4096 ∧
      fullPageBuilt.1.AllocatedTableSize = 4096 ∧
      (SmbiosInitialiseStruct referenceConstants 0 fullPageBuilt.1 17 4 1).1
        = .EFI_OUT_OF_RESOURCES ∧
      (SmbiosInitialiseStruct referenceConstants 0 fullPageBuilt.1 17 4 1).2 = fullPageBuilt.1 ∧
      (SmbiosFinaliseStruct fullPageBuilt.1).CurrentStrPtr
          - (SmbiosFinaliseStruct fullPageBuilt.1).Table = 4098 ∧
      (SmbiosFinaliseStruct fullPageBuilt.1).AllocatedTableSize = 4096) := by
  decide!

/-- C18 (amended): in a construction session from the empty table in which a
failed `SmbiosInitialiseStruct` ends its record build and a successful one, for
a fixed length from 4 to 255, is followed by any string calls, failed ones
included, and one `SmbiosFinaliseStruct`, after every call: record cursor ≤
string cursor ≤ `AllocatedTableSize` ≤ page-rounded `SMBIOS_TABLE_MAX_LENGTH`,
as offsets from the buffer start, and the block has `AllocatedTableSize` bytes;
inside a record opened for fixed length `L`, string cursor ≥ record cursor + `L`
and string cursor + 2 ≤ `AllocatedTableSize`, so that the four header bytes at
the record cursor, the strings and the terminators lie inside the block; after
an `EFI_INVALID_PARAMETER` the block holds the record cursor + `L` + 2 bytes,
so the type and length bytes stored there lie inside it too. -/
theorem C18_capacity_invariant (c : Constants) (hc : c.Sane) (builds : List RecordBuild)
    (hL : ∀ r ∈ builds, 4 ≤ r.MinLength ∧ r.MinLength < 256) :
    ∀ p ∈ (emptyTable c, BuildPhase.idle) :: sessionTrace c (emptyTable c) builds,
      CapacityInvariant c p.1 ∧
      (∀ L, p.2 = .opened L →
        4 ≤ L ∧ OpenRecordInvariant p.1 L ∧
        p.1.CurrentPtr - p.1.Table + 4 ≤ p.1.AllocatedTableSize) ∧
      (∀ L, p.2 = .rejected L →
        4 ≤ L ∧ p.1.CurrentPtr - p.1.Table + L + 2 ≤ p.1.AllocatedTableSize) := by
  intro p hp
  rcases List.mem_cons.mp hp with rfl | hp
  · exact ⟨CapacityInvariant_of_idle (emptyTable_idle c), fun L h => by simp at h,
      fun L h => by simp at h⟩
  · have hst := sessionTrace_state hc builds (emptyTable c) (emptyTable_idle c)
      (fun r hr => (hL r hr).2) p hp
    have hph := sessionTrace_phase c builds (emptyTable c) p hp
    obtain ⟨t, ph⟩ := p
    cases ph with
    | idle =>
      exact ⟨CapacityInvariant_of_idle hst, fun L h => by simp at h, fun L h => by simp at h⟩
    | opened L0 =>
      have hL0 : 4 ≤ L0 := by
        rcases hph with h | ⟨r, hr, h | h⟩
        · simp at h
        · simp only [BuildPhase.opened.injEq] at h
          rw [h]; exact (hL r hr).1
        · simp at h
      obtain ⟨h1, h2⟩ := CapacityInvariant_of_open hst
      refine ⟨h1, fun L h => ?_, fun L h => by simp at h⟩
      simp only [BuildPhase.opened.injEq] at h
      subst h
      refine ⟨hL0, h2, ?_⟩
      obtain ⟨hbase, -, -, -, -⟩ := h1
      obtain ⟨h3, h4⟩ := h2
      simp only at hbase h3 h4 ⊢
      omega
    | rejected L0 =>
      have hL0 : 4 ≤ L0 := by
        rcases hph with h | ⟨r, hr, h | h⟩
        · simp at h
        · simp at h
        · simp only [BuildPhase.rejected.injEq] at h
          rw [h]; exact (hL r hr).1
      refine ⟨CapacityInvariant_of_idle hst.1, fun L h => by simp at h, fun L h => ?_⟩
      simp only [BuildPhase.rejected.injEq] at h
      subst h
      exact ⟨hL0, hst.2⟩

theorem C18_capacity_invariant_witness :
    (referenceConstants.Sane ∧ ∀ r ∈ failingSession, 4 ≤ r.MinLength ∧ r.MinLength < 256) ∧
    (∀ p ∈ (emptyTable referenceConstants, BuildPhase.idle)
        :: sessionTrace referenceConstants (emptyTable referenceConstants) failingSession,
      CapacityInvariant referenceConstants p.1 ∧
      (∀ L, p.2 = .opened L →
        4 ≤ L ∧ OpenRecordInvariant p.1 L ∧
        p.1.CurrentPtr - p.1.Table + 4 ≤ p.1.AllocatedTableSize) ∧
      (∀ L, p.2 = .rejected L →
        4 ≤ L ∧ p.1.CurrentPtr - p.1.Table + L + 2 ≤ p.1.AllocatedTableSize)) ∧
    (sessionTrace referenceConstants (emptyTable referenceConstants) failingSession).map
        (fun p => (p.1.CurrentPtr - p.1.Table, p.1.CurrentStrPtr - p.1.Table,
          p.1.AllocatedTableSize, p.2))
      = [(0, 0, 0, .idle), (0, 0, 4096, .rejected 4), (0, 8, 4096, .opened 8),
          (0, 10, 4096, .opened 8), (0, 73, 4096, .opened 8), (74, 74, 4096, .idle)] :=
  ⟨⟨by decide, by decide⟩,
    C18_capacity_invariant referenceConstants (by decide) failingSession (by decide),
    by decide!⟩

end OcSmbios
